import Mathlib

/-!
# MultiBaseMerge: the auto-archive script (`src/archive_batch.js`)

A shallow embedding of the archive script.  The script is a sequence of awaited
calls against external stores; here it is a pure state transformer over

* the master table, the tracking table (ledger) and the log table,
* the script's global accumulators (`totalRecordsArchived`, `errorLogs`, ...),
* a trace of the requests it issued, in order.

The replies of the external calls that the script can observe failing (the
create-base request, the tracking-table write, the bulk-create request and the
bulk update) are supplied by an `Outcomes` value, indexed by the identity of
the call, so that a statement quantified over all `Outcomes` covers every
combination of successes and failures.  Table reads and the log write are taken
to succeed.
-/

namespace MultiBaseMerge

/-! ## Configuration and cell values -/

/-- The `frequency` setting: the select offers exactly the values
`'1m'`, `'3m'`, `'6m'` and `'12m'`. -/
inductive Frequency where
  | m1
  | m3
  | m6
  | m12
deriving DecidableEq, Repr

/-- The text of a frequency value, as written to the log row. -/
def Frequency.text : Frequency → String
  | .m1 => "1m"
  | .m3 => "3m"
  | .m6 => "6m"
  | .m12 => "12m"

/-- The value of a date cell: an ISO date or date-time, kept as its UTC
calendar fields.  `minute` counts the minutes after UTC midnight and is `0`
for a date-only cell, which JavaScript reads as UTC midnight. -/
structure DateCell where
  year : Int
  month : Nat
  day : Nat
  minute : Nat
deriving DecidableEq, Repr

/-- A cell value as returned by `getCellValue`.  An object is kept as its
string-valued properties (a choice is `id`, `name`, `color`); an array is a
list of such objects. -/
inductive CellValue where
  | null
  | bool (b : Bool)
  | num (n : Int)
  | str (s : String)
  | date (d : DateCell)
  | obj (props : List (String × String))
  | arr (items : List (List (String × String)))
deriving DecidableEq, Repr

/-- JavaScript truthiness of a cell value. -/
def CellValue.truthy : CellValue → Bool
  | .null => false
  | .bool b => b
  | .num n => n != 0
  | .str s => s != ""
  | .date _ => true
  | .obj _ => true
  | .arr _ => true

/-- JavaScript truthiness of a value that is a string, `null` or `undefined`
(`none` stands for both `null` and `undefined`). -/
def truthyStr : Option String → Bool
  | some s => s != ""
  | none => false

/-- A record of the master table.  The `Archived` checkbox cell is `true` or
`null`, the `Date` cell is an ISO date or `null`; `cells` holds the other cells
by field name. -/
structure Record where
  id : String
  archived : Bool
  date : Option DateCell
  cells : List (String × CellValue)
deriving DecidableEq, Repr

/-- The constant `archivedFieldName`. -/
def archivedFieldName : String := "Archived"

/-- The method `record.getCellValue(fieldName)`. -/
def Record.getCellValue (r : Record) (fieldName : String) : CellValue :=
  if fieldName = archivedFieldName then (if r.archived then .bool true else .null)
  else if fieldName = "Date" then
    (match r.date with
     | some d => .date d
     | none => .null)
  else (r.cells.lookup fieldName).getD .null

/-- The destructured `settings`, with the name and field names of the master
table (`masterTableFields`) and the runtime's offset from UTC in minutes (what
`getFullYear` and `getMonth` add to the UTC instant). -/
structure Settings where
  tableName : String
  masterTableFields : List String
  apiKey : String
  frequency : Frequency
  workspaceId : String
  utcOffset : Int
deriving DecidableEq, Repr

/-! ## The runtime's `Date` -/

/-- Gregorian leap years. -/
def isLeapYear (y : Int) : Bool :=
  (y % 4 == 0 && y % 100 != 0) || y % 400 == 0

/-- Number of days of month `m` (1..12) of year `y`. -/
def daysInMonth (y : Int) (m : Nat) : Nat :=
  if m = 2 then (if isLeapYear y then 29 else 28)
  else if m = 4 ∨ m = 6 ∨ m = 9 ∨ m = 11 then 30
  else 31

/-- The local calendar year and month (1..12) of the instant `d` in a runtime
whose clock is `utcOffset` minutes ahead of UTC (an offset is less than a day,
so the local date is the UTC date, the day before or the day after). -/
def localYearMonth (utcOffset : Int) (d : DateCell) : Int × Nat :=
  let t : Int := (d.minute : Int) + utcOffset
  if t < 0 then
    (if 1 < d.day then (d.year, d.month)
     else if 1 < d.month then (d.year, d.month - 1)
     else (d.year - 1, 12))
  else if t < 1440 then (d.year, d.month)
  else
    (if d.day < daysInMonth d.year d.month then (d.year, d.month)
     else if d.month < 12 then (d.year, d.month + 1)
     else (d.year + 1, 1))

/-- The expression `new Date(recordDate)`: `new Date(null)` is the epoch. -/
def newDate (recordDate : Option DateCell) : DateCell :=
  match recordDate with
  | some d => d
  | none => { year := 1970, month := 1, day := 1, minute := 0 }

/-- The method `date.getFullYear()`. -/
def getFullYear (utcOffset : Int) (date : DateCell) : Int :=
  (localYearMonth utcOffset date).1

/-- The method `date.getMonth()`, which counts months from `0`. -/
def getMonth (utcOffset : Int) (date : DateCell) : Nat :=
  (localYearMonth utcOffset date).2 - 1

/-- The method `s.padStart(2, '0')`. -/
def padStart2 (s : String) : String :=
  String.mk (List.replicate (2 - s.length) '0') ++ s

/-- The expression `Math.ceil(month / 3)` on a natural number. -/
def ceilThird (month : Nat) : Nat := (month + 2) / 3

/-- The key computed inside `generateBaseDirectory` (the `if` chain). -/
def directoryKey (frequency : Frequency) (year : Int) (month : Nat) : String :=
  match frequency with
  | .m1 => toString year ++ "_" ++ padStart2 (toString month)
  | .m3 =>
    let quarter := ceilThird month
    toString year ++ "_Q" ++ toString quarter
  | .m6 =>
    let half := if month ≤ 6 then "H1" else "H2"
    toString year ++ "_" ++ half
  | .m12 => toString year

/-- The key computed inline in the migration loop (the nested conditional). -/
def inlineKey (frequency : Frequency) (year : Int) (month : Nat) : String :=
  if frequency = .m1 then toString year ++ "_" ++ padStart2 (toString month)
  else if frequency = .m3 then toString year ++ "_Q" ++ toString (ceilThird month)
  else if frequency = .m6 then
    (if month ≤ 6 then toString year ++ "_H1" else toString year ++ "_H2")
  else toString year

/-- The partition key of a date value under the settings, as
`generateBaseDirectory` derives it from a record that has a date. -/
def keyOfDate (cfg : Settings) (recordDate : DateCell) : String :=
  let date := newDate (some recordDate)
  let year := getFullYear cfg.utcOffset date
  let month := getMonth cfg.utcOffset date + 1
  directoryKey cfg.frequency year month

/-! ## The base directory -/

/-- The body of the loop `for (let record of records)` of
`generateBaseDirectory`.  The object `baseDirectory` is kept as its properties
in insertion order. -/
def directoryStep (cfg : Settings) (baseDirectory : List (String × String)) (record : Record) :
    List (String × String) :=
  match record.date with
  | some recordDate =>
    let key := keyOfDate cfg recordDate
    if (baseDirectory.lookup key).isNone then baseDirectory ++ [(key, "Archive " ++ key)]
    else baseDirectory
  | none => baseDirectory

/-- The function `generateBaseDirectory(records, frequency)`. -/
def generateBaseDirectory (cfg : Settings) (records : List Record) :
    List (String × String) :=
  records.foldl (directoryStep cfg) []

/-- Value of a decimal digit character. -/
def digitValue (c : Char) : Option Nat :=
  if 48 ≤ c.toNat ∧ c.toNat ≤ 57 then some (c.toNat - 48) else none

/-- Reads a list of decimal digits, most significant first. -/
def readDigits : List Char → Nat → Option Nat
  | [], acc => some acc
  | c :: cs, acc =>
    match digitValue c with
    | some d => readDigits cs (acc * 10 + d)
    | none => none

/-- The array index a property name denotes, if any: the canonical decimal
text of a number below `2^32 - 1`. -/
def arrayIndex (key : String) : Option Nat :=
  match key.data with
  | [] => none
  | c :: cs =>
    if c = '0' ∧ cs ≠ [] then none
    else
      match readDigits (c :: cs) 0 with
      | some n => if n < 4294967295 then some n else none
      | none => none

/-- Order of two properties whose names are array indices. -/
def indexLE (a b : String × String) : Prop :=
  (arrayIndex a.1).getD 0 ≤ (arrayIndex b.1).getD 0

instance : DecidableRel indexLE := fun a b =>
  inferInstanceAs (Decidable ((arrayIndex a.1).getD 0 ≤ (arrayIndex b.1).getD 0))

/-- The order in which `for (let key in object)` visits the properties:
array-index names in ascending numeric order, then the other names in
insertion order. -/
def forInOrder (object : List (String × String)) : List (String × String) :=
  List.insertionSort indexLE (object.filter (fun p => (arrayIndex p.1).isSome))
    ++ object.filter (fun p => !(arrayIndex p.1).isSome)

/-! ## External stores, replies and the run state -/

/-- A row of the tracking table `Archive Base Tracking`; a cell is `none` when
it is empty. -/
structure LedgerRow where
  archiveKey : Option String
  archiveName : Option String
  archiveId : Option String
  workspaceId : Option String
  link : Option String
  primaryTableId : Option String
deriving DecidableEq, Repr

/-- A row of the log table `Archive Process Logs` (the run id, the timestamp
and the execution time come from the wall clock and are left out). -/
structure LogRow where
  status : String
  totalRecordsProcessed : Nat
  totalRecordsArchived : Nat
  errors : String
  frequencyUsed : String
  baseIdsCreatedUpdated : String
  archivedPeriods : String
deriving DecidableEq, Repr

/-- What `createBaseIfNotExist` observes of its request: the `fetch` or
`response.json()` rejects (or the body is not an object), or a body `data`
arrives with `data.id` (`none`: absent) and `data.tables[0].id` (`none`: there
is no first table, so reading it throws; `some none`: the first table has no
`id`). -/
inductive CreateReply where
  | threw (error : String)
  | data (id : Option String) (firstTableId : Option (Option String))
deriving DecidableEq, Repr

/-- What `addRecordsToBaseInBatches` observes of its bulk-create `fetch`: it
rejects, or it resolves with a response whose `ok` flag tells whether the
status is 2xx. -/
inductive FetchReply where
  | threw (error : String)
  | responded (ok : Bool)
deriving DecidableEq, Repr

/-- The replies of the external calls of one run.  `createBase` is indexed by
the base name, `ledgerWrite` by the archive key (`false`: `createRecordAsync`
rejects), `bulkCreate` by the start index `i` of the batch, and `bulkUpdate` by
the start index of the batch and of the chunk (`some e`: `updateRecordsAsync`
rejects with `e`). -/
structure Outcomes where
  createBase : String → CreateReply
  ledgerWrite : String → Bool
  bulkCreate : Nat → FetchReply
  bulkUpdate : Nat → Nat → Option String

/-- A request issued by the script. -/
inductive Event where
  | ledgerLookup (archiveKey : String)
  | createBase (baseName : String)
  | ledgerWrite (row : LedgerRow)
  | bulkCreate (baseId : Option String) (recordsBatch : List Record)
      (recordsToCreate : List (List (String × CellValue))) (reply : FetchReply)
  | bulkUpdate (ids : List String)
  | logWrite (row : LogRow)
deriving DecidableEq, Repr

/-- The three tables the script works on. -/
structure World where
  master : List Record
  ledger : List LedgerRow
  logTable : List LogRow
deriving DecidableEq, Repr

/-- The state of a run: the tables, the script's global variables, the trace
of requests, and whether an uncaught rejection has ended the script. -/
structure Run where
  master : List Record
  ledger : List LedgerRow
  logTable : List LogRow
  totalRecordsArchived : Nat
  errorLogs : List String
  baseIdsCreatedUpdated : List String
  archivedPeriods : List String
  baseIds : List (String × Option String)
  trace : List Event
  aborted : Bool
deriving DecidableEq, Repr

/-- The state at the start of the run. -/
def Run.start (w : World) : Run :=
  { master := w.master, ledger := w.ledger, logTable := w.logTable,
    totalRecordsArchived := 0, errorLogs := [], baseIdsCreatedUpdated := [],
    archivedPeriods := [], baseIds := [], trace := [], aborted := false }

/-- The tables of a run state. -/
def Run.world (s : Run) : World :=
  { master := s.master, ledger := s.ledger, logTable := s.logTable }

/-- The list `unarchivedRecords`. -/
def unarchivedRecords (records : List Record) : List Record :=
  records.filter (fun record => !(record.getCellValue archivedFieldName).truthy)

/-! ## The registry functions -/

/-- Text of the `TypeError` raised by reading `data.tables[0].id` when there
is no first table. -/
def noFirstTableError : String := "TypeError: data.tables[0] is undefined"

/-- The function `createBaseIfNotExist(baseName)`: the pair
`(baseId, primaryTableId)` it returns and the state after it. -/
def createBaseIfNotExist (o : Outcomes) (baseName : String) (s : Run) :
    (Option String × Option String) × Run :=
  let s := { s with trace := s.trace ++ [Event.createBase baseName] }
  match o.createBase baseName with
  | .threw error =>
    ((none, none),
      { s with errorLogs := s.errorLogs ++ ["Error creating base: " ++ baseName ++ ", " ++ error] })
  | .data _ none =>
    ((none, none),
      { s with errorLogs :=
          s.errorLogs ++ ["Error creating base: " ++ baseName ++ ", " ++ noFirstTableError] })
  | .data id (some primaryTableId) => ((id, primaryTableId), s)

/-- The function `getExistingBaseId(archiveKey)` over the rows of the tracking
table, in table order. -/
def getExistingBaseId : List LedgerRow → String → Option String
  | [], _ => none
  | record :: rest, archiveKey =>
    if record.archiveKey = some archiveKey then record.archiveId
    else getExistingBaseId rest archiveKey

/-- The row `saveArchiveBaseInfo` writes. -/
def archiveRow (cfg : Settings) (archiveKey baseId baseName primaryTableId : String) :
    LedgerRow :=
  { archiveKey := some archiveKey, archiveName := some baseName, archiveId := some baseId,
    workspaceId := some cfg.workspaceId, link := some ("https://airtable.com/" ++ baseId),
    primaryTableId := some primaryTableId }

/-- The function `saveArchiveBaseInfo(archiveKey, baseId, baseName,
primaryTableId)`; when the write rejects nothing catches it and the script
ends. -/
def saveArchiveBaseInfo (cfg : Settings) (o : Outcomes)
    (archiveKey baseId baseName primaryTableId : String) (s : Run) : Run :=
  let row := archiveRow cfg archiveKey baseId baseName primaryTableId
  let s := { s with trace := s.trace ++ [Event.ledgerWrite row] }
  if o.ledgerWrite archiveKey then { s with ledger := s.ledger ++ [row] }
  else { s with aborted := true }

/-- The body of the loop `for (let key in baseDirectory)` for one property
`(key, baseDirectory[key])`. -/
def resolveKey (cfg : Settings) (o : Outcomes) (entry : String × String) (s : Run) : Run :=
  let key := entry.1
  let s := { s with trace := s.trace ++ [Event.ledgerLookup key] }
  let baseId := getExistingBaseId s.ledger key
  if !truthyStr baseId then
    let baseName := entry.2
    match createBaseIfNotExist o baseName s with
    | ((baseId, primaryTableId), s) =>
      let s := { s with baseIds := (key, baseId) :: s.baseIds }
      match baseId, primaryTableId with
      | some b, some t =>
        if truthyStr (some b) && truthyStr (some t) then
          let s := saveArchiveBaseInfo cfg o key b baseName t s
          if s.aborted then s
          else { s with archivedPeriods := s.archivedPeriods ++ [key] }
        else s
      | _, _ => s
  else { s with baseIds := (key, baseId) :: s.baseIds }

/-- The loop `for (let key in baseDirectory)` over the properties in visiting
order; it ends at once when the script has ended. -/
def resolvePass (cfg : Settings) (o : Outcomes) : List (String × String) → Run → Run
  | [], s => s
  | entry :: rest, s =>
    let s := resolveKey cfg o entry s
    if s.aborted then s else resolvePass cfg o rest s

/-- The lookup `baseIds[key]`; an absent property and a `null` base id both
read as `none`. -/
def baseIdFor (baseIds : List (String × Option String)) (key : String) : Option String :=
  (baseIds.lookup key).getD none

/-! ## Copying records -/

/-- The function `processFieldValue(fieldValue)`. -/
def processFieldValue (fieldValue : CellValue) : CellValue :=
  match fieldValue with
  | .obj props =>
    (match props.lookup "name" with
     | some name => if name != "" then .str name else fieldValue
     | none => fieldValue)
  | _ => fieldValue

/-- The array `recordsToCreate`: per record the `fields` object, as its
properties in the order of `fieldNames`. -/
def recordsToCreate (recordsBatch : List Record) (fieldNames : List String) :
    List (List (String × CellValue)) :=
  recordsBatch.map (fun record =>
    (fieldNames.filter (fun fieldName => fieldName != archivedFieldName)).map
      (fun fieldName => (fieldName, processFieldValue (record.getCellValue fieldName))))

/-- Effect of a successful `updateRecordsAsync(batch)` on the master table:
the `Archived` cell of every listed record becomes `true`. -/
def setArchived (ids : List String) (master : List Record) : List Record :=
  master.map (fun record => if record.id ∈ ids then { record with archived := true } else record)

/-- The text of a base id inside a template string. -/
def baseIdText : Option String → String
  | some b => b
  | none => "null"

/-- The loop `for (let i = 0; i < updates.length; i += 50)` of
`addRecordsToBaseInBatches`, from index `i`; `updates` is kept as the list of
record ids.  The result is the state and the error of the rejected update, if
one rejected.  The loop makes at most `updates.length` rounds, which `fuel`
bounds. -/
def updateLoop (upd : Nat → Option String) (updates : List String) :
    Nat → Nat → Run → Run × Option String
  | 0, _, s => (s, none)
  | fuel + 1, i, s =>
    if i < updates.length then
      let batch := (updates.drop i).take 50
      let s := { s with trace := s.trace ++ [Event.bulkUpdate batch] }
      match upd i with
      | some error => (s, some error)
      | none => updateLoop upd updates fuel (i + 50) { s with master := setArchived batch s.master }
    else (s, none)

/-- The function `addRecordsToBaseInBatches(baseId, recordsBatch,
fieldNames)`, given the reply of its `fetch` and of its updates.  The `fetch`
is awaited and its response is not looked at. -/
def addRecordsToBaseInBatches (reply : FetchReply) (upd : Nat → Option String)
    (baseId : Option String) (recordsBatch : List Record) (fieldNames : List String)
    (s : Run) : Run :=
  let toCreate := recordsToCreate recordsBatch fieldNames
  let s := { s with trace := s.trace ++ [Event.bulkCreate baseId recordsBatch toCreate reply] }
  match reply with
  | .threw error =>
    { s with errorLogs :=
        s.errorLogs ++ ["Error processing batch for base " ++ baseIdText baseId ++ ": " ++ error] }
  | .responded _ =>
    let s := { s with totalRecordsArchived := s.totalRecordsArchived + recordsBatch.length }
    let updates := recordsBatch.map (fun record => record.id)
    let updated := updateLoop upd updates updates.length 0 s
    match updated.2 with
    | some error =>
      { updated.1 with errorLogs :=
          updated.1.errorLogs
            ++ ["Error processing batch for base " ++ baseIdText baseId ++ ": " ++ error] }
    | none => updated.1

/-- The loop `for (let i = 0; i < unarchivedRecords.length; i += 10)`, from
index `i`.  The loop makes at most `unarchivedRecords.length` rounds, which
`fuel` bounds. -/
def migrationLoop (cfg : Settings) (o : Outcomes) (unarchived : List Record) :
    Nat → Nat → Run → Run
  | 0, _, s => s
  | fuel + 1, i, s =>
    if i < unarchived.length then
      let batch := (unarchived.drop i).take 10
      match batch with
      | [] => { s with aborted := true }
      | first :: _ =>
        let recordDate := first.date
        let date := newDate recordDate
        let year := getFullYear cfg.utcOffset date
        let month := getMonth cfg.utcOffset date + 1
        let key := inlineKey cfg.frequency year month
        migrationLoop cfg o unarchived fuel (i + 10)
          (addRecordsToBaseInBatches (o.bulkCreate i) (o.bulkUpdate i)
            (baseIdFor s.baseIds key) batch cfg.masterTableFields s)
    else s

/-! ## The script -/

/-- The log row of the early exit. -/
def earlyLogRow (cfg : Settings) (totalRecordsProcessed : Nat) : LogRow :=
  { status := "Success", totalRecordsProcessed := totalRecordsProcessed,
    totalRecordsArchived := 0, errors := "", frequencyUsed := cfg.frequency.text,
    baseIdsCreatedUpdated := "", archivedPeriods := "" }

/-- The log row written at the end of the run. -/
def finalLogRow (cfg : Settings) (totalRecordsProcessed : Nat) (s : Run) : LogRow :=
  { status := if s.errorLogs.length = 0 then "Success" else "Partial Success",
    totalRecordsProcessed := totalRecordsProcessed,
    totalRecordsArchived := s.totalRecordsArchived,
    errors := String.intercalate "\n" s.errorLogs,
    frequencyUsed := cfg.frequency.text,
    baseIdsCreatedUpdated := String.intercalate "\n" s.baseIdsCreatedUpdated,
    archivedPeriods := String.intercalate "\n" s.archivedPeriods }

/-- The call `logTable.createRecordAsync(row)`. -/
def writeLog (row : LogRow) (s : Run) : Run :=
  { s with logTable := s.logTable ++ [row], trace := s.trace ++ [Event.logWrite row] }

/-- One run of the script from step 5 on (the tables and the `Archived` field
exist). -/
def runScript (cfg : Settings) (o : Outcomes) (w : World) : Run :=
  let unarchived := unarchivedRecords w.master
  let totalRecordsProcessed := unarchived.length
  let s := Run.start w
  if unarchived.length = 0 then writeLog (earlyLogRow cfg totalRecordsProcessed) s
  else
    let baseDirectory := generateBaseDirectory cfg unarchived
    let s := resolvePass cfg o (forInOrder baseDirectory) s
    if s.aborted then s
    else
      let s := migrationLoop cfg o unarchived unarchived.length 0 s
      if s.aborted then s
      else writeLog (finalLogRow cfg totalRecordsProcessed s) s

/-! ## Observations on traces and tables -/

/-- The bulk-create requests of a trace: destination and records, in order. -/
def bulkCreates : List Event → List (Option String × List Record)
  | [] => []
  | .bulkCreate baseId recordsBatch _ _ :: rest => (baseId, recordsBatch) :: bulkCreates rest
  | _ :: rest => bulkCreates rest

/-- The records carried by the bulk-create requests of a trace, in order. -/
def copiedRecords : List Event → List Record
  | [] => []
  | .bulkCreate _ recordsBatch _ _ :: rest => recordsBatch ++ copiedRecords rest
  | _ :: rest => copiedRecords rest

/-- The record ids carried by the bulk updates of a trace, in order. -/
def flaggedIds : List Event → List String
  | [] => []
  | .bulkUpdate ids :: rest => ids ++ flaggedIds rest
  | _ :: rest => flaggedIds rest

/-! ## Sample inputs -/

/-- Settings of the samples: monthly archiving, runtime on UTC. -/
def sampleSettings : Settings :=
  { tableName := "Orders", masterTableFields := ["Name", "Date", "Archived"], apiKey := "pat",
    frequency := .m1, workspaceId := "wsp1", utcOffset := 0 }

/-- An unarchived record dated 15 January 2023. -/
def recJan : Record :=
  { id := "recJan", archived := false,
    date := some { year := 2023, month := 1, day := 15, minute := 0 },
    cells := [("Name", .str "a")] }

/-- An unarchived record dated 15 February 2023. -/
def recFeb : Record :=
  { id := "recFeb", archived := false,
    date := some { year := 2023, month := 2, day := 15, minute := 0 },
    cells := [("Name", .str "b")] }

/-- An unarchived record whose `Date` cell is empty. -/
def recNoDate : Record :=
  { id := "recNoDate", archived := false, date := none, cells := [("Name", .str "c")] }

/-- Replies of a run in which every call succeeds; the base created for a
name gets the id `app:` followed by the name. -/
def allSucceed : Outcomes :=
  { createBase := fun baseName => .data (some ("app:" ++ baseName)) (some (some "tbl1")),
    ledgerWrite := fun _ => true,
    bulkCreate := fun _ => .responded true,
    bulkUpdate := fun _ _ => none }

/-- Replies of a run in which the creation of `Archive 2023_02` rejects and
every other call succeeds; `copyOk` is the `ok` flag of the responses to the
bulk-create requests. -/
def febCreationFails (copyOk : Bool) : Outcomes :=
  { createBase := fun baseName =>
      if baseName = "Archive 2023_02" then .threw "Error: 422"
      else .data (some ("app:" ++ baseName)) (some (some "tbl1")),
    ledgerWrite := fun _ => true,
    bulkCreate := fun _ => .responded copyOk,
    bulkUpdate := fun _ _ => none }

/-- Replies of a run in which every bulk-create is answered with a non-2xx
status. -/
def copyRefused : Outcomes :=
  { createBase := fun baseName => .data (some ("app:" ++ baseName)) (some (some "tbl1")),
    ledgerWrite := fun _ => true,
    bulkCreate := fun _ => .responded false,
    bulkUpdate := fun _ _ => none }

/-- The replies observed by the bulk-create requests of a trace, in order. -/
def copyReplies : List Event → List FetchReply
  | [] => []
  | .bulkCreate _ _ _ reply :: rest => reply :: copyReplies rest
  | _ :: rest => copyReplies rest

/-! ## Properties of the tracking table -/

/-- The rows of the tracking table whose `Archive Key` is `key`. -/
def rowsFor (ledger : List LedgerRow) (key : String) : List LedgerRow :=
  ledger.filter (fun row => decide (row.archiveKey = some key))

/-- The tracking table holds at most one row per `Archive Key`. -/
def OneRowPerKey (ledger : List LedgerRow) : Prop :=
  ∀ key : String, (rowsFor ledger key).length ≤ 1

/-- Every row of the tracking table has a non-empty `Archive ID`. -/
def IdsNonEmpty (ledger : List LedgerRow) : Prop :=
  ∀ row ∈ ledger, truthyStr row.archiveId = true

/-- The create-base call fails: the request throws, or the response carries no
base id or no first table. -/
def CreateReply.failed : CreateReply → Bool
  | .threw _ => true
  | .data id firstTableId => id.isNone || firstTableId.isNone

/-- An event of the resolve pass: a ledger lookup, a create-base request or a
ledger write. -/
def Event.isRegistry : Event → Bool
  | .ledgerLookup _ => true
  | .createBase _ => true
  | .ledgerWrite _ => true
  | _ => false

/-- An event of the migration pass: a bulk-create request or a bulk update. -/
def Event.isCopy : Event → Bool
  | .bulkCreate _ _ _ _ => true
  | .bulkUpdate _ => true
  | _ => false

/-! ## Invariants of the resolve pass, per archive key -/

/-- The key stays registered under the base id `b`: the lookup still finds
`b`, its rows are still `rows`, no create-base request and no ledger write was
issued for it, and once it was looked up `baseIds` maps it to `b`. -/
def KeyKept (key b : String) (rows : List LedgerRow) (s : Run) : Prop :=
  getExistingBaseId s.ledger key = some b ∧
  rowsFor s.ledger key = rows ∧
  Event.createBase ("Archive " ++ key) ∉ s.trace ∧
  (∀ row, Event.ledgerWrite row ∈ s.trace → row.archiveKey ≠ some key) ∧
  (Event.ledgerLookup key ∈ s.trace → baseIdFor s.baseIds key = some b)

/-- No row was written for the key: its rows are still `rows`, no ledger write
was issued for it, and if its creation was requested the lookup still finds
nothing. -/
def KeyUnwritten (key : String) (rows : List LedgerRow) (s : Run) : Prop :=
  rowsFor s.ledger key = rows ∧
  (∀ row, Event.ledgerWrite row ∈ s.trace → row.archiveKey ≠ some key) ∧
  (Event.createBase ("Archive " ++ key) ∈ s.trace →
    truthyStr (getExistingBaseId s.ledger key) = false)

/-- The key that the ledger does not resolve gets a create-base request as
soon as it is looked up. -/
def KeyRetried (key : String) (s : Run) : Prop :=
  (Event.ledgerLookup key ∈ s.trace → Event.createBase ("Archive " ++ key) ∈ s.trace) ∧
  (Event.createBase ("Archive " ++ key) ∉ s.trace →
    truthyStr (getExistingBaseId s.ledger key) = false)

/-- Every key of `archivedPeriods` is resolved by the ledger, to the base id
that `baseIds` holds for it. -/
def PeriodsRegistered (s : Run) : Prop :=
  ∀ key ∈ s.archivedPeriods,
    truthyStr (getExistingBaseId s.ledger key) = true ∧
    baseIdFor s.baseIds key = getExistingBaseId s.ledger key

/-! ## Observations for the run log, the batches and the field values -/

/-- The rows of the log writes of a trace, in order. -/
def logWrites : List Event → List LogRow
  | [] => []
  | .logWrite row :: rest => row :: logWrites rest
  | _ :: rest => logWrites rest

/-- The record-id lists of the bulk updates of a trace, one per
`updateRecordsAsync` call, in order. -/
def updateCalls : List Event → List (List String)
  | [] => []
  | .bulkUpdate ids :: rest => ids :: updateCalls rest
  | _ :: rest => updateCalls rest

/-- The batches of the bulk-create requests of a trace, one per call of
`addRecordsToBaseInBatches`, in order. -/
def migrateBatches : List Event → List (List Record)
  | [] => []
  | .bulkCreate _ recordsBatch _ _ :: rest => recordsBatch :: migrateBatches rest
  | _ :: rest => migrateBatches rest

/-- The slices `l.slice(i, i + size)`, `l.slice(i + size, i + 2 * size)`, ...
that a loop `for (; i < l.length; i += size)` cuts, at most `fuel` of them. -/
def slicesFrom {α : Type} (size : Nat) (l : List α) : Nat → Nat → List (List α)
  | 0, _ => []
  | fuel + 1, i =>
    if i < l.length then (l.drop i).take size :: slicesFrom size l fuel (i + size) else []

/-- The summed sizes of the batches whose bulk-create `fetch` resolved,
whatever the status of the response. -/
def resolvedSize : List Event → Nat
  | [] => 0
  | .bulkCreate _ recordsBatch _ (.responded _) :: rest => recordsBatch.length + resolvedSize rest
  | _ :: rest => resolvedSize rest

/-- The summed sizes of the batches whose bulk-create was answered with a 2xx
status. -/
def succeededSize : List Event → Nat
  | [] => 0
  | .bulkCreate _ recordsBatch _ (.responded true) :: rest =>
    recordsBatch.length + succeededSize rest
  | _ :: rest => succeededSize rest

/-- The eligible records: those that have a date and whose `Archived` flag is
unset. -/
def eligibleRecords (records : List Record) : List Record :=
  records.filter (fun record =>
    record.date.isSome && !(record.getCellValue archivedFieldName).truthy)

/-- A primitive value: a string (a date cell is one), a number, a boolean or
`null`. -/
def CellValue.isPrimitive : CellValue → Bool
  | .null => true
  | .bool _ => true
  | .num _ => true
  | .str _ => true
  | .date _ => true
  | .obj _ => false
  | .arr _ => false

/-- The record `a` as it is after a run: unchanged, or with its `Archived` cell
set and nothing else written. -/
def FlagOnly (a b : Record) : Prop :=
  b = a ∨ b = { a with archived := true }

/-- Replies of a run in which every write to the tracking table rejects and
every other call succeeds. -/
def ledgerWriteRejected : Outcomes :=
  { createBase := fun baseName => .data (some ("app:" ++ baseName)) (some (some "tbl1")),
    ledgerWrite := fun _ => false,
    bulkCreate := fun _ => .responded true,
    bulkUpdate := fun _ _ => none }

/-- A master table of 23 unarchived records, all dated 15 January 2023. -/
def januaryRecords : List Record :=
  (List.range 23).map (fun k =>
    { id := "rec" ++ toString k, archived := false,
      date := some { year := 2023, month := 1, day := 15, minute := 0 }, cells := [] })

/-- The cell value of a multiple-select field with the two choices `Open` and
`Closed` selected. -/
def twoChoices : CellValue :=
  .arr [[("id", "selOpen"), ("name", "Open"), ("color", "blue")],
        [("id", "selClosed"), ("name", "Closed"), ("color", "red")]]

/-- An unarchived record dated 15 January 2023 whose multiple-select cell
`Tags` holds `twoChoices`. -/
def recTagged : Record :=
  { id := "recTagged", archived := false,
    date := some { year := 2023, month := 1, day := 15, minute := 0 },
    cells := [("Tags", twoChoices)] }

/-! ## The key of archive.js, periods and digits -/

/-- The key computed inline in the migration loop of `archive.js` (an `if`
chain whose `'6m'` branch is a conditional expression). -/
def archiveLoopKey (frequency : Frequency) (year : Int) (month : Nat) : String :=
  match frequency with
  | .m1 => toString year ++ "_" ++ padStart2 (toString month)
  | .m3 =>
    let quarter := ceilThird month
    toString year ++ "_Q" ++ toString quarter
  | .m6 => if month ≤ 6 then toString year ++ "_H1" else toString year ++ "_H2"
  | .m12 => toString year

/-- The period of a date under a frequency, from its calendar year and month:
the year with the month, the quarter (1..4), the half (1 or 2), or nothing
more for the annual frequency. -/
def periodOf (frequency : Frequency) (year : Int) (month : Nat) : Int × Nat :=
  match frequency with
  | .m1 => (year, month)
  | .m3 => (year, ceilThird month)
  | .m6 => (year, if month ≤ 6 then 1 else 2)
  | .m12 => (year, 0)

/-- The number `m` written with exactly two decimal digits. -/
def twoDigits (m : Nat) : String :=
  String.mk [Nat.digitChar (m / 10), Nat.digitChar (m % 10)]

/-- The keys of the base directory, in insertion order. -/
def directoryKeys (baseDirectory : List (String × String)) : List String :=
  baseDirectory.map (fun entry => entry.1)

/-! ## The base schema -/

/-- A choice of a select field of the master table. -/
structure Choice where
  id : String
  name : String
  color : Option String
deriving DecidableEq, Repr

/-- A choice of the projected schema: a name and a color, nothing else. -/
structure SchemaChoice where
  name : String
  color : Option String
deriving DecidableEq, Repr

/-- The value of `dateFormat`: its `name` and `format`. -/
structure DateFormat where
  name : String
  format : String
deriving DecidableEq, Repr

/-- The `options` of a field of the master table, with the properties the
script reads: `choices` of a select field, `precision` of a number field,
`dateFormat` of a date field (`none`: unset), and the `icon` and `color` of a
checkbox field. -/
structure FieldOptions where
  choices : List Choice
  precision : Option Nat
  dateFormat : Option DateFormat
  icon : Option String
  color : Option String
deriving DecidableEq, Repr

/-- A field of the master table; `description` is `none` when the field has
none. -/
structure Field where
  type : String
  name : String
  description : Option String
  options : FieldOptions
deriving DecidableEq, Repr

/-- The `options` of a projected field. -/
inductive SchemaOptions where
  | verbatim (options : FieldOptions)
  | choices (choices : List SchemaChoice)
  | precision (precision : Option Nat)
  | dateFormat (dateFormat : DateFormat)
deriving DecidableEq, Repr

/-- An entry of `baseSchema.fields`; `options` is `none` when the entry has no
`options` property. -/
structure FieldSchema where
  type : String
  name : String
  description : String
  options : Option SchemaOptions
deriving DecidableEq, Repr

/-- The expression `field.description || ""`. -/
def descriptionOrEmpty (description : Option String) : String :=
  match description with
  | some text => if text != "" then text else ""
  | none => ""

/-- The projection `choice => ({ name: choice.name, color: choice.color })`. -/
def projectChoice (choice : Choice) : SchemaChoice :=
  { name := choice.name, color := choice.color }

/-- The callback of `.map(field => ...)` in the definition of `baseSchema`. -/
def fieldSchemaOf (field : Field) : FieldSchema :=
  let fieldSchema : FieldSchema :=
    { type := field.type, name := field.name,
      description := descriptionOrEmpty field.description, options := none }
  if field.type = "checkbox" then
    { fieldSchema with options := some (.verbatim field.options) }
  else if field.type = "singleSelect" ∨ field.type = "multipleSelects" then
    { fieldSchema with options := some (.choices (field.options.choices.map projectChoice)) }
  else if field.type = "number" then
    { fieldSchema with options := some (.precision field.options.precision) }
  else if field.type = "date" then
    { fieldSchema with
      options := some (.dateFormat
        (match field.options.dateFormat with
         | some fmt => fmt
         | none => { name := "local", format := "l" })) }
  else if field.type = "multipleAttachments" then
    { fieldSchema with options := none }
  else fieldSchema

/-- The array `baseSchema.fields`. -/
def baseSchemaFields (fields : List Field) : List FieldSchema :=
  (fields.filter (fun field => field.name != archivedFieldName)).map fieldSchemaOf

/-- Options of a field that has none of the optional properties. -/
def noOptions : FieldOptions :=
  { choices := [], precision := none, dateFormat := none, icon := none, color := none }

/-- A single-select field `Status` with the choices Open (blue) and Closed
(red). -/
def statusField : Field :=
  { type := "singleSelect", name := "Status", description := none,
    options := { noOptions with
      choices := [{ id := "selOpen", name := "Open", color := some "blue" },
                  { id := "selClosed", name := "Closed", color := some "red" }] } }

/-- A master table with the fields Name, Status, Archived and Date. -/
def sampleFields : List Field :=
  [{ type := "singleLineText", name := "Name", description := some "Customer", options := noOptions },
   statusField,
   { type := "checkbox", name := "Archived", description := none,
     options := { noOptions with icon := some "check", color := some "greenBright" } },
   { type := "date", name := "Date", description := none, options := noOptions }]

/-- The date-only cell value `2023-01-01`. -/
def newYearsDay : DateCell := { year := 2023, month := 1, day := 1, minute := 0 }

/-- A batch of 120 records with distinct ids. -/
def bigBatch : List Record :=
  (List.range 120).map (fun k =>
    { id := "rec" ++ toString k, archived := false,
      date := some { year := 2023, month := 1, day := 15, minute := 0 }, cells := [] })

/-! ## The resolve pass -/

theorem truthyStr_eq_true {v : Option String} :
    truthyStr v = true ↔ ∃ b, v = some b ∧ b ≠ "" := by
  cases v <;> simp [truthyStr]

/-- The possible results of one round of the resolve loop. -/
theorem resolveKey_cases (cfg : Settings) (o : Outcomes) (entry : String × String) (s : Run)
    (hs : s.aborted = false) :
    (truthyStr (getExistingBaseId s.ledger entry.1) = true ∧
      resolveKey cfg o entry s =
        { s with trace := s.trace ++ [Event.ledgerLookup entry.1],
                 baseIds := (entry.1, getExistingBaseId s.ledger entry.1) :: s.baseIds }) ∨
    (truthyStr (getExistingBaseId s.ledger entry.1) = false ∧
      ∃ baseId errs,
        resolveKey cfg o entry s =
          { s with trace := s.trace ++ [Event.ledgerLookup entry.1, Event.createBase entry.2],
                   baseIds := (entry.1, baseId) :: s.baseIds,
                   errorLogs := s.errorLogs ++ errs }) ∨
    (truthyStr (getExistingBaseId s.ledger entry.1) = false ∧
      ∃ b t, o.createBase entry.2 = .data (some b) (some (some t)) ∧ b ≠ "" ∧ t ≠ "" ∧
        ((o.ledgerWrite entry.1 = true ∧
          resolveKey cfg o entry s =
            { s with trace := s.trace ++ [Event.ledgerLookup entry.1, Event.createBase entry.2,
                                Event.ledgerWrite (archiveRow cfg entry.1 b entry.2 t)],
                     baseIds := (entry.1, some b) :: s.baseIds,
                     ledger := s.ledger ++ [archiveRow cfg entry.1 b entry.2 t],
                     archivedPeriods := s.archivedPeriods ++ [entry.1] }) ∨
         (o.ledgerWrite entry.1 = false ∧
          resolveKey cfg o entry s =
            { s with trace := s.trace ++ [Event.ledgerLookup entry.1, Event.createBase entry.2,
                                Event.ledgerWrite (archiveRow cfg entry.1 b entry.2 t)],
                     baseIds := (entry.1, some b) :: s.baseIds,
                     aborted := true }))) := by
  cases hlook : truthyStr (getExistingBaseId s.ledger entry.1)
  · right
    cases hrep : o.createBase entry.2 with
    | threw error =>
      left
      refine ⟨rfl, none, ["Error creating base: " ++ entry.2 ++ ", " ++ error], ?_⟩
      simp [resolveKey, hlook, createBaseIfNotExist, hrep]
    | data id ft =>
      cases ft with
      | none =>
        left
        refine ⟨rfl, none, ["Error creating base: " ++ entry.2 ++ ", " ++ noFirstTableError], ?_⟩
        simp [resolveKey, hlook, createBaseIfNotExist, hrep]
      | some ptid =>
        cases id with
        | none =>
          left
          refine ⟨rfl, none, [], ?_⟩
          cases ptid <;> simp [resolveKey, hlook, createBaseIfNotExist, hrep]
        | some b =>
          cases ptid with
          | none =>
            left
            refine ⟨rfl, some b, [], ?_⟩
            simp [resolveKey, hlook, createBaseIfNotExist, hrep]
          | some t =>
            by_cases hb : b = ""
            · left
              refine ⟨rfl, some b, [], ?_⟩
              have hb1 : truthyStr (some b) = false := by simp [truthyStr, hb]
              simp [resolveKey, hlook, createBaseIfNotExist, hrep, hb1]
            · have hb1 : truthyStr (some b) = true := by simp [truthyStr, hb]
              by_cases ht : t = ""
              · left
                refine ⟨rfl, some b, [], ?_⟩
                have ht1 : truthyStr (some t) = false := by simp [truthyStr, ht]
                simp [resolveKey, hlook, createBaseIfNotExist, hrep, ht1]
              · right
                have ht1 : truthyStr (some t) = true := by simp [truthyStr, ht]
                refine ⟨rfl, b, t, rfl, hb, ht, ?_⟩
                cases hw : o.ledgerWrite entry.1
                · right
                  refine ⟨rfl, ?_⟩
                  simp [resolveKey, hlook, createBaseIfNotExist, hrep, hb1, ht1,
                    saveArchiveBaseInfo, hw]
                · left
                  refine ⟨rfl, ?_⟩
                  simp [resolveKey, hlook, createBaseIfNotExist, hrep, hb1, ht1,
                    saveArchiveBaseInfo, hw, hs]
  · left
    refine ⟨rfl, ?_⟩
    simp [resolveKey, hlook]

theorem resolvePass_invariant (cfg : Settings) (o : Outcomes) (P : Run → Prop)
    (entries : List (String × String))
    (hstep : ∀ e ∈ entries, ∀ s, s.aborted = false → P s → P (resolveKey cfg o e s))
    (s : Run) (hs : s.aborted = false) (h : P s) : P (resolvePass cfg o entries s) := by
  induction entries generalizing s with
  | nil => simpa [resolvePass] using h
  | cons e rest ih =>
    have h1 : P (resolveKey cfg o e s) := hstep e (by simp) s hs h
    simp only [resolvePass]
    cases hab : (resolveKey cfg o e s).aborted
    · simp only [Bool.false_eq_true, if_false]
      exact ih (fun e' he' => hstep e' (by simp [he'])) _ hab h1
    · simpa using h1

theorem getExistingBaseId_append_other (ledger : List LedgerRow) (row : LedgerRow) (key : String)
    (h : row.archiveKey ≠ some key) :
    getExistingBaseId (ledger ++ [row]) key = getExistingBaseId ledger key := by
  induction ledger with
  | nil => simp [getExistingBaseId, h]
  | cons r rest ih =>
    by_cases hr : r.archiveKey = some key <;> simp [getExistingBaseId, hr, ih]

theorem getExistingBaseId_append_found (ledger : List LedgerRow) (row : LedgerRow) (key : String)
    (h : truthyStr (getExistingBaseId ledger key) = true) :
    getExistingBaseId (ledger ++ [row]) key = getExistingBaseId ledger key := by
  induction ledger with
  | nil => simp [getExistingBaseId, truthyStr] at h
  | cons r rest ih =>
    by_cases hr : r.archiveKey = some key
    · simp [getExistingBaseId, hr]
    · simp only [getExistingBaseId, hr, if_false, List.cons_append] at h ⊢
      exact ih h

theorem rowsFor_append (ledger : List LedgerRow) (row : LedgerRow) (key : String) :
    rowsFor (ledger ++ [row]) key
      = rowsFor ledger key ++ (if row.archiveKey = some key then [row] else []) := by
  by_cases h : row.archiveKey = some key <;> simp [rowsFor, List.filter_append, List.filter_cons, h]

theorem rowsFor_eq_nil_of_not_found (ledger : List LedgerRow) (key : String)
    (hids : IdsNonEmpty ledger) (h : truthyStr (getExistingBaseId ledger key) = false) :
    rowsFor ledger key = [] := by
  induction ledger with
  | nil => rfl
  | cons r rest ih =>
    by_cases hr : r.archiveKey = some key
    · have h1 : truthyStr r.archiveId = true := hids r (by simp)
      simp [getExistingBaseId, hr, h1] at h
    · simp only [getExistingBaseId, hr, if_false] at h
      have h2 : IdsNonEmpty rest := fun row hrow => hids row (by simp [hrow])
      simp [rowsFor, List.filter_cons, hr] 
      simpa [rowsFor] using ih h2 h

theorem archiveRow_key (cfg : Settings) (k b n t : String) :
    (archiveRow cfg k b n t).archiveKey = some k := rfl

theorem archiveRow_id (cfg : Settings) (k b n t : String) :
    (archiveRow cfg k b n t).archiveId = some b := rfl

/-- One round of the resolve loop keeps the tracking table well formed. -/
theorem resolveKey_ledger_ok (cfg : Settings) (o : Outcomes) (e : String × String) (s : Run)
    (hs : s.aborted = false) (h : OneRowPerKey s.ledger ∧ IdsNonEmpty s.ledger) :
    OneRowPerKey (resolveKey cfg o e s).ledger ∧ IdsNonEmpty (resolveKey cfg o e s).ledger := by
  rcases resolveKey_cases cfg o e s hs with ⟨_, hr⟩ | ⟨_, _, _, hr⟩ | ⟨hl, b, t, _, hb, _, ⟨_, hr⟩ | ⟨_, hr⟩⟩
  · rw [hr]; exact h
  · rw [hr]; exact h
  · rw [hr]
    refine ⟨fun key => ?_, fun row hrow => ?_⟩
    · show (rowsFor (s.ledger ++ [archiveRow cfg e.1 b e.2 t]) key).length ≤ 1
      rw [rowsFor_append]
      by_cases hk : e.1 = key
      · subst hk
        rw [rowsFor_eq_nil_of_not_found _ _ h.2 hl]
        simp [archiveRow_key]
      · have := h.1 key
        simpa [archiveRow_key, hk] using this
    · have hrow' : row ∈ s.ledger ++ [archiveRow cfg e.1 b e.2 t] := hrow
      rcases List.mem_append.1 hrow' with h1 | h1
      · exact h.2 row h1
      · simp at h1
        subst h1
        simp [archiveRow_id, truthyStr, hb]
  · rw [hr]; exact h

/-! ## The migration pass -/

theorem copiedRecords_append (a b : List Event) :
    copiedRecords (a ++ b) = copiedRecords a ++ copiedRecords b := by
  induction a with
  | nil => rfl
  | cons e rest ih => cases e <;> simp [copiedRecords, ih]

/-- What the update loop leaves unchanged, and the events it adds. -/
theorem updateLoop_frame (upd : Nat → Option String) (updates : List String) (fuel i : Nat)
    (s : Run) :
    (updateLoop upd updates fuel i s).1.ledger = s.ledger ∧
    (updateLoop upd updates fuel i s).1.baseIds = s.baseIds ∧
    (updateLoop upd updates fuel i s).1.archivedPeriods = s.archivedPeriods ∧
    (updateLoop upd updates fuel i s).1.aborted = s.aborted ∧
    (updateLoop upd updates fuel i s).1.logTable = s.logTable ∧
    ∃ evs, (updateLoop upd updates fuel i s).1.trace = s.trace ++ evs ∧
      ∀ e ∈ evs, ∃ ids, e = Event.bulkUpdate ids := by
  induction fuel generalizing i s with
  | zero => exact ⟨rfl, rfl, rfl, rfl, rfl, [], by simp [updateLoop], by simp⟩
  | succ fuel ih =>
    simp only [updateLoop]
    split
    · cases upd i with
      | some error =>
        exact ⟨rfl, rfl, rfl, rfl, rfl, [Event.bulkUpdate ((updates.drop i).take 50)], rfl,
          by simp⟩
      | none =>
        obtain ⟨h1, h2, h3, h4, h5, evs, h6, h7⟩ := ih (i + 50)
          { s with trace := s.trace ++ [Event.bulkUpdate ((updates.drop i).take 50)],
                   master := setArchived ((updates.drop i).take 50) s.master }
        refine ⟨h1, h2, h3, h4, h5, Event.bulkUpdate ((updates.drop i).take 50) :: evs, ?_, ?_⟩
        · simpa using h6
        · intro e he
          rcases List.mem_cons.1 he with rfl | he
          · exact ⟨_, rfl⟩
          · exact h7 e he
    · exact ⟨rfl, rfl, rfl, rfl, rfl, [], by simp, by simp⟩

/-- What one call of `addRecordsToBaseInBatches` leaves unchanged, and the
events it adds: the bulk-create request, then bulk updates only. -/
theorem addRecords_frame (reply : FetchReply) (upd : Nat → Option String)
    (baseId : Option String) (batch : List Record) (fieldNames : List String) (s : Run) :
    (addRecordsToBaseInBatches reply upd baseId batch fieldNames s).ledger = s.ledger ∧
    (addRecordsToBaseInBatches reply upd baseId batch fieldNames s).baseIds = s.baseIds ∧
    (addRecordsToBaseInBatches reply upd baseId batch fieldNames s).archivedPeriods
      = s.archivedPeriods ∧
    (addRecordsToBaseInBatches reply upd baseId batch fieldNames s).aborted = s.aborted ∧
    (addRecordsToBaseInBatches reply upd baseId batch fieldNames s).logTable = s.logTable ∧
    ∃ evs, (addRecordsToBaseInBatches reply upd baseId batch fieldNames s).trace
        = s.trace ++ Event.bulkCreate baseId batch (recordsToCreate batch fieldNames) reply :: evs ∧
      (∀ e ∈ evs, ∃ ids, e = Event.bulkUpdate ids) ∧
      (∀ error, reply = FetchReply.threw error → evs = []) := by
  cases reply with
  | threw error =>
    exact ⟨rfl, rfl, rfl, rfl, rfl, [], by simp [addRecordsToBaseInBatches], by simp, by simp⟩
  | responded ok =>
    obtain ⟨h1, h2, h3, h4, h5, evs, h6, h7⟩ := updateLoop_frame upd
      (batch.map (fun record => record.id)) (batch.map (fun record => record.id)).length 0
      { s with trace := s.trace ++ [Event.bulkCreate baseId batch
                  (recordsToCreate batch fieldNames) (FetchReply.responded ok)],
               totalRecordsArchived := s.totalRecordsArchived + batch.length }
    simp only [addRecordsToBaseInBatches]
    split
    · exact ⟨h1, h2, h3, h4, h5, evs, by simpa using h6, h7, by simp⟩
    · exact ⟨h1, h2, h3, h4, h5, evs, by simpa using h6, h7, by simp⟩

theorem copiedRecords_updates (evs : List Event) (h : ∀ e ∈ evs, ∃ ids, e = Event.bulkUpdate ids) :
    copiedRecords evs = [] := by
  induction evs with
  | nil => rfl
  | cons e rest ih =>
    obtain ⟨ids, rfl⟩ := h e (by simp)
    simpa [copiedRecords] using ih (fun e he => h e (by simp [he]))

/-- What the migration loop leaves unchanged, and the events it adds: copy
events only, whose bulk-create requests carry the rest of the list when the
fuel covers it. -/
theorem migrationLoop_frame (cfg : Settings) (o : Outcomes) (unarchived : List Record)
    (fuel i : Nat) (s : Run) :
    (migrationLoop cfg o unarchived fuel i s).ledger = s.ledger ∧
    (migrationLoop cfg o unarchived fuel i s).baseIds = s.baseIds ∧
    (migrationLoop cfg o unarchived fuel i s).archivedPeriods = s.archivedPeriods ∧
    (migrationLoop cfg o unarchived fuel i s).aborted = s.aborted ∧
    (migrationLoop cfg o unarchived fuel i s).logTable = s.logTable ∧
    ∃ evs, (migrationLoop cfg o unarchived fuel i s).trace = s.trace ++ evs ∧
      (∀ e ∈ evs, e.isCopy = true) ∧
      (unarchived.length ≤ i + 10 * fuel → copiedRecords evs = unarchived.drop i) := by
  induction fuel generalizing i s with
  | zero =>
    refine ⟨rfl, rfl, rfl, rfl, rfl, [], by simp [migrationLoop], by simp, ?_⟩
    intro h
    simp only [Nat.mul_zero, Nat.add_zero] at h
    simp [copiedRecords, List.drop_eq_nil_of_le h]
  | succ fuel ih =>
    simp only [migrationLoop]
    split
    · next hi =>
      split
      · next hnil =>
        exfalso
        rcases List.take_eq_nil_iff.1 hnil with h | h
        · omega
        · have := List.drop_eq_nil_iff.1 h
          omega
      · next first rest hcons =>
        rw [hcons]
        obtain ⟨a1, a2, a3, a4, a5, evs1, a6, a7, _⟩ :=
          addRecords_frame (o.bulkCreate i) (o.bulkUpdate i)
            (baseIdFor s.baseIds (inlineKey cfg.frequency
              (getFullYear cfg.utcOffset (newDate first.date))
              (getMonth cfg.utcOffset (newDate first.date) + 1)))
            (first :: rest) cfg.masterTableFields s
        obtain ⟨b1, b2, b3, b4, b5, evs2, b6, b7, b8⟩ := ih (i + 10)
          (addRecordsToBaseInBatches (o.bulkCreate i) (o.bulkUpdate i)
            (baseIdFor s.baseIds (inlineKey cfg.frequency
              (getFullYear cfg.utcOffset (newDate first.date))
              (getMonth cfg.utcOffset (newDate first.date) + 1)))
            (first :: rest) cfg.masterTableFields s)
        refine ⟨b1.trans a1, b2.trans a2, b3.trans a3, b4.trans a4, b5.trans a5,
          Event.bulkCreate (baseIdFor s.baseIds (inlineKey cfg.frequency
              (getFullYear cfg.utcOffset (newDate first.date))
              (getMonth cfg.utcOffset (newDate first.date) + 1)))
            (first :: rest) (recordsToCreate (first :: rest) cfg.masterTableFields)
            (o.bulkCreate i) :: (evs1 ++ evs2), ?_, ?_, ?_⟩
        · rw [b6, a6]; simp
        · intro e he
          rcases List.mem_cons.1 he with rfl | he
          · rfl
          · rcases List.mem_append.1 he with he | he
            · obtain ⟨ids, rfl⟩ := a7 e he
              rfl
            · exact b7 e he
        · intro hlen
          have hrest : copiedRecords evs2 = unarchived.drop (i + 10) := b8 (by omega)
          simp only [copiedRecords, copiedRecords_append, copiedRecords_updates evs1 a7,
            List.nil_append, hrest]
          rw [← hcons, ← List.drop_drop]
          exact List.take_append_drop 10 (unarchived.drop i)
    · next hi =>
      refine ⟨rfl, rfl, rfl, rfl, rfl, [], by simp, by simp, ?_⟩
      intro _
      simp [copiedRecords, List.drop_eq_nil_of_le (Nat.le_of_not_lt hi)]

/-! ## The base directory -/

theorem lookup_isNone_false {α : Type} (l : List (String × α)) (key : String)
    (h : (l.lookup key).isNone = false) : ∃ v, (key, v) ∈ l := by
  induction l with
  | nil => simp at h
  | cons p rest ih =>
    obtain ⟨k, v⟩ := p
    by_cases hk : key = k
    · subst hk
      exact ⟨v, by simp⟩
    · have hk' : (key == k) = false := by simpa using hk
      simp only [List.lookup, hk'] at h
      obtain ⟨v', hv'⟩ := ih h
      exact ⟨v', by simp [hv']⟩

theorem directoryStep_mono (cfg : Settings) (acc : List (String × String)) (record : Record)
    (e : String × String) (h : e ∈ acc) : e ∈ directoryStep cfg acc record := by
  unfold directoryStep
  split
  · simp only []
    split
    · simp [h]
    · exact h
  · exact h

theorem directory_foldl_mono (cfg : Settings) (records : List Record)
    (acc : List (String × String)) (e : String × String) (h : e ∈ acc) :
    e ∈ records.foldl (directoryStep cfg) acc := by
  induction records generalizing acc with
  | nil => exact h
  | cons r rest ih => exact ih _ (directoryStep_mono cfg acc r e h)

theorem directory_foldl_has (cfg : Settings) (records : List Record)
    (acc : List (String × String)) (record : Record) (d : DateCell)
    (hrec : record ∈ records) (hd : record.date = some d) :
    ∃ e ∈ records.foldl (directoryStep cfg) acc, e.1 = keyOfDate cfg d := by
  induction records generalizing acc with
  | nil => simp at hrec
  | cons r rest ih =>
    rcases List.mem_cons.1 hrec with rfl | hrest
    · have : ∃ e ∈ directoryStep cfg acc record, e.1 = keyOfDate cfg d := by
        simp only [directoryStep, hd]
        cases hl : (acc.lookup (keyOfDate cfg d)).isNone
        · obtain ⟨v, hv⟩ := lookup_isNone_false acc _ hl
          exact ⟨(keyOfDate cfg d, v), by simpa using hv, rfl⟩
        · exact ⟨(keyOfDate cfg d, "Archive " ++ keyOfDate cfg d), by simp, rfl⟩
      obtain ⟨e, he, hk⟩ := this
      exact ⟨e, directory_foldl_mono cfg rest _ e he, hk⟩
    · exact ih _ hrest

theorem directory_foldl_named (cfg : Settings) (records : List Record)
    (acc : List (String × String)) (hacc : ∀ e ∈ acc, e.2 = "Archive " ++ e.1) :
    ∀ e ∈ records.foldl (directoryStep cfg) acc, e.2 = "Archive " ++ e.1 := by
  induction records generalizing acc with
  | nil => exact hacc
  | cons r rest ih =>
    apply ih
    intro e he
    unfold directoryStep at he
    split at he
    · simp only [] at he
      split at he
      · rcases List.mem_append.1 he with h | h
        · exact hacc e h
        · simp at h
          subst h
          rfl
      · exact hacc e he
    · exact hacc e he

theorem forInOrder_perm (object : List (String × String)) : (forInOrder object).Perm object := by
  unfold forInOrder
  refine List.Perm.trans (List.Perm.append_right _ (List.perm_insertionSort indexLE _)) ?_
  exact List.filter_append_perm _ object

theorem mem_forInOrder (object : List (String × String)) (e : String × String) :
    e ∈ forInOrder object ↔ e ∈ object :=
  (forInOrder_perm object).mem_iff

theorem archive_name_injective (a b : String) (h : "Archive " ++ a = "Archive " ++ b) : a = b := by
  have h1 := congrArg String.data h
  simp only [String.data_append] at h1
  exact String.ext (List.append_cancel_left h1)

/-! ## Shape of a run -/

/-- What one round of the resolve loop leaves unchanged, and the events it
adds: the ledger lookup, then registry events only. -/
theorem resolveKey_frame (cfg : Settings) (o : Outcomes) (e : String × String) (s : Run)
    (hs : s.aborted = false) :
    (resolveKey cfg o e s).master = s.master ∧
    (resolveKey cfg o e s).logTable = s.logTable ∧
    ∃ evs, (resolveKey cfg o e s).trace = s.trace ++ Event.ledgerLookup e.1 :: evs ∧
      ∀ x ∈ evs, x.isRegistry = true := by
  rcases resolveKey_cases cfg o e s hs with
    ⟨_, hr⟩ | ⟨_, _, _, hr⟩ | ⟨_, b, t, _, _, _, ⟨_, hr⟩ | ⟨_, hr⟩⟩
  · rw [hr]; exact ⟨rfl, rfl, [], rfl, by simp⟩
  · rw [hr]; exact ⟨rfl, rfl, [Event.createBase e.2], rfl, by simp [Event.isRegistry]⟩
  · rw [hr]
    exact ⟨rfl, rfl, [Event.createBase e.2, Event.ledgerWrite (archiveRow cfg e.1 b e.2 t)], rfl,
      by simp [Event.isRegistry]⟩
  · rw [hr]
    exact ⟨rfl, rfl, [Event.createBase e.2, Event.ledgerWrite (archiveRow cfg e.1 b e.2 t)], rfl,
      by simp [Event.isRegistry]⟩

/-- What the resolve pass leaves unchanged, and the events it adds: registry
events only, among them a lookup for every key when the script has not
ended. -/
theorem resolvePass_frame (cfg : Settings) (o : Outcomes) (entries : List (String × String))
    (s : Run) (hs : s.aborted = false) :
    (resolvePass cfg o entries s).master = s.master ∧
    (resolvePass cfg o entries s).logTable = s.logTable ∧
    ∃ evs, (resolvePass cfg o entries s).trace = s.trace ++ evs ∧
      (∀ x ∈ evs, x.isRegistry = true) ∧
      ((resolvePass cfg o entries s).aborted = false →
        ∀ e ∈ entries, Event.ledgerLookup e.1 ∈ evs) := by
  induction entries generalizing s with
  | nil => exact ⟨rfl, rfl, [], by simp [resolvePass], by simp, by simp⟩
  | cons e rest ih =>
    obtain ⟨a1, a2, evs1, a3, a4⟩ := resolveKey_frame cfg o e s hs
    simp only [resolvePass]
    cases hab : (resolveKey cfg o e s).aborted
    · simp only [Bool.false_eq_true, if_false]
      obtain ⟨b1, b2, evs2, b3, b4, b5⟩ := ih (resolveKey cfg o e s) hab
      refine ⟨b1.trans a1, b2.trans a2, Event.ledgerLookup e.1 :: evs1 ++ evs2, ?_, ?_, ?_⟩
      · rw [b3, a3]; simp
      · intro x hx
        simp only [List.cons_append, List.mem_cons, List.mem_append] at hx
        rcases hx with rfl | hx | hx
        · rfl
        · exact a4 x hx
        · exact b4 x hx
      · intro hfin e' he'
        rcases List.mem_cons.1 he' with rfl | he'
        · simp
        · have := b5 hfin e' he'
          simp [this]
    · simp only [if_true]
      refine ⟨a1, a2, Event.ledgerLookup e.1 :: evs1, a3, ?_, ?_⟩
      · intro x hx
        rcases List.mem_cons.1 hx with rfl | hx
        · rfl
        · exact a4 x hx
      · intro hfin
        rw [hab] at hfin
        cases hfin

/-- The state after the resolve pass of a run. -/
theorem runScript_shape (cfg : Settings) (o : Outcomes) (w : World) :
    ∃ evs logs,
      (runScript cfg o w).trace
        = (resolvePass cfg o (forInOrder (generateBaseDirectory cfg (unarchivedRecords w.master)))
            (Run.start w)).trace ++ evs ++ logs ∧
      (runScript cfg o w).ledger
        = (resolvePass cfg o (forInOrder (generateBaseDirectory cfg (unarchivedRecords w.master)))
            (Run.start w)).ledger ∧
      (runScript cfg o w).baseIds
        = (resolvePass cfg o (forInOrder (generateBaseDirectory cfg (unarchivedRecords w.master)))
            (Run.start w)).baseIds ∧
      (runScript cfg o w).archivedPeriods
        = (resolvePass cfg o (forInOrder (generateBaseDirectory cfg (unarchivedRecords w.master)))
            (Run.start w)).archivedPeriods ∧
      (runScript cfg o w).aborted
        = (resolvePass cfg o (forInOrder (generateBaseDirectory cfg (unarchivedRecords w.master)))
            (Run.start w)).aborted ∧
      (∀ e ∈ evs, e.isCopy = true) ∧
      (∀ e ∈ logs, ∃ row, e = Event.logWrite row) ∧
      ((runScript cfg o w).aborted = true → evs = [] ∧ logs = []) ∧
      ((runScript cfg o w).aborted = false → copiedRecords evs = unarchivedRecords w.master) := by
  unfold runScript
  simp only
  split
  · next hzero =>
    have hnil : unarchivedRecords w.master = [] := List.length_eq_zero.1 hzero
    rw [hnil]
    refine ⟨[], [Event.logWrite (earlyLogRow cfg 0)], ?_⟩
    simp [generateBaseDirectory, forInOrder, resolvePass, writeLog, Run.start, copiedRecords]
  · next hpos =>
    generalize resolvePass cfg o
      (forInOrder (generateBaseDirectory cfg (unarchivedRecords w.master))) (Run.start w) = p
    cases hab : p.aborted
    · obtain ⟨m1, m2, m3, m4, m5, evs, m6, m7, m8⟩ :=
        migrationLoop_frame cfg o (unarchivedRecords w.master) (unarchivedRecords w.master).length 0 p
      have m4' := m4.trans hab
      have m8' := m8 (by omega)
      revert m1 m2 m3 m4' m6 m8'
      generalize migrationLoop cfg o (unarchivedRecords w.master)
        (unarchivedRecords w.master).length 0 p = m
      intro m1 m2 m3 m4' m6 m8'
      refine ⟨evs, [Event.logWrite (finalLogRow cfg (unarchivedRecords w.master).length m)], ?_⟩
      simp [writeLog, m1, m2, m3, m4', m6]
      exact ⟨m7, by simpa using m8'⟩
    · exact ⟨[], [], by simp [hab]⟩

/-! ## Claims about the copies -/

theorem copiedRecords_registry (evs : List Event) (h : ∀ e ∈ evs, e.isRegistry = true) :
    copiedRecords evs = [] := by
  induction evs with
  | nil => rfl
  | cons e rest ih =>
    have he := h e (by simp)
    cases e <;> simp [Event.isRegistry] at he <;>
      simpa [copiedRecords] using ih (fun e he => h e (by simp [he]))

theorem copiedRecords_logs (evs : List Event) (h : ∀ e ∈ evs, ∃ row, e = Event.logWrite row) :
    copiedRecords evs = [] := by
  induction evs with
  | nil => rfl
  | cons e rest ih =>
    obtain ⟨row, rfl⟩ := h e (by simp)
    simpa [copiedRecords] using ih (fun e he => h e (by simp [he]))

/-- The records carried by the bulk-create requests of a run are the
unarchived records, each once and in table order, or none when the script
ended in the resolve pass. -/
theorem copiedRecords_runScript (cfg : Settings) (o : Outcomes) (w : World) :
    copiedRecords (runScript cfg o w).trace = unarchivedRecords w.master ∨
    copiedRecords (runScript cfg o w).trace = [] := by
  obtain ⟨evs, logs, h1, _, _, _, _, _, h7, h8, h9⟩ := runScript_shape cfg o w
  obtain ⟨_, _, pevs, p1, p2, _⟩ := resolvePass_frame cfg o
    (forInOrder (generateBaseDirectory cfg (unarchivedRecords w.master))) (Run.start w) rfl
  have hp : copiedRecords (resolvePass cfg o
      (forInOrder (generateBaseDirectory cfg (unarchivedRecords w.master))) (Run.start w)).trace
      = [] := by
    rw [p1]
    simpa [Run.start] using copiedRecords_registry pevs p2
  rw [h1, copiedRecords_append, copiedRecords_append, hp, copiedRecords_logs logs h7]
  cases hab : (runScript cfg o w).aborted
  · left; simpa using h9 hab
  · right; simp [(h8 hab).1, copiedRecords]

/-- C6: a record whose Archived flag is set when the run reads the master
table is in no bulk-create request of the run, and no record is in more than
one bulk-create request: the records of all requests, taken together in
order, form a sublist of the master table made of unarchived records only, so
that with distinct record ids no id occurs twice among them. -/
theorem archived_never_copied_and_copied_once (cfg : Settings) (o : Outcomes) (w : World)
    (hids : (w.master.map (fun record => record.id)).Nodup) :
    (∀ record ∈ copiedRecords (runScript cfg o w).trace,
      record ∈ w.master ∧ record.archived = false) ∧
    (copiedRecords (runScript cfg o w).trace).Sublist w.master ∧
    ((copiedRecords (runScript cfg o w).trace).map (fun record => record.id)).Nodup := by
  have hsub : (copiedRecords (runScript cfg o w).trace).Sublist (unarchivedRecords w.master) := by
    rcases copiedRecords_runScript cfg o w with h | h
    · rw [h]
    · rw [h]; exact List.nil_sublist _
  have hsub2 : (copiedRecords (runScript cfg o w).trace).Sublist w.master :=
    hsub.trans (List.filter_sublist _)
  refine ⟨?_, hsub2, ?_⟩
  · intro record hrec
    have hmem : record ∈ unarchivedRecords w.master := hsub.subset hrec
    simp only [unarchivedRecords, List.mem_filter] at hmem
    refine ⟨hmem.1, ?_⟩
    have h2 := hmem.2
    simp only [Record.getCellValue, if_true] at h2
    cases ha : record.archived
    · rfl
    · simp [ha, CellValue.truthy] at h2
  · exact (hsub2.map _).nodup hids

/-- Witness for C6: a master table holding an archived record and the two
unarchived records `recJan` and `recFeb`. -/
theorem archived_never_copied_and_copied_once_witness :
    ([{ recNoDate with archived := true }, recJan, recFeb].map
        (fun record => record.id)).Nodup ∧
    ((copiedRecords (runScript sampleSettings allSucceed
        ⟨[{ recNoDate with archived := true }, recJan, recFeb], [], []⟩).trace).map
      (fun record => record.id)).Nodup :=
  ⟨by decide,
    (archived_never_copied_and_copied_once sampleSettings allSucceed
      ⟨[{ recNoDate with archived := true }, recJan, recFeb], [], []⟩ (by decide)).2.2⟩

/-- C10: the trace of a run is the resolve pass (ledger lookups, create-base
requests and ledger writes only), then the migration pass (bulk-create
requests and bulk updates only), then the log write; so every registry request
is completed before the first request that copies a record.  When the run
copies anything (or simply has not ended early on a rejected ledger write), the
first pass holds a ledger lookup for the key of every dated unarchived
record. -/
theorem resolve_pass_precedes_copies (cfg : Settings) (o : Outcomes) (w : World) :
    ∃ pass1 pass2 logs,
      (runScript cfg o w).trace = pass1 ++ pass2 ++ logs ∧
      (∀ e ∈ pass1, e.isRegistry = true) ∧
      (∀ e ∈ pass2, e.isCopy = true) ∧
      (∀ e ∈ logs, ∃ row, e = Event.logWrite row) ∧
      ((runScript cfg o w).aborted = false ∨ pass2 ≠ [] →
        ∀ record ∈ unarchivedRecords w.master, ∀ d, record.date = some d →
          Event.ledgerLookup (keyOfDate cfg d) ∈ pass1) := by
  obtain ⟨evs, logs, h1, _, _, _, h5, h6, h7, h8, _⟩ := runScript_shape cfg o w
  obtain ⟨_, _, pevs, p1, p2, p3⟩ := resolvePass_frame cfg o
    (forInOrder (generateBaseDirectory cfg (unarchivedRecords w.master))) (Run.start w) rfl
  refine ⟨pevs, evs, logs, ?_, p2, h6, h7, ?_⟩
  · rw [h1, p1]; simp [Run.start]
  · intro hrun record hrec d hd
    have hab : (runScript cfg o w).aborted = false := by
      rcases hrun with h | h
      · exact h
      · cases hab : (runScript cfg o w).aborted
        · rfl
        · exact absurd (h8 hab).1 h
    obtain ⟨e, he, hk⟩ := directory_foldl_has cfg (unarchivedRecords w.master) [] record d hrec hd
    have he' : e ∈ forInOrder (generateBaseDirectory cfg (unarchivedRecords w.master)) :=
      (mem_forInOrder _ e).2 he
    have := p3 (h5 ▸ hab) e he'
    rwa [hk] at this

/-! ## Claims about the tracking table -/

theorem baseIdFor_cons (k : String) (v : Option String) (bs : List (String × Option String))
    (key : String) :
    baseIdFor ((k, v) :: bs) key = if key = k then v else baseIdFor bs key := by
  by_cases h : key = k
  · subst h
    simp [baseIdFor, List.lookup]
  · have h' : (key == k) = false := by simpa using h
    simp [baseIdFor, List.lookup, h', h]

theorem createBase_name_ne (a key : String) (h : a ≠ key) :
    Event.createBase ("Archive " ++ a) ≠ Event.createBase ("Archive " ++ key) := by
  intro heq
  injection heq with h1
  exact h (archive_name_injective a key h1)

theorem rowsFor_append_other (ledger : List LedgerRow) (row : LedgerRow) (key : String)
    (h : row.archiveKey ≠ some key) : rowsFor (ledger ++ [row]) key = rowsFor ledger key := by
  rw [rowsFor_append]; simp [h]

/-- One round of the resolve loop keeps a registered key registered. -/
theorem resolveKey_keyKept (cfg : Settings) (o : Outcomes) (e : String × String)
    (he : e.2 = "Archive " ++ e.1) (key b : String) (hb : b ≠ "") (rows : List LedgerRow)
    (s : Run) (hs : s.aborted = false) (h : KeyKept key b rows s) :
    KeyKept key b rows (resolveKey cfg o e s) := by
  obtain ⟨h1, h2, h3, h4, h5⟩ := h
  have htruthy : truthyStr (getExistingBaseId s.ledger key) = true := by
    rw [h1]; simp [truthyStr, hb]
  rcases resolveKey_cases cfg o e s hs with
    ⟨hl, hr⟩ | ⟨hl, bid, errs, hr⟩ | ⟨hl, b', t, _, _, _, ⟨_, hr⟩ | ⟨_, hr⟩⟩
  · rw [hr]
    refine ⟨h1, h2, ?_, ?_, ?_⟩
    · simpa using h3
    · intro row hrow
      exact h4 row (by simpa using hrow)
    · intro hlook
      by_cases hk : e.1 = key
      · subst hk
        simp [baseIdFor_cons, h1]
      · have hk' : ¬ key = e.1 := fun h => hk h.symm
        have : Event.ledgerLookup key ∈ s.trace := by
          simpa [hk'] using hlook
        simpa [baseIdFor_cons, hk'] using h5 this
  all_goals
    have hk : e.1 ≠ key := by
      intro hk
      rw [hk, htruthy] at hl
      cases hl
    have hk' : ¬ key = e.1 := fun h => hk h.symm
    have hne := createBase_name_ne e.1 key hk
    rw [hr]
  · refine ⟨h1, h2, ?_, ?_, ?_⟩
    · simp only [List.mem_append, List.mem_cons, List.mem_singleton, List.not_mem_nil,
        or_false, not_or]
      exact ⟨h3, by simp, by rw [he]; exact fun h => hne h.symm⟩
    · intro row hrow
      exact h4 row (by simpa using hrow)
    · intro hlook
      have : Event.ledgerLookup key ∈ s.trace := by simpa [hk'] using hlook
      simpa [baseIdFor_cons, hk'] using h5 this
  · have hrow : (archiveRow cfg e.1 b' e.2 t).archiveKey ≠ some key := by
      simpa [archiveRow_key] using hk
    refine ⟨?_, ?_, ?_, ?_, ?_⟩
    · show getExistingBaseId (s.ledger ++ [archiveRow cfg e.1 b' e.2 t]) key = some b
      rw [getExistingBaseId_append_other _ _ _ hrow, h1]
    · show rowsFor (s.ledger ++ [archiveRow cfg e.1 b' e.2 t]) key = rows
      rw [rowsFor_append_other _ _ _ hrow, h2]
    · simp only [List.mem_append, List.mem_cons, List.mem_singleton, List.not_mem_nil,
        or_false, not_or]
      exact ⟨h3, by simp, by rw [he]; exact fun h => hne h.symm, by simp⟩
    · intro row hrow'
      simp only [List.mem_append, List.mem_cons, List.mem_singleton, List.not_mem_nil,
        or_false] at hrow'
      rcases hrow' with h | h | h | h
      · exact h4 row h
      · cases h
      · cases h
      · injection h with h; rw [h]; exact hrow
    · intro hlook
      have : Event.ledgerLookup key ∈ s.trace := by simpa [hk'] using hlook
      simpa [baseIdFor_cons, hk'] using h5 this
  · have hrow : (archiveRow cfg e.1 b' e.2 t).archiveKey ≠ some key := by
      simpa [archiveRow_key] using hk
    refine ⟨h1, h2, ?_, ?_, ?_⟩
    · simp only [List.mem_append, List.mem_cons, List.mem_singleton, List.not_mem_nil,
        or_false, not_or]
      exact ⟨h3, by simp, by rw [he]; exact fun h => hne h.symm, by simp⟩
    · intro row hrow'
      simp only [List.mem_append, List.mem_cons, List.mem_singleton, List.not_mem_nil,
        or_false] at hrow'
      rcases hrow' with h | h | h | h
      · exact h4 row h
      · cases h
      · cases h
      · injection h with h; rw [h]; exact hrow
    · intro hlook
      have : Event.ledgerLookup key ∈ s.trace := by simpa [hk'] using hlook
      simpa [baseIdFor_cons, hk'] using h5 this

theorem getExistingBaseId_append_new (ledger : List LedgerRow) (row : LedgerRow) (key : String)
    (hnone : rowsFor ledger key = []) (hrow : row.archiveKey = some key) :
    getExistingBaseId (ledger ++ [row]) key = row.archiveId := by
  induction ledger with
  | nil => simp [getExistingBaseId, hrow]
  | cons r rest ih =>
    by_cases hr : r.archiveKey = some key
    · simp [rowsFor, List.filter_cons, hr] at hnone
    · have hrest : rowsFor rest key = [] := by
        simpa [rowsFor, List.filter_cons, hr] using hnone
      simp only [List.cons_append, getExistingBaseId, hr, if_false]
      exact ih hrest

/-- One round of the resolve loop keeps the tracking table well formed and
every key of `archivedPeriods` resolved. -/
theorem resolveKey_periods (cfg : Settings) (o : Outcomes) (e : String × String) (s : Run)
    (hs : s.aborted = false)
    (h : (OneRowPerKey s.ledger ∧ IdsNonEmpty s.ledger) ∧ PeriodsRegistered s) :
    (OneRowPerKey (resolveKey cfg o e s).ledger ∧ IdsNonEmpty (resolveKey cfg o e s).ledger) ∧
      PeriodsRegistered (resolveKey cfg o e s) := by
  refine ⟨resolveKey_ledger_ok cfg o e s hs h.1, ?_⟩
  have hp := h.2
  have hother : ∀ key ∈ s.archivedPeriods,
      truthyStr (getExistingBaseId s.ledger e.1) = false → ¬ key = e.1 := by
    intro key hkey hl hk
    rw [← hk, (hp key hkey).1] at hl
    cases hl
  rcases resolveKey_cases cfg o e s hs with
    ⟨_, hr⟩ | ⟨hl, _, _, hr⟩ | ⟨hl, b, t, _, hb, _, ⟨_, hr⟩ | ⟨_, hr⟩⟩
  · rw [hr]
    intro key hkey
    refine ⟨(hp key hkey).1, ?_⟩
    by_cases hk : key = e.1
    · simp [baseIdFor_cons, hk]
    · simpa [baseIdFor_cons, hk] using (hp key hkey).2
  · rw [hr]
    intro key hkey
    refine ⟨(hp key hkey).1, ?_⟩
    simpa [baseIdFor_cons, hother key hkey hl] using (hp key hkey).2
  · rw [hr]
    intro key hkey
    have hkey' : key ∈ s.archivedPeriods ++ [e.1] := hkey
    show truthyStr (getExistingBaseId (s.ledger ++ [archiveRow cfg e.1 b e.2 t]) key) = true ∧
      baseIdFor ((e.1, some b) :: s.baseIds) key
        = getExistingBaseId (s.ledger ++ [archiveRow cfg e.1 b e.2 t]) key
    rcases List.mem_append.1 hkey' with hk | hk
    · rw [getExistingBaseId_append_found _ _ _ (hp key hk).1]
      refine ⟨(hp key hk).1, ?_⟩
      simpa [baseIdFor_cons, hother key hk hl] using (hp key hk).2
    · simp only [List.mem_singleton] at hk
      subst hk
      rw [getExistingBaseId_append_new _ _ _ (rowsFor_eq_nil_of_not_found _ _ h.1.2 hl)
        (archiveRow_key cfg _ _ _ _)]
      simp [archiveRow_id, truthyStr, hb, baseIdFor_cons]
  · rw [hr]
    intro key hkey
    refine ⟨(hp key hkey).1, ?_⟩
    simpa [baseIdFor_cons, hother key hkey hl] using (hp key hkey).2

/-- One round of the resolve loop writes no row for a key whose creation
fails. -/
theorem resolveKey_keyUnwritten (cfg : Settings) (o : Outcomes) (e : String × String)
    (he : e.2 = "Archive " ++ e.1) (key : String)
    (hfail : (o.createBase ("Archive " ++ key)).failed = true) (rows : List LedgerRow)
    (s : Run) (hs : s.aborted = false) (h : KeyUnwritten key rows s) :
    KeyUnwritten key rows (resolveKey cfg o e s) := by
  obtain ⟨h1, h2, h3⟩ := h
  rcases resolveKey_cases cfg o e s hs with
    ⟨hl, hr⟩ | ⟨hl, bid, errs, hr⟩ | ⟨hl, b', t, hrep, _, _, hsave⟩
  · rw [hr]
    refine ⟨h1, fun row hrow => h2 row (by simpa using hrow), fun hc => h3 (by simpa using hc)⟩
  · rw [hr]
    refine ⟨h1, fun row hrow => h2 row (by simpa using hrow), fun hc => ?_⟩
    simp only [List.mem_append, List.mem_cons, List.mem_singleton, List.not_mem_nil,
      or_false] at hc
    rcases hc with hc | hc | hc
    · exact h3 hc
    · cases hc
    · injection hc with hc
      rw [he] at hc
      have hk : key = e.1 := archive_name_injective _ _ hc
      rw [hk]; exact hl
  · have hk : e.1 ≠ key := by
      intro hk
      rw [he, hk, ] at hrep
      rw [hrep] at hfail
      simp [CreateReply.failed] at hfail
    have hne := createBase_name_ne e.1 key hk
    have hrow : (archiveRow cfg e.1 b' e.2 t).archiveKey ≠ some key := by
      simpa [archiveRow_key] using hk
    have hwrite : ∀ row, row ∈ s.trace ++ [Event.ledgerLookup e.1, Event.createBase e.2,
        Event.ledgerWrite (archiveRow cfg e.1 b' e.2 t)] →
        ∀ r, row = Event.ledgerWrite r → r.archiveKey ≠ some key := by
      intro row hrow' r hr
      subst hr
      simp only [List.mem_append, List.mem_cons, List.mem_singleton, List.not_mem_nil,
        or_false] at hrow'
      rcases hrow' with h | h | h | h
      · exact h2 r h
      · cases h
      · cases h
      · injection h with h; rw [h]; exact hrow
    have hcreate : Event.createBase ("Archive " ++ key) ∈ s.trace ++ [Event.ledgerLookup e.1,
        Event.createBase e.2, Event.ledgerWrite (archiveRow cfg e.1 b' e.2 t)] →
        Event.createBase ("Archive " ++ key) ∈ s.trace := by
      intro hc
      simp only [List.mem_append, List.mem_cons, List.mem_singleton, List.not_mem_nil,
        or_false] at hc
      rcases hc with hc | hc | hc | hc
      · exact hc
      · cases hc
      · rw [he] at hc; exact absurd hc.symm hne
      · cases hc
    rcases hsave with ⟨_, hr⟩ | ⟨_, hr⟩
    · rw [hr]
      refine ⟨?_, fun row hrow' => hwrite _ hrow' row rfl, fun hc => ?_⟩
      · show rowsFor (s.ledger ++ [archiveRow cfg e.1 b' e.2 t]) key = rows
        rw [rowsFor_append_other _ _ _ hrow, h1]
      · show truthyStr (getExistingBaseId (s.ledger ++ [archiveRow cfg e.1 b' e.2 t]) key) = false
        rw [getExistingBaseId_append_other _ _ _ hrow]
        exact h3 (hcreate hc)
    · rw [hr]
      exact ⟨h1, fun row hrow' => hwrite _ hrow' row rfl, fun hc => h3 (hcreate hc)⟩

/-- One round of the resolve loop requests the creation of an unresolved key
when it looks the key up. -/
theorem resolveKey_keyRetried (cfg : Settings) (o : Outcomes) (e : String × String)
    (he : e.2 = "Archive " ++ e.1) (key : String)
    (s : Run) (hs : s.aborted = false) (h : KeyRetried key s) :
    KeyRetried key (resolveKey cfg o e s) := by
  obtain ⟨h1, h2⟩ := h
  by_cases hk : e.1 = key
  · have he' : e.2 = "Archive " ++ key := by rw [he, hk]
    rcases resolveKey_cases cfg o e s hs with
      ⟨hl, hr⟩ | ⟨hl, bid, errs, hr⟩ | ⟨hl, b', t, hrep, _, _, ⟨_, hr⟩ | ⟨_, hr⟩⟩
    · have hc : Event.createBase ("Archive " ++ key) ∈ s.trace := by
        by_contra hc
        rw [hk, h2 hc] at hl
        cases hl
      rw [hr]
      exact ⟨fun _ => by simp [hc], fun hn => absurd (by simp [hc]) hn⟩
    all_goals
      rw [hr]
      exact ⟨fun _ => by simp [he'], fun hn => absurd (by simp [he']) hn⟩
  · have hk' : ¬ key = e.1 := fun h => hk h.symm
    have hne := createBase_name_ne e.1 key hk
    have hne' : ¬ Event.createBase ("Archive " ++ key) = Event.createBase e.2 := by
      rw [he]; exact fun h => hne h.symm
    rcases resolveKey_cases cfg o e s hs with
      ⟨hl, hr⟩ | ⟨hl, bid, errs, hr⟩ | ⟨hl, b', t, hrep, _, _, ⟨_, hr⟩ | ⟨_, hr⟩⟩
    · rw [hr]
      refine ⟨fun hlook => ?_, fun hn => h2 (by simpa using hn)⟩
      have := h1 (by simpa [hk'] using hlook)
      simp [this]
    · rw [hr]
      refine ⟨fun hlook => ?_, fun hn => h2 (by simpa [hne'] using hn)⟩
      have := h1 (by simpa [hk'] using hlook)
      simp [this]
    · have hrow : (archiveRow cfg e.1 b' e.2 t).archiveKey ≠ some key := by
        simpa [archiveRow_key] using hk
      rw [hr]
      refine ⟨fun hlook => ?_, fun hn => ?_⟩
      · have := h1 (by simpa [hk'] using hlook)
        simp [this]
      · show truthyStr (getExistingBaseId (s.ledger ++ [archiveRow cfg e.1 b' e.2 t]) key) = false
        rw [getExistingBaseId_append_other _ _ _ hrow]
        exact h2 (by simpa [hne'] using hn)
    · rw [hr]
      refine ⟨fun hlook => ?_, fun hn => h2 (by simpa [hne'] using hn)⟩
      have := h1 (by simpa [hk'] using hlook)
      simp [this]

/-- After the resolve pass a run changes neither the tracking table nor
`baseIds` nor `archivedPeriods`, and issues no registry request. -/
theorem runScript_after_pass (cfg : Settings) (o : Outcomes) (w : World) :
    (runScript cfg o w).ledger
      = (resolvePass cfg o (forInOrder (generateBaseDirectory cfg (unarchivedRecords w.master)))
          (Run.start w)).ledger ∧
    (runScript cfg o w).baseIds
      = (resolvePass cfg o (forInOrder (generateBaseDirectory cfg (unarchivedRecords w.master)))
          (Run.start w)).baseIds ∧
    (runScript cfg o w).archivedPeriods
      = (resolvePass cfg o (forInOrder (generateBaseDirectory cfg (unarchivedRecords w.master)))
          (Run.start w)).archivedPeriods ∧
    ∀ x : Event, x.isRegistry = true →
      (x ∈ (runScript cfg o w).trace ↔
        x ∈ (resolvePass cfg o (forInOrder (generateBaseDirectory cfg (unarchivedRecords w.master)))
          (Run.start w)).trace) := by
  obtain ⟨evs, logs, h1, h2, h3, h4, _, h6, h7, _, _⟩ := runScript_shape cfg o w
  refine ⟨h2, h3, h4, fun x hx => ?_⟩
  rw [h1]
  simp only [List.mem_append]
  constructor
  · rintro ((h | h) | h)
    · exact h
    · have := h6 x h
      cases x <;> simp [Event.isRegistry, Event.isCopy] at hx this
    · obtain ⟨row, rfl⟩ := h7 x h
      simp [Event.isRegistry] at hx
  · intro h
    exact Or.inl (Or.inl h)

/-- The entries the resolve pass of a run visits are named after their key. -/
theorem run_entries_named (cfg : Settings) (records : List Record) :
    ∀ e ∈ forInOrder (generateBaseDirectory cfg records), e.2 = "Archive " ++ e.1 := by
  intro e he
  exact directory_foldl_named cfg records [] (by simp) e ((mem_forInOrder _ e).1 he)

/-- A run keeps a registered key registered. -/
theorem runScript_keyKept (cfg : Settings) (o : Outcomes) (w : World) (key b : String)
    (hb : b ≠ "") (h : getExistingBaseId w.ledger key = some b) :
    KeyKept key b (rowsFor w.ledger key) (runScript cfg o w) := by
  have hp := resolvePass_invariant cfg o (KeyKept key b (rowsFor w.ledger key))
    (forInOrder (generateBaseDirectory cfg (unarchivedRecords w.master)))
    (fun e he s hs hk =>
      resolveKey_keyKept cfg o e (run_entries_named cfg _ e he) key b hb _ s hs hk)
    (Run.start w) rfl ⟨h, rfl, by simp [Run.start], by simp [Run.start], by simp [Run.start]⟩
  obtain ⟨a1, a2, _, a4⟩ := runScript_after_pass cfg o w
  obtain ⟨h1, h2, h3, h4, h5⟩ := hp
  refine ⟨by rw [a1]; exact h1, by rw [a1]; exact h2, ?_, ?_, ?_⟩
  · rw [a4 (Event.createBase ("Archive " ++ key)) rfl]; exact h3
  · intro row hrow
    exact h4 row ((a4 (Event.ledgerWrite row) rfl).1 hrow)
  · intro hlook
    rw [a2]
    exact h5 ((a4 (Event.ledgerLookup key) rfl).1 hlook)

/-- A run keeps the tracking table well formed and registers its
`archivedPeriods`. -/
theorem runScript_periods (cfg : Settings) (o : Outcomes) (w : World)
    (h1 : OneRowPerKey w.ledger) (h2 : IdsNonEmpty w.ledger) :
    (OneRowPerKey (runScript cfg o w).ledger ∧ IdsNonEmpty (runScript cfg o w).ledger) ∧
      PeriodsRegistered (runScript cfg o w) := by
  have hp := resolvePass_invariant cfg o
    (fun s => (OneRowPerKey s.ledger ∧ IdsNonEmpty s.ledger) ∧ PeriodsRegistered s)
    (forInOrder (generateBaseDirectory cfg (unarchivedRecords w.master)))
    (fun e _ s hs hk => resolveKey_periods cfg o e s hs hk)
    (Run.start w) rfl ⟨⟨h1, h2⟩, by simp [PeriodsRegistered, Run.start]⟩
  obtain ⟨a1, a2, a3, _⟩ := runScript_after_pass cfg o w
  simp only [PeriodsRegistered] at hp ⊢
  rw [a1, a2, a3]
  exact hp

/-- C5: if the tracking table holds at most one row per Archive Key, each with
a non-empty Archive ID, then after a run, whatever the replies of its calls, it
still does; every key the run registered (`archivedPeriods`) is resolved by
the table to the non-empty Archive ID the run itself used for that key; and a
second run over any key the table resolves issues no create-base request for
it, issues no ledger write for it, leaves its rows as they were and, once it
has looked the key up, uses the registered Archive ID as the destination of
that key. -/
theorem ledger_keeps_one_row_per_key (cfg cfg2 : Settings) (o o2 : Outcomes) (w : World)
    (master2 : List Record) (logTable2 : List LogRow)
    (h1 : OneRowPerKey w.ledger) (h2 : IdsNonEmpty w.ledger) :
    OneRowPerKey (runScript cfg o w).ledger ∧
    IdsNonEmpty (runScript cfg o w).ledger ∧
    (∀ key ∈ (runScript cfg o w).archivedPeriods,
      ∃ b, getExistingBaseId (runScript cfg o w).ledger key = some b ∧ b ≠ "" ∧
        baseIdFor (runScript cfg o w).baseIds key = some b) ∧
    (∀ key b, getExistingBaseId (runScript cfg o w).ledger key = some b → b ≠ "" →
      Event.createBase ("Archive " ++ key) ∉
        (runScript cfg2 o2 ⟨master2, (runScript cfg o w).ledger, logTable2⟩).trace ∧
      (∀ row, Event.ledgerWrite row ∈
          (runScript cfg2 o2 ⟨master2, (runScript cfg o w).ledger, logTable2⟩).trace →
        row.archiveKey ≠ some key) ∧
      rowsFor (runScript cfg2 o2 ⟨master2, (runScript cfg o w).ledger, logTable2⟩).ledger key
        = rowsFor (runScript cfg o w).ledger key ∧
      (Event.ledgerLookup key ∈
          (runScript cfg2 o2 ⟨master2, (runScript cfg o w).ledger, logTable2⟩).trace →
        baseIdFor (runScript cfg2 o2 ⟨master2, (runScript cfg o w).ledger, logTable2⟩).baseIds key
          = some b)) ∧
    OneRowPerKey (runScript cfg2 o2 ⟨master2, (runScript cfg o w).ledger, logTable2⟩).ledger := by
  obtain ⟨⟨a1, a2⟩, a3⟩ := runScript_periods cfg o w h1 h2
  refine ⟨a1, a2, fun key hkey => ?_, fun key b hkb hb => ?_, ?_⟩
  · obtain ⟨b, hb1, hb2⟩ := truthyStr_eq_true.1 (a3 key hkey).1
    exact ⟨b, hb1, hb2, by rw [(a3 key hkey).2, hb1]⟩
  · obtain ⟨_, k2, k3, k4, k5⟩ :=
      runScript_keyKept cfg2 o2 ⟨master2, (runScript cfg o w).ledger, logTable2⟩ key b hb hkb
    exact ⟨k3, k4, k2, k5⟩
  · exact (runScript_periods cfg2 o2 ⟨master2, (runScript cfg o w).ledger, logTable2⟩ a1 a2).1.1

/-- Witness for C5: a table holding one row, for May 2023, and a run over
`recJan` and `recFeb`. -/
theorem ledger_keeps_one_row_per_key_witness :
    OneRowPerKey [archiveRow sampleSettings "2023_05" "appMay" "Archive 2023_05" "tbl1"] ∧
    IdsNonEmpty [archiveRow sampleSettings "2023_05" "appMay" "Archive 2023_05" "tbl1"] ∧
    OneRowPerKey (runScript sampleSettings allSucceed
      ⟨[recJan, recFeb],
        [archiveRow sampleSettings "2023_05" "appMay" "Archive 2023_05" "tbl1"], []⟩).ledger :=
  have h1 : OneRowPerKey
      [archiveRow sampleSettings "2023_05" "appMay" "Archive 2023_05" "tbl1"] :=
    fun key => List.length_filter_le _ _
  have h2 : IdsNonEmpty
      [archiveRow sampleSettings "2023_05" "appMay" "Archive 2023_05" "tbl1"] := by
    intro row hrow
    simp only [List.mem_singleton] at hrow
    subst hrow
    decide
  ⟨h1, h2, (ledger_keeps_one_row_per_key sampleSettings sampleSettings allSucceed allSucceed
    ⟨[recJan, recFeb],
      [archiveRow sampleSettings "2023_05" "appMay" "Archive 2023_05" "tbl1"], []⟩
    [] [] h1 h2).1⟩

/-- A run writes no row for a key whose creation fails. -/
theorem runScript_keyUnwritten (cfg : Settings) (o : Outcomes) (w : World) (key : String)
    (hfail : (o.createBase ("Archive " ++ key)).failed = true) :
    KeyUnwritten key (rowsFor w.ledger key) (runScript cfg o w) := by
  have hp := resolvePass_invariant cfg o (KeyUnwritten key (rowsFor w.ledger key))
    (forInOrder (generateBaseDirectory cfg (unarchivedRecords w.master)))
    (fun e he s hs hk =>
      resolveKey_keyUnwritten cfg o e (run_entries_named cfg _ e he) key hfail _ s hs hk)
    (Run.start w) rfl ⟨rfl, by simp [Run.start], by simp [Run.start]⟩
  obtain ⟨a1, _, _, a4⟩ := runScript_after_pass cfg o w
  obtain ⟨h1, h2, h3⟩ := hp
  refine ⟨by rw [a1]; exact h1, fun row hrow => h2 row ((a4 (Event.ledgerWrite row) rfl).1 hrow),
    fun hc => ?_⟩
  rw [a1]
  exact h3 ((a4 (Event.createBase ("Archive " ++ key)) rfl).1 hc)

/-- A run requests the creation of a key its tracking table does not resolve
when it looks the key up. -/
theorem runScript_keyRetried (cfg : Settings) (o : Outcomes) (w : World) (key : String)
    (h : truthyStr (getExistingBaseId w.ledger key) = false) :
    Event.ledgerLookup key ∈ (runScript cfg o w).trace →
      Event.createBase ("Archive " ++ key) ∈ (runScript cfg o w).trace := by
  have hp := resolvePass_invariant cfg o (KeyRetried key)
    (forInOrder (generateBaseDirectory cfg (unarchivedRecords w.master)))
    (fun e he s hs hk =>
      resolveKey_keyRetried cfg o e (run_entries_named cfg _ e he) key s hs hk)
    (Run.start w) rfl ⟨by simp [Run.start], fun _ => h⟩
  obtain ⟨_, _, _, a4⟩ := runScript_after_pass cfg o w
  intro hlook
  exact (a4 (Event.createBase ("Archive " ++ key)) rfl).2
    (hp.1 ((a4 (Event.ledgerLookup key) rfl).1 hlook))

/-- A run that has not ended early has looked up the key of every dated
unarchived record. -/
theorem runScript_lookups (cfg : Settings) (o : Outcomes) (w : World)
    (hab : (runScript cfg o w).aborted = false) (record : Record) (d : DateCell)
    (hrec : record ∈ unarchivedRecords w.master) (hd : record.date = some d) :
    Event.ledgerLookup (keyOfDate cfg d) ∈ (runScript cfg o w).trace := by
  obtain ⟨evs, logs, h1, _, _, _, h5, _⟩ := runScript_shape cfg o w
  obtain ⟨_, _, pevs, p1, _, p3⟩ := resolvePass_frame cfg o
    (forInOrder (generateBaseDirectory cfg (unarchivedRecords w.master))) (Run.start w) rfl
  obtain ⟨e, he, hk⟩ := directory_foldl_has cfg (unarchivedRecords w.master) [] record d hrec hd
  have he' : e ∈ forInOrder (generateBaseDirectory cfg (unarchivedRecords w.master)) :=
    (mem_forInOrder _ e).2 he
  have := p3 (h5 ▸ hab) e he'
  rw [hk] at this
  rw [h1, p1]
  simp [this]

/-- C7: when the create-base call for a key fails (the request throws, or the
response carries no base id or no first table), `createBaseIfNotExist` returns
no base id, and the run issues no ledger write for the key and leaves the rows
of the key as they were.  If the run did request the creation, the tracking
table still does not resolve the key afterwards, so a later run that looks the
key up requests its creation again; it does look the key up whenever it has
not ended early and an unarchived record of it has a date of that key. -/
theorem create_failure_writes_no_row (cfg cfg2 : Settings) (o o2 : Outcomes) (w : World)
    (master2 : List Record) (logTable2 : List LogRow) (key : String)
    (hfail : (o.createBase ("Archive " ++ key)).failed = true) :
    (∀ s, (createBaseIfNotExist o ("Archive " ++ key) s).1.1 = none) ∧
    (∀ row, Event.ledgerWrite row ∈ (runScript cfg o w).trace → row.archiveKey ≠ some key) ∧
    rowsFor (runScript cfg o w).ledger key = rowsFor w.ledger key ∧
    (Event.createBase ("Archive " ++ key) ∈ (runScript cfg o w).trace →
      truthyStr (getExistingBaseId (runScript cfg o w).ledger key) = false ∧
      (Event.ledgerLookup key ∈
          (runScript cfg2 o2 ⟨master2, (runScript cfg o w).ledger, logTable2⟩).trace →
        Event.createBase ("Archive " ++ key) ∈
          (runScript cfg2 o2 ⟨master2, (runScript cfg o w).ledger, logTable2⟩).trace) ∧
      ((runScript cfg2 o2 ⟨master2, (runScript cfg o w).ledger, logTable2⟩).aborted = false →
        ∀ record ∈ unarchivedRecords master2, ∀ d, record.date = some d →
          keyOfDate cfg2 d = key →
          Event.createBase ("Archive " ++ key) ∈
            (runScript cfg2 o2 ⟨master2, (runScript cfg o w).ledger, logTable2⟩).trace)) := by
  obtain ⟨u1, u2, u3⟩ := runScript_keyUnwritten cfg o w key hfail
  refine ⟨fun s => ?_, u2, u1, fun hc => ?_⟩
  · unfold createBaseIfNotExist
    cases hrep : o.createBase ("Archive " ++ key) with
    | threw error => rfl
    | data id ft =>
      rw [hrep] at hfail
      cases ft with
      | none => rfl
      | some p =>
        cases id with
        | none => rfl
        | some b => simp [CreateReply.failed] at hfail
  · have hretry := runScript_keyRetried cfg2 o2
      ⟨master2, (runScript cfg o w).ledger, logTable2⟩ key (u3 hc)
    refine ⟨u3 hc, hretry, fun hab record hrec d hd hk => ?_⟩
    apply hretry
    have := runScript_lookups cfg2 o2 ⟨master2, (runScript cfg o w).ledger, logTable2⟩ hab
      record d hrec hd
    rwa [hk] at this

/-- Witness for C7: the creation of `Archive 2023_02` rejects in a first run
over `recJan` and `recFeb`; a second run over `recFeb` requests it again. -/
theorem create_failure_writes_no_row_witness :
    ((febCreationFails true).createBase ("Archive " ++ "2023_02")).failed = true ∧
    rowsFor (runScript sampleSettings (febCreationFails true) ⟨[recJan, recFeb], [], []⟩).ledger
      "2023_02" = rowsFor [] "2023_02" :=
  ⟨by decide,
    (create_failure_writes_no_row sampleSettings sampleSettings (febCreationFails true) allSucceed
      ⟨[recJan, recFeb], [], []⟩ [recFeb] [] "2023_02" (by decide)).2.2.1⟩

theorem getExistingBaseId_eq_head (ledger : List LedgerRow) (key : String) :
    getExistingBaseId ledger key
      = match (rowsFor ledger key).head? with
        | some row => row.archiveId
        | none => none := by
  induction ledger with
  | nil => rfl
  | cons r rest ih =>
    by_cases hr : r.archiveKey = some key
    · simp [getExistingBaseId, rowsFor, List.filter_cons, hr]
    · simpa [getExistingBaseId, rowsFor, List.filter_cons, hr] using ih

/-- C8 (as stated, refuted): a row with the key exists, its Archive ID cell is
empty, and `getExistingBaseId` returns null; so null is not returned exactly
when no row matches. -/
theorem lookup_null_with_matching_row :
    ¬ (getExistingBaseId
          [{ archiveKey := some "2023_01", archiveName := some "Archive 2023_01",
             archiveId := none, workspaceId := some "wsp1", link := none,
             primaryTableId := some "tbl1" }] "2023_01" = none ↔
        rowsFor
          [{ archiveKey := some "2023_01", archiveName := some "Archive 2023_01",
             archiveId := none, workspaceId := some "wsp1", link := none,
             primaryTableId := some "tbl1" }] "2023_01" = []) := by
  decide

/-- C8 (amended): `getExistingBaseId(k)` returns null when no row of the
tracking table has Archive Key `k`; otherwise it returns the Archive ID cell
of the first row, in table order, whose Archive Key is `k`.  It therefore
returns null exactly when no row matches or the first matching row has an
empty Archive ID cell. -/
theorem lookup_returns_first_matching_id (ledger : List LedgerRow) (key : String) :
    (rowsFor ledger key = [] → getExistingBaseId ledger key = none) ∧
    (∀ row rest, rowsFor ledger key = row :: rest →
      getExistingBaseId ledger key = row.archiveId) ∧
    (getExistingBaseId ledger key = none ↔
      rowsFor ledger key = [] ∨
      ∃ row rest, rowsFor ledger key = row :: rest ∧ row.archiveId = none) := by
  rw [getExistingBaseId_eq_head]
  cases h : rowsFor ledger key with
  | nil => simp
  | cons row rest => simp

/-! ## Runs on the sample inputs -/

/-- C1 (code at the failing input): with `recJan` and `recFeb` in one batch
and every call succeeding, the only bulk-create request carries both records
and is addressed to the base of January, the key of the first record, while
the key of `recFeb` is `2023_02` and `baseIds` holds another base for it. -/
theorem batch_sent_to_first_records_base :
    bulkCreates (runScript sampleSettings allSucceed ⟨[recJan, recFeb], [], []⟩).trace
      = [(some "app:Archive 2023_01", [recJan, recFeb])] ∧
    keyOfDate sampleSettings { year := 2023, month := 2, day := 15, minute := 0 } = "2023_02" ∧
    baseIdFor (runScript sampleSettings allSucceed ⟨[recJan, recFeb], [], []⟩).baseIds "2023_02"
      = some "app:Archive 2023_02" := by
  decide

/-- C2 (code at the failing input): the creation succeeds for January and
rejects for February.  With `recJan` first, the record of February is copied
into the base of January and flagged; with `recFeb` first, the batch is
addressed to no base and, the request being answered with a non-2xx status,
both records are flagged all the same.  The status is `Partial Success` in
both runs. -/
theorem failed_partition_records_flagged :
    (bulkCreates (runScript sampleSettings (febCreationFails true)
        ⟨[recJan, recFeb], [], []⟩).trace = [(some "app:Archive 2023_01", [recJan, recFeb])] ∧
      (runScript sampleSettings (febCreationFails true) ⟨[recJan, recFeb], [], []⟩).master
        = [{ recJan with archived := true }, { recFeb with archived := true }] ∧
      (runScript sampleSettings (febCreationFails true) ⟨[recJan, recFeb], [], []⟩).logTable.map
        (fun row => row.status) = ["Partial Success"]) ∧
    (bulkCreates (runScript sampleSettings (febCreationFails false)
        ⟨[recFeb, recJan], [], []⟩).trace = [(none, [recFeb, recJan])] ∧
      (runScript sampleSettings (febCreationFails false) ⟨[recFeb, recJan], [], []⟩).master
        = [{ recFeb with archived := true }, { recJan with archived := true }] ∧
      (runScript sampleSettings (febCreationFails false) ⟨[recFeb, recJan], [], []⟩).logTable.map
        (fun row => row.status) = ["Partial Success"]) := by
  decide

/-- C3 (code at the failing input): the bulk-create request for the batch
`[recJan]` is answered with a non-2xx status; the batch is counted in
`totalRecordsArchived`, its record is flagged, and `errorLogs` stays empty. -/
theorem refused_batch_counted_as_archived :
    copyReplies (runScript sampleSettings copyRefused ⟨[recJan], [], []⟩).trace
      = [FetchReply.responded false] ∧
    (runScript sampleSettings copyRefused ⟨[recJan], [], []⟩).totalRecordsArchived = 1 ∧
    (runScript sampleSettings copyRefused ⟨[recJan], [], []⟩).master
      = [{ recJan with archived := true }] ∧
    (runScript sampleSettings copyRefused ⟨[recJan], [], []⟩).errorLogs = [] := by
  decide

/-- C4 (code at the failing input): `recNoDate` has an empty Date cell; it is
carried by the bulk-create request of its batch and flagged. -/
theorem dateless_record_copied_and_flagged :
    recNoDate.date = none ∧
    bulkCreates (runScript sampleSettings allSucceed ⟨[recJan, recNoDate], [], []⟩).trace
      = [(some "app:Archive 2023_01", [recJan, recNoDate])] ∧
    flaggedIds (runScript sampleSettings allSucceed ⟨[recJan, recNoDate], [], []⟩).trace
      = ["recJan", "recNoDate"] ∧
    (runScript sampleSettings allSucceed ⟨[recJan, recNoDate], [], []⟩).master
      = [{ recJan with archived := true }, { recNoDate with archived := true }] := by
  decide

/-- C9 (code at the failing input): the only bulk-create request carrying
`recFeb` is answered with a non-2xx status, and the run then issues the update
that flags `recFeb`. -/
theorem flagged_without_successful_copy :
    (runScript sampleSettings copyRefused ⟨[recFeb], [], []⟩).trace.filter
        (fun e => e.isCopy)
      = [Event.bulkCreate (some "app:Archive 2023_02") [recFeb]
           (recordsToCreate [recFeb] sampleSettings.masterTableFields)
           (FetchReply.responded false),
         Event.bulkUpdate ["recFeb"]] ∧
    (runScript sampleSettings copyRefused ⟨[recFeb], [], []⟩).master
      = [{ recFeb with archived := true }] := by
  decide

/-! ## The run log -/

theorem logWrites_append (a b : List Event) : logWrites (a ++ b) = logWrites a ++ logWrites b := by
  induction a with
  | nil => rfl
  | cons e rest ih => cases e <;> simp [logWrites, ih]

theorem logWrites_registry (evs : List Event) (h : ∀ e ∈ evs, e.isRegistry = true) :
    logWrites evs = [] := by
  induction evs with
  | nil => rfl
  | cons e rest ih =>
    have he := h e (by simp)
    cases e <;> simp [Event.isRegistry] at he <;>
      simpa [logWrites] using ih (fun e he => h e (by simp [he]))

theorem logWrites_copy (evs : List Event) (h : ∀ e ∈ evs, e.isCopy = true) :
    logWrites evs = [] := by
  induction evs with
  | nil => rfl
  | cons e rest ih =>
    have he := h e (by simp)
    cases e <;> simp [Event.isCopy] at he <;>
      simpa [logWrites] using ih (fun e he => h e (by simp [he]))

theorem finalLogRow_start (cfg : Settings) (w : World) :
    finalLogRow cfg 0 (Run.start w) = earlyLogRow cfg 0 := by
  simp [finalLogRow, earlyLogRow, Run.start, String.intercalate]

theorem finalLogRow_writeLog (cfg : Settings) (n : Nat) (row : LogRow) (s : Run) :
    finalLogRow cfg n (writeLog row s) = finalLogRow cfg n s := rfl

/-- The log rows of a run: a run that has not ended early appends exactly the
row computed from its final counters, and a run ended by an uncaught rejection
appends none. -/
theorem runScript_log (cfg : Settings) (o : Outcomes) (w : World) :
    ((runScript cfg o w).aborted = false →
      (runScript cfg o w).logTable
        = w.logTable ++ [finalLogRow cfg (unarchivedRecords w.master).length (runScript cfg o w)] ∧
      logWrites (runScript cfg o w).trace
        = [finalLogRow cfg (unarchivedRecords w.master).length (runScript cfg o w)]) ∧
    ((runScript cfg o w).aborted = true →
      (runScript cfg o w).logTable = w.logTable ∧ logWrites (runScript cfg o w).trace = []) := by
  obtain ⟨_, p2, pevs, p3, p4, _⟩ := resolvePass_frame cfg o
    (forInOrder (generateBaseDirectory cfg (unarchivedRecords w.master))) (Run.start w) rfl
  unfold runScript
  simp only
  split
  · next hzero =>
    rw [hzero, ← finalLogRow_start cfg w]
    simp [writeLog, Run.start, logWrites, finalLogRow]
  · next hpos =>
    revert p2 p3
    generalize resolvePass cfg o
      (forInOrder (generateBaseDirectory cfg (unarchivedRecords w.master))) (Run.start w) = p
    intro p2 p3
    have hptrace : logWrites p.trace = [] := by
      rw [p3]; simpa [Run.start] using logWrites_registry pevs p4
    cases hab : p.aborted
    · obtain ⟨_, _, _, m4, m5, evs, m6, m7, _⟩ :=
        migrationLoop_frame cfg o (unarchivedRecords w.master) (unarchivedRecords w.master).length 0 p
      have m4' := m4.trans hab
      revert m4' m5 m6
      generalize migrationLoop cfg o (unarchivedRecords w.master)
        (unarchivedRecords w.master).length 0 p = m
      intro m5 m6 m4'
      have hmtrace : logWrites m.trace = [] := by
        rw [m6, logWrites_append, hptrace, logWrites_copy evs m7]; rfl
      simp [writeLog, m4', m5, p2, Run.start, logWrites_append, hmtrace, logWrites, finalLogRow]
    · simp [hab, p2, Run.start, hptrace]

/-- A run in which no write to the tracking table rejects does not end
early. -/
theorem runScript_completes (cfg : Settings) (o : Outcomes) (w : World)
    (h : ∀ key, o.ledgerWrite key = true) : (runScript cfg o w).aborted = false := by
  obtain ⟨_, _, _, _, _, _, h5, _⟩ := runScript_shape cfg o w
  rw [h5]
  refine resolvePass_invariant cfg o (fun s => s.aborted = false) _ ?_ (Run.start w) rfl rfl
  intro e _ s hs _
  rcases resolveKey_cases cfg o e s hs with
    ⟨_, hr⟩ | ⟨_, _, _, hr⟩ | ⟨_, b, t, _, _, _, ⟨_, hr⟩ | ⟨hw, _⟩⟩
  · rw [hr]; exact hs
  · rw [hr]; exact hs
  · rw [hr]; exact hs
  · rw [h e.1] at hw; cases hw

/-! ## Ceilings and slices -/

theorem ceil_tenth (n : Nat) : ⌈(n : ℚ) / 10⌉₊ = (n + 9) / 10 := by
  apply le_antisymm
  · rw [Nat.ceil_le, div_le_iff₀ (by norm_num)]
    have h : n ≤ (n + 9) / 10 * 10 := by omega
    exact_mod_cast h
  · rcases Nat.eq_zero_or_pos ((n + 9) / 10) with h0 | hpos
    · rw [h0]; exact Nat.zero_le _
    · have h1 : (n + 9) / 10 - 1 < ⌈(n : ℚ) / 10⌉₊ := by
        rw [Nat.lt_ceil, lt_div_iff₀ (by norm_num)]
        have h : ((n + 9) / 10 - 1) * 10 < n := by omega
        exact_mod_cast h
      omega

theorem ceil_third (m : Nat) : ⌈(m : ℚ) / 3⌉₊ = ceilThird m := by
  unfold ceilThird
  apply le_antisymm
  · rw [Nat.ceil_le, div_le_iff₀ (by norm_num)]
    have h : m ≤ (m + 2) / 3 * 3 := by omega
    exact_mod_cast h
  · rcases Nat.eq_zero_or_pos ((m + 2) / 3) with h0 | hpos
    · rw [h0]; exact Nat.zero_le _
    · have h1 : (m + 2) / 3 - 1 < ⌈(m : ℚ) / 3⌉₊ := by
        rw [Nat.lt_ceil, lt_div_iff₀ (by norm_num)]
        have h : ((m + 2) / 3 - 1) * 3 < m := by omega
        exact_mod_cast h
      omega

/-- The slice at position `k` of the loop is `l.slice(i + size * k, i + size
* k + size)`. -/
theorem slicesFrom_getElem? {α : Type} (size : Nat) (l : List α) (fuel i k : Nat) :
    (slicesFrom size l fuel i)[k]?
      = if k < fuel ∧ i + size * k < l.length then some ((l.drop (i + size * k)).take size)
        else none := by
  induction fuel generalizing i k with
  | zero => simp [slicesFrom]
  | succ fuel ih =>
    simp only [slicesFrom]
    by_cases hi : i < l.length
    · simp only [hi, if_true]
      cases k with
      | zero => simp [hi]
      | succ k =>
        simp only [List.getElem?_cons_succ, ih]
        have e1 : i + size + size * k = i + size * (k + 1) := by ring
        rw [e1]
        simp
    · simp only [hi, if_false, List.getElem?_nil]
      have : ¬ (i + size * k < l.length) := by
        intro h; exact hi (lt_of_le_of_lt (Nat.le_add_right _ _) h)
      simp [this]

/-- With enough fuel the slices, joined, are the list from index `i` on. -/
theorem slicesFrom_join {α : Type} (size : Nat) (l : List α) (fuel i : Nat)
    (h : l.length ≤ i + size * fuel) : (slicesFrom size l fuel i).flatten = l.drop i := by
  induction fuel generalizing i with
  | zero =>
    simp only [Nat.mul_zero, Nat.add_zero] at h
    simp [slicesFrom, List.drop_eq_nil_of_le h]
  | succ fuel ih =>
    simp only [slicesFrom]
    by_cases hi : i < l.length
    · simp only [hi, if_true, List.flatten_cons]
      rw [ih (i + size) (by rw [Nat.mul_succ] at h; omega), ← List.drop_drop]
      exact List.take_append_drop size (l.drop i)
    · simp [hi, List.drop_eq_nil_of_le (Nat.le_of_not_lt hi)]

/-- With enough fuel the loop cuts `ceil((n - i) / 10)` slices of ten. -/
theorem slicesFrom_ten_length {α : Type} (l : List α) (fuel i : Nat)
    (h : l.length ≤ i + 10 * fuel) :
    (slicesFrom 10 l fuel i).length = (l.length - i + 9) / 10 := by
  induction fuel generalizing i with
  | zero => simp [slicesFrom]; omega
  | succ fuel ih =>
    simp only [slicesFrom]
    by_cases hi : i < l.length
    · simp only [hi, if_true, List.length_cons]
      rw [ih (i + 10) (by omega)]
      omega
    · simp only [hi, if_false, List.length_nil]
      omega

theorem slicesFrom_nil_of_le {α : Type} (size : Nat) (l : List α) (fuel i : Nat)
    (h : l.length ≤ i) : slicesFrom size l fuel i = [] := by
  cases fuel with
  | zero => rfl
  | succ fuel => simp [slicesFrom, Nat.not_lt.2 h]

/-- A non-empty list of at most `size` elements is cut into one slice, the
list itself. -/
theorem slicesFrom_single {α : Type} (size : Nat) (l : List α) (hpos : 0 < l.length)
    (hle : l.length ≤ size) : slicesFrom size l l.length 0 = [l] := by
  obtain ⟨n, hn⟩ : ∃ n, l.length = n + 1 := ⟨l.length - 1, by omega⟩
  rw [hn]
  simp only [slicesFrom, hn, Nat.zero_lt_succ, if_true, List.drop_zero, Nat.zero_add]
  rw [slicesFrom_nil_of_le size l n size (by omega), List.take_of_length_le hle]

theorem updateCalls_append (a b : List Event) :
    updateCalls (a ++ b) = updateCalls a ++ updateCalls b := by
  induction a with
  | nil => rfl
  | cons e rest ih => cases e <;> simp [updateCalls, ih]

theorem migrateBatches_append (a b : List Event) :
    migrateBatches (a ++ b) = migrateBatches a ++ migrateBatches b := by
  induction a with
  | nil => rfl
  | cons e rest ih => cases e <;> simp [migrateBatches, ih]

/-- When no update rejects, the update loop issues one call per slice of 50
ids and reports no error. -/
theorem updateLoop_calls (upd : Nat → Option String) (hupd : ∀ k, upd k = none)
    (updates : List String) (fuel i : Nat) (s : Run) :
    (updateLoop upd updates fuel i s).2 = none ∧
    ∃ evs, (updateLoop upd updates fuel i s).1.trace = s.trace ++ evs ∧
      updateCalls evs = slicesFrom 50 updates fuel i ∧ migrateBatches evs = [] := by
  induction fuel generalizing i s with
  | zero => exact ⟨rfl, [], by simp [updateLoop], rfl, rfl⟩
  | succ fuel ih =>
    simp only [updateLoop, slicesFrom]
    by_cases hi : i < updates.length
    · simp only [hi, if_true, hupd i]
      obtain ⟨h1, evs, h2, h3, h4⟩ := ih (i + 50)
        { s with trace := s.trace ++ [Event.bulkUpdate ((updates.drop i).take 50)],
                 master := setArchived ((updates.drop i).take 50) s.master }
      refine ⟨h1, Event.bulkUpdate ((updates.drop i).take 50) :: evs, ?_, ?_, ?_⟩
      · simpa using h2
      · simp [updateCalls, h3]
      · simpa [migrateBatches] using h4
    · simp only [hi, if_false]
      exact ⟨by trivial, [], by simp, rfl, rfl⟩

theorem migrateBatches_updates (evs : List Event)
    (h : ∀ e ∈ evs, ∃ ids, e = Event.bulkUpdate ids) : migrateBatches evs = [] := by
  induction evs with
  | nil => rfl
  | cons e rest ih =>
    obtain ⟨ids, rfl⟩ := h e (by simp)
    simpa [migrateBatches] using ih (fun e he => h e (by simp [he]))

/-- The events one call of `addRecordsToBaseInBatches` adds: one bulk-create
request for the batch and, when the `fetch` resolves and no update rejects, one
update call per slice of 50 ids. -/
theorem addRecords_calls (reply : FetchReply) (upd : Nat → Option String)
    (baseId : Option String) (batch : List Record) (fieldNames : List String) (s : Run) :
    ∃ evs, (addRecordsToBaseInBatches reply upd baseId batch fieldNames s).trace = s.trace ++ evs ∧
      migrateBatches evs = [batch] ∧
      ((∃ ok, reply = FetchReply.responded ok) → (∀ k, upd k = none) →
        updateCalls evs
          = slicesFrom 50 (batch.map (fun record => record.id))
              (batch.map (fun record => record.id)).length 0) := by
  obtain ⟨_, _, _, _, _, evs, h1, h2, _⟩ := addRecords_frame reply upd baseId batch fieldNames s
  have hb : migrateBatches evs = [] := migrateBatches_updates evs h2
  refine ⟨Event.bulkCreate baseId batch (recordsToCreate batch fieldNames) reply :: evs, h1,
    by simp [migrateBatches, hb], ?_⟩
  rintro ⟨ok, rfl⟩ hupd
  obtain ⟨u1, uevs, u2, u3, _⟩ := updateLoop_calls upd hupd (batch.map (fun record => record.id))
    (batch.map (fun record => record.id)).length 0
    { s with trace := s.trace ++ [Event.bulkCreate baseId batch
                (recordsToCreate batch fieldNames) (FetchReply.responded ok)],
             totalRecordsArchived := s.totalRecordsArchived + batch.length }
  have htrace : (addRecordsToBaseInBatches (FetchReply.responded ok) upd baseId batch fieldNames
      s).trace = s.trace ++ Event.bulkCreate baseId batch (recordsToCreate batch fieldNames)
        (FetchReply.responded ok) :: uevs := by
    simp only [addRecordsToBaseInBatches, u1]
    simpa using u2
  have hevs : evs = uevs := by
    have := h1.symm.trans htrace
    simpa using this
  rw [hevs]
  simpa [updateCalls] using u3

/-- The batches of the migration loop are the slices of ten of the list, and
when every `fetch` resolves and no update rejects there is one update call per
batch, carrying the ids of the batch. -/
theorem migrationLoop_batches (cfg : Settings) (o : Outcomes) (unarchived : List Record)
    (fuel i : Nat) (s : Run) :
    ∃ evs, (migrationLoop cfg o unarchived fuel i s).trace = s.trace ++ evs ∧
      migrateBatches evs = slicesFrom 10 unarchived fuel i ∧
      ((∀ j, ∃ ok, o.bulkCreate j = FetchReply.responded ok) → (∀ j k, o.bulkUpdate j k = none) →
        updateCalls evs
          = (slicesFrom 10 unarchived fuel i).map (fun b => b.map (fun record => record.id))) := by
  induction fuel generalizing i s with
  | zero => exact ⟨[], by simp [migrationLoop], rfl, fun _ _ => rfl⟩
  | succ fuel ih =>
    simp only [migrationLoop, slicesFrom]
    split
    · next hi =>
      have hlen : 0 < ((unarchived.drop i).take 10).length := by
        simp only [List.length_take, List.length_drop]; omega
      have hle : ((unarchived.drop i).take 10).length ≤ 50 := by
        simp only [List.length_take, List.length_drop]; omega
      split
      · next hnil => rw [hnil] at hlen; simp at hlen
      · next first rest hcons =>
        rw [hcons] at hlen hle ⊢
        obtain ⟨evs1, a1, a2, a3⟩ := addRecords_calls (o.bulkCreate i) (o.bulkUpdate i)
          (baseIdFor s.baseIds (inlineKey cfg.frequency
            (getFullYear cfg.utcOffset (newDate first.date))
            (getMonth cfg.utcOffset (newDate first.date) + 1)))
          (first :: rest) cfg.masterTableFields s
        obtain ⟨evs2, b1, b2, b3⟩ := ih (i + 10)
          (addRecordsToBaseInBatches (o.bulkCreate i) (o.bulkUpdate i)
            (baseIdFor s.baseIds (inlineKey cfg.frequency
              (getFullYear cfg.utcOffset (newDate first.date))
              (getMonth cfg.utcOffset (newDate first.date) + 1)))
            (first :: rest) cfg.masterTableFields s)
        refine ⟨evs1 ++ evs2, ?_, ?_, ?_⟩
        · rw [b1, a1]; simp
        · rw [migrateBatches_append, a2, b2]; rfl
        · intro hc hu
          rw [updateCalls_append, a3 (hc i) (hu i), b3 hc hu,
            slicesFrom_single 50 _ (by simp) (by simpa using hle)]
          rfl
    · next hi =>
      exact ⟨[], by simp, rfl, fun _ _ => rfl⟩

/-- The three ways a run ends: in the resolve pass on a rejected ledger write,
or with the log write after the migration loop. -/
theorem runScript_eq (cfg : Settings) (o : Outcomes) (w : World) :
    ((resolvePass cfg o (forInOrder (generateBaseDirectory cfg (unarchivedRecords w.master)))
        (Run.start w)).aborted = true ∧
      runScript cfg o w
        = resolvePass cfg o (forInOrder (generateBaseDirectory cfg (unarchivedRecords w.master)))
            (Run.start w)) ∨
    ((resolvePass cfg o (forInOrder (generateBaseDirectory cfg (unarchivedRecords w.master)))
        (Run.start w)).aborted = false ∧
      runScript cfg o w
        = writeLog
            (finalLogRow cfg (unarchivedRecords w.master).length
              (migrationLoop cfg o (unarchivedRecords w.master) (unarchivedRecords w.master).length 0
                (resolvePass cfg o
                  (forInOrder (generateBaseDirectory cfg (unarchivedRecords w.master)))
                  (Run.start w))))
            (migrationLoop cfg o (unarchivedRecords w.master) (unarchivedRecords w.master).length 0
              (resolvePass cfg o
                (forInOrder (generateBaseDirectory cfg (unarchivedRecords w.master)))
                (Run.start w)))) := by
  unfold runScript
  simp only
  split
  · next hzero =>
    have hnil : unarchivedRecords w.master = [] := List.length_eq_zero.1 hzero
    right
    rw [hnil]
    simp [generateBaseDirectory, forInOrder, resolvePass, migrationLoop, Run.start,
      finalLogRow, earlyLogRow, String.intercalate]
  · next hpos =>
    generalize resolvePass cfg o
      (forInOrder (generateBaseDirectory cfg (unarchivedRecords w.master))) (Run.start w) = p
    cases hab : p.aborted
    · right
      have hm := (migrationLoop_frame cfg o (unarchivedRecords w.master)
        (unarchivedRecords w.master).length 0 p).2.2.2.1
      simp [hm, hab]
    · left
      simp

/-! ## Claims about the run log -/

/-- C11 (code at the failing input): the write of the tracking-table row for
`2023_01` rejects; nothing catches the rejection, the script ends, and the run
appends no row to the log table. -/
theorem rejected_ledger_write_leaves_no_log_row :
    (runScript sampleSettings ledgerWriteRejected ⟨[recJan], [], []⟩).aborted = true ∧
    (runScript sampleSettings ledgerWriteRejected ⟨[recJan], [], []⟩).logTable = [] ∧
    (runScript sampleSettings ledgerWriteRejected ⟨[recJan], [], []⟩).trace
      = [Event.ledgerLookup "2023_01", Event.createBase "Archive 2023_01",
         Event.ledgerWrite
           (archiveRow sampleSettings "2023_01" "app:Archive 2023_01" "Archive 2023_01" "tbl1")] := by
  decide

theorem generateBaseDirectory_dateless (cfg : Settings) (records : List Record)
    (h : ∀ record ∈ records, record.date = none) : generateBaseDirectory cfg records = [] := by
  unfold generateBaseDirectory
  induction records with
  | nil => rfl
  | cons r rest ih =>
    have hr : directoryStep cfg [] r = [] := by
      simp [directoryStep, h r (by simp)]
    rw [List.foldl_cons, hr]
    exact ih (fun record hrec => h record (by simp [hrec]))

/-- C12 (as stated, refuted): `recNoDate` has no date, so no record is
eligible; yet the run logs Total Records Processed = 1, and it submits
`recNoDate` in a bulk-create request and flags it. -/
theorem dateless_only_run_counts_and_copies :
    eligibleRecords [recNoDate] = [] ∧
    (logWrites (runScript sampleSettings copyRefused ⟨[recNoDate], [], []⟩).trace).map
      (fun row => row.totalRecordsProcessed) = [1] ∧
    copiedRecords (runScript sampleSettings copyRefused ⟨[recNoDate], [], []⟩).trace
      = [recNoDate] ∧
    flaggedIds (runScript sampleSettings copyRefused ⟨[recNoDate], [], []⟩).trace
      = ["recNoDate"] := by
  decide

/-- C12 (amended): a run whose unarchived records all lack a date issues no
ledger lookup, no create-base request and no ledger write, leaves the tracking
table as it was and appends exactly one log row, whose Total Records Processed
is the number of unarchived records.  When there is no unarchived record at
all, that row has Total Records Processed = 0, Total Records Archived = 0 and
Status = Success, it is the only request of the run, and the master table is
left as it was (no record copy, no flag update). -/
theorem run_without_dated_records (cfg : Settings) (o : Outcomes) (w : World)
    (h : ∀ record ∈ unarchivedRecords w.master, record.date = none) :
    (∀ e ∈ (runScript cfg o w).trace, e.isRegistry = false) ∧
    (runScript cfg o w).ledger = w.ledger ∧
    (∃ row, (runScript cfg o w).logTable = w.logTable ++ [row] ∧
      logWrites (runScript cfg o w).trace = [row] ∧
      row.totalRecordsProcessed = (unarchivedRecords w.master).length) ∧
    (unarchivedRecords w.master = [] →
      (runScript cfg o w).trace = [Event.logWrite (earlyLogRow cfg 0)] ∧
      (runScript cfg o w).logTable = w.logTable ++ [earlyLogRow cfg 0] ∧
      (earlyLogRow cfg 0).status = "Success" ∧
      (earlyLogRow cfg 0).totalRecordsProcessed = 0 ∧
      (earlyLogRow cfg 0).totalRecordsArchived = 0 ∧
      (runScript cfg o w).master = w.master) := by
  have hdir := generateBaseDirectory_dateless cfg _ h
  obtain ⟨a1, _, _, a4⟩ := runScript_after_pass cfg o w
  obtain ⟨_, _, _, _, _, _, s5, _⟩ := runScript_shape cfg o w
  rw [hdir] at a1 a4 s5
  have hab : (runScript cfg o w).aborted = false := by
    rw [s5]; rfl
  refine ⟨fun e he => ?_, ?_, ?_, fun hnil => ?_⟩
  · cases hreg : e.isRegistry
    · rfl
    · have := (a4 e hreg).1 he
      simp [forInOrder, resolvePass, Run.start] at this
  · rw [a1]; rfl
  · obtain ⟨l1, l2⟩ := (runScript_log cfg o w).1 hab
    exact ⟨_, l1, l2, rfl⟩
  · have hzero : (unarchivedRecords w.master).length = 0 := by rw [hnil]; rfl
    have hrun : runScript cfg o w = writeLog (earlyLogRow cfg 0) (Run.start w) := by
      unfold runScript
      simp [hzero]
    rw [hrun]
    exact ⟨rfl, rfl, rfl, rfl, rfl, rfl⟩

/-- Witness for C12: a master table whose only record is already archived. -/
theorem run_without_dated_records_witness :
    (∀ record ∈ unarchivedRecords [{ recJan with archived := true }], record.date = none) ∧
    (runScript sampleSettings allSucceed ⟨[{ recJan with archived := true }], [], []⟩).trace
      = [Event.logWrite (earlyLogRow sampleSettings 0)] :=
  ⟨by decide,
    ((run_without_dated_records sampleSettings allSucceed
      ⟨[{ recJan with archived := true }], [], []⟩ (by decide)).2.2.2 (by decide)).1⟩

/-- C13: every log row a run writes has Status `Success` exactly when
`errorLogs` is empty and `Partial Success` otherwise, never `Failure`; the rows
the run appends to the log table are these rows, and a run that reaches the
final log write (it has not ended on an uncaught rejection) writes one. -/
theorem logged_status_follows_errorLogs (cfg : Settings) (o : Outcomes) (w : World) :
    (∀ row ∈ logWrites (runScript cfg o w).trace,
      (row.status = "Success" ↔ (runScript cfg o w).errorLogs = []) ∧
      (row.status = "Partial Success" ↔ (runScript cfg o w).errorLogs ≠ []) ∧
      row.status ≠ "Failure") ∧
    (runScript cfg o w).logTable = w.logTable ++ logWrites (runScript cfg o w).trace ∧
    ((runScript cfg o w).aborted = false → ∃ row, logWrites (runScript cfg o w).trace = [row]) := by
  obtain ⟨l1, l2⟩ := runScript_log cfg o w
  cases hab : (runScript cfg o w).aborted
  · obtain ⟨t1, t2⟩ := l1 hab
    refine ⟨fun row hrow => ?_, by rw [t2]; exact t1, fun _ => ⟨_, t2⟩⟩
    rw [t2] at hrow
    simp only [List.mem_singleton] at hrow
    subst hrow
    cases herr : (runScript cfg o w).errorLogs with
    | nil => simp [finalLogRow, herr]
    | cons e rest => simp [finalLogRow, herr]
  · obtain ⟨t1, t2⟩ := l2 hab
    refine ⟨fun row hrow => ?_, by rw [t2]; simpa using t1, fun h => by cases h⟩
    rw [t2] at hrow
    cases hrow

/-- C14 (as stated, refuted): with `recJan` and the dateless `recNoDate`
unarchived, one record is eligible and the logged Total Records Processed
is 2. -/
theorem processed_counts_dateless_records :
    (eligibleRecords [recJan, recNoDate]).length = 1 ∧
    ¬ (∀ row ∈ logWrites (runScript sampleSettings allSucceed
          ⟨[recJan, recNoDate], [], []⟩).trace,
        row.totalRecordsProcessed = (eligibleRecords [recJan, recNoDate]).length) := by
  decide

/-- C14 (amended): the Total Records Processed value of every log row a run
writes is the number of source records whose Archived flag is unset, with or
without a date; it is the number of eligible records when every unarchived
record has a date. -/
theorem processed_is_unarchived_count (cfg : Settings) (o : Outcomes) (w : World) :
    (∀ row ∈ logWrites (runScript cfg o w).trace,
      row.totalRecordsProcessed = (unarchivedRecords w.master).length) ∧
    ((∀ record ∈ unarchivedRecords w.master, record.date.isSome = true) →
      ∀ row ∈ logWrites (runScript cfg o w).trace,
        row.totalRecordsProcessed = (eligibleRecords w.master).length) := by
  have hall : ∀ row ∈ logWrites (runScript cfg o w).trace,
      row.totalRecordsProcessed = (unarchivedRecords w.master).length := by
    obtain ⟨l1, l2⟩ := runScript_log cfg o w
    intro row hrow
    cases hab : (runScript cfg o w).aborted
    · rw [(l1 hab).2] at hrow
      simp only [List.mem_singleton] at hrow
      subst hrow
      rfl
    · rw [(l2 hab).2] at hrow
      cases hrow
  refine ⟨hall, fun hdated row hrow => ?_⟩
  rw [hall row hrow]
  congr 1
  unfold unarchivedRecords eligibleRecords
  apply List.filter_congr
  intro record hrec
  by_cases hun : (record.getCellValue archivedFieldName).truthy = true
  · simp [hun]
  · have hmem : record ∈ unarchivedRecords w.master := by
      simp [unarchivedRecords, List.mem_filter, hrec, hun]
    simp [hun, hdated record hmem]

/-! ## Claims about the batches -/

theorem migrateBatches_registry (evs : List Event) (h : ∀ e ∈ evs, e.isRegistry = true) :
    migrateBatches evs = [] := by
  induction evs with
  | nil => rfl
  | cons e rest ih =>
    have he := h e (by simp)
    cases e <;> simp [Event.isRegistry] at he <;>
      simpa [migrateBatches] using ih (fun e he => h e (by simp [he]))

theorem updateCalls_registry (evs : List Event) (h : ∀ e ∈ evs, e.isRegistry = true) :
    updateCalls evs = [] := by
  induction evs with
  | nil => rfl
  | cons e rest ih =>
    have he := h e (by simp)
    cases e <;> simp [Event.isRegistry] at he <;>
      simpa [updateCalls] using ih (fun e he => h e (by simp [he]))

/-- The batches and the update calls of a run that has not ended early. -/
theorem runScript_batches (cfg : Settings) (o : Outcomes) (w : World)
    (hab : (runScript cfg o w).aborted = false) :
    migrateBatches (runScript cfg o w).trace
      = slicesFrom 10 (unarchivedRecords w.master) (unarchivedRecords w.master).length 0 ∧
    ((∀ j, ∃ ok, o.bulkCreate j = FetchReply.responded ok) → (∀ j k, o.bulkUpdate j k = none) →
      updateCalls (runScript cfg o w).trace
        = (slicesFrom 10 (unarchivedRecords w.master) (unarchivedRecords w.master).length 0).map
            (fun b => b.map (fun record => record.id))) := by
  obtain ⟨_, _, pevs, p1, p2, _⟩ := resolvePass_frame cfg o
    (forInOrder (generateBaseDirectory cfg (unarchivedRecords w.master))) (Run.start w) rfl
  have hpb : migrateBatches pevs = [] := migrateBatches_registry pevs p2
  have hpu : updateCalls pevs = [] := updateCalls_registry pevs p2
  obtain ⟨evs, m1, m2, m3⟩ := migrationLoop_batches cfg o (unarchivedRecords w.master)
    (unarchivedRecords w.master).length 0
    (resolvePass cfg o (forInOrder (generateBaseDirectory cfg (unarchivedRecords w.master)))
      (Run.start w))
  rcases runScript_eq cfg o w with ⟨hp, hr⟩ | ⟨_, hr⟩
  · rw [hr, hp] at hab; cases hab
  · have htrace : (runScript cfg o w).trace
        = pevs ++ evs ++ [Event.logWrite (finalLogRow cfg (unarchivedRecords w.master).length
            (migrationLoop cfg o (unarchivedRecords w.master)
              (unarchivedRecords w.master).length 0
              (resolvePass cfg o
                (forInOrder (generateBaseDirectory cfg (unarchivedRecords w.master)))
                (Run.start w))))] := by
      rw [hr]
      simp only [writeLog]
      rw [m1, p1]
      simp [Run.start]
    rw [htrace]
    refine ⟨?_, fun hc hu => ?_⟩
    · simp [migrateBatches_append, hpb, m2, migrateBatches]
    · simp [updateCalls_append, hpu, m3 hc hu, updateCalls]

/-- C16: the migration loop over a list of `n` unarchived records issues
`ceil(n / 10)` migrate-batches; the batch at position `k` is the slice of the
ten records from index `10 * k`; every batch but the last has ten records and
every batch has between one and ten; joined in order the batches are the list
itself, so they contain every record exactly once; for 23 records the sizes
are 10, 10, 3.  The batches of a run that has not ended early are the ones
this loop issues over its unarchived records. -/
theorem migration_batches_are_slices_of_ten (cfg : Settings) (o : Outcomes)
    (unarchived : List Record) (s : Run) :
    ∃ evs, (migrationLoop cfg o unarchived unarchived.length 0 s).trace = s.trace ++ evs ∧
      (migrateBatches evs).length = ⌈(unarchived.length : ℚ) / 10⌉₊ ∧
      (∀ k, k < (migrateBatches evs).length →
        (migrateBatches evs)[k]? = some ((unarchived.drop (10 * k)).take 10)) ∧
      (∀ k b, k + 1 < (migrateBatches evs).length → (migrateBatches evs)[k]? = some b →
        b.length = 10) ∧
      (∀ b ∈ migrateBatches evs, 1 ≤ b.length ∧ b.length ≤ 10) ∧
      (migrateBatches evs).flatten = unarchived ∧
      (unarchived.length = 23 → (migrateBatches evs).map List.length = [10, 10, 3]) ∧
      (∀ w : World, unarchivedRecords w.master = unarchived →
        (runScript cfg o w).aborted = false →
        migrateBatches (runScript cfg o w).trace = migrateBatches evs) := by
  obtain ⟨evs, h1, h2, _⟩ := migrationLoop_batches cfg o unarchived unarchived.length 0 s
  have hlen : (migrateBatches evs).length = (unarchived.length + 9) / 10 := by
    rw [h2, slicesFrom_ten_length unarchived unarchived.length 0 (by omega)]
    simp
  have hget : ∀ k, k < (migrateBatches evs).length →
      (migrateBatches evs)[k]? = some ((unarchived.drop (10 * k)).take 10) := by
    intro k hk
    rw [hlen] at hk
    rw [h2, slicesFrom_getElem?]
    have h3 : k < unarchived.length := by omega
    have h4 : 10 * k < unarchived.length := by omega
    simp [h3, h4]
  refine ⟨evs, h1, by rw [hlen, ceil_tenth], hget, ?_, ?_, ?_, ?_, ?_⟩
  · intro k b hk hb
    rw [hget k (by omega)] at hb
    injection hb with hb
    rw [← hb, List.length_take, List.length_drop]
    rw [hlen] at hk
    omega
  · intro b hb
    obtain ⟨k, hk⟩ := List.mem_iff_getElem?.1 hb
    have hklt : k < (migrateBatches evs).length := by
      by_contra hge
      rw [List.getElem?_eq_none (Nat.le_of_not_lt hge)] at hk
      cases hk
    rw [hget k hklt] at hk
    injection hk with hk
    rw [← hk, List.length_take, List.length_drop]
    rw [hlen] at hklt
    omega
  · rw [h2, slicesFrom_join 10 unarchived unarchived.length 0 (by omega)]
    rfl
  · intro h23
    rw [h2, h23]
    simp [slicesFrom, h23, List.length_take, List.length_drop]
  · intro w hw hab
    rw [(runScript_batches cfg o w hab).1, hw, h2]

/-- C17 (as stated, refuted): 23 eligible records, all dated January 2023,
monthly frequency, every call succeeding; the run does not flag them with one
bulk-update call. -/
theorem flag_updates_of_23_records_not_one :
    (eligibleRecords januaryRecords).length = 23 ∧
    ¬ (updateCalls (runScript sampleSettings allSucceed ⟨januaryRecords, [], []⟩).trace).length
        = 1 := by
  decide

/-- C17 (amended): a run over 23 unarchived records in which no ledger write
and no update rejects and every bulk-create `fetch` resolves flags the records
with exactly 3 bulk-update calls, one per migrate-batch, carrying the ids of
the 10, 10 and 3 records of the batches: the update is issued inside every
batch, and a batch of at most 10 ids is never split by the limit of 50. -/
theorem flag_updates_one_per_batch (cfg : Settings) (o : Outcomes) (w : World)
    (h23 : (unarchivedRecords w.master).length = 23)
    (hw : ∀ key, o.ledgerWrite key = true)
    (hc : ∀ j, ∃ ok, o.bulkCreate j = FetchReply.responded ok)
    (hu : ∀ j k, o.bulkUpdate j k = none) :
    (updateCalls (runScript cfg o w).trace).length = 3 ∧
    (updateCalls (runScript cfg o w).trace).map List.length = [10, 10, 3] ∧
    updateCalls (runScript cfg o w).trace
      = (migrateBatches (runScript cfg o w).trace).map
          (fun b => b.map (fun record => record.id)) := by
  have hab := runScript_completes cfg o w hw
  obtain ⟨b1, b2⟩ := runScript_batches cfg o w hab
  have b3 := b2 hc hu
  rw [b3, b1, h23]
  simp [slicesFrom, h23, List.length_take, List.length_drop]

/-- Witness for C17: the 23 records of `januaryRecords`, every call
succeeding. -/
theorem flag_updates_one_per_batch_witness :
    (unarchivedRecords januaryRecords).length = 23 ∧
    (updateCalls (runScript sampleSettings allSucceed ⟨januaryRecords, [], []⟩).trace).map
      List.length = [10, 10, 3] :=
  ⟨by decide,
    (flag_updates_one_per_batch sampleSettings allSucceed ⟨januaryRecords, [], []⟩ (by decide)
      (fun _ => rfl) (fun _ => ⟨true, rfl⟩) (fun _ _ => rfl)).2.1⟩

/-! ## The archived counter -/

theorem resolvedSize_append (a b : List Event) :
    resolvedSize (a ++ b) = resolvedSize a + resolvedSize b := by
  induction a with
  | nil => simp [resolvedSize]
  | cons e rest ih =>
    cases e with
    | bulkCreate baseId batch toCreate reply =>
      cases reply <;> simp [resolvedSize, ih, Nat.add_assoc]
    | _ => simp [resolvedSize, ih]

theorem resolvedSize_updates (evs : List Event)
    (h : ∀ e ∈ evs, ∃ ids, e = Event.bulkUpdate ids) : resolvedSize evs = 0 := by
  induction evs with
  | nil => rfl
  | cons e rest ih =>
    obtain ⟨ids, rfl⟩ := h e (by simp)
    simpa [resolvedSize] using ih (fun e he => h e (by simp [he]))

theorem resolvedSize_le_copied (tr : List Event) :
    resolvedSize tr ≤ (copiedRecords tr).length := by
  induction tr with
  | nil => simp [resolvedSize, copiedRecords]
  | cons e rest ih =>
    cases e with
    | bulkCreate baseId batch toCreate reply =>
      cases reply <;> simp [resolvedSize, copiedRecords] <;> omega
    | _ => simpa [resolvedSize, copiedRecords] using ih

theorem updateLoop_counter (upd : Nat → Option String) (updates : List String) (fuel i : Nat)
    (s : Run) :
    (updateLoop upd updates fuel i s).1.totalRecordsArchived = s.totalRecordsArchived := by
  induction fuel generalizing i s with
  | zero => rfl
  | succ fuel ih =>
    simp only [updateLoop]
    split
    · cases upd i with
      | some error => rfl
      | none => simpa using ih (i + 50) _
    · rfl

/-- One call of `addRecordsToBaseInBatches` keeps the counter equal to the
summed sizes of the batches whose `fetch` resolved. -/
theorem addRecords_counter (reply : FetchReply) (upd : Nat → Option String)
    (baseId : Option String) (batch : List Record) (fieldNames : List String) (s : Run)
    (h : s.totalRecordsArchived = resolvedSize s.trace) :
    (addRecordsToBaseInBatches reply upd baseId batch fieldNames s).totalRecordsArchived
      = resolvedSize (addRecordsToBaseInBatches reply upd baseId batch fieldNames s).trace := by
  obtain ⟨_, _, _, _, _, evs, h1, h2, _⟩ := addRecords_frame reply upd baseId batch fieldNames s
  rw [h1, resolvedSize_append]
  cases reply with
  | threw error =>
    simp [addRecordsToBaseInBatches, resolvedSize, resolvedSize_updates evs h2, h]
  | responded ok =>
    have hu := updateLoop_counter upd (batch.map (fun record => record.id))
      (batch.map (fun record => record.id)).length 0
      { s with trace := s.trace ++ [Event.bulkCreate baseId batch
                  (recordsToCreate batch fieldNames) (FetchReply.responded ok)],
               totalRecordsArchived := s.totalRecordsArchived + batch.length }
    simp only [resolvedSize, resolvedSize_updates evs h2, Nat.add_zero]
    simp only [List.length_map] at hu
    simp only [addRecordsToBaseInBatches]
    split
    · dsimp only
      simp only [List.length_map]
      omega
    · simp only [List.length_map]
      omega

theorem migrationLoop_counter (cfg : Settings) (o : Outcomes) (unarchived : List Record)
    (fuel i : Nat) (s : Run) (h : s.totalRecordsArchived = resolvedSize s.trace) :
    (migrationLoop cfg o unarchived fuel i s).totalRecordsArchived
      = resolvedSize (migrationLoop cfg o unarchived fuel i s).trace := by
  induction fuel generalizing i s with
  | zero => exact h
  | succ fuel ih =>
    simp only [migrationLoop]
    split
    · split
      · exact h
      · exact ih _ _ (addRecords_counter _ _ _ _ _ s h)
    · exact h

/-- At the end of a run `totalRecordsArchived` is the summed sizes of the
batches whose bulk-create `fetch` resolved, whatever the status of the
response, and it does not exceed the number of unarchived records. -/
theorem runScript_counter (cfg : Settings) (o : Outcomes) (w : World) :
    (runScript cfg o w).totalRecordsArchived = resolvedSize (runScript cfg o w).trace ∧
    (runScript cfg o w).totalRecordsArchived ≤ (unarchivedRecords w.master).length := by
  have hp := resolvePass_invariant cfg o (fun s => s.totalRecordsArchived = resolvedSize s.trace)
    (forInOrder (generateBaseDirectory cfg (unarchivedRecords w.master)))
    (fun e _ s hs hk => by
      rcases resolveKey_cases cfg o e s hs with
        ⟨_, hr⟩ | ⟨_, _, _, hr⟩ | ⟨_, b, t, _, _, _, ⟨_, hr⟩ | ⟨_, hr⟩⟩ <;>
      · rw [hr]
        simp only [resolvedSize_append]
        simpa [resolvedSize] using hk)
    (Run.start w) rfl rfl
  have heq : (runScript cfg o w).totalRecordsArchived = resolvedSize (runScript cfg o w).trace := by
    rcases runScript_eq cfg o w with ⟨_, hr⟩ | ⟨_, hr⟩
    · rw [hr]; exact hp
    · rw [hr]
      have hm := migrationLoop_counter cfg o (unarchivedRecords w.master)
        (unarchivedRecords w.master).length 0 _ hp
      simp only [writeLog, resolvedSize_append]
      simpa [resolvedSize] using hm
  refine ⟨heq, ?_⟩
  rw [heq]
  refine le_trans (resolvedSize_le_copied _) ?_
  rcases copiedRecords_runScript cfg o w with h | h
  · rw [h]
  · rw [h]; simp

/-- C15 (code at the failing input): both bulk-create requests of the run are
refused with a non-2xx status, so no batch succeeded and the sum of the sizes
of the succeeded batches is 0; `totalRecordsArchived` is 2 all the same, and 2
is logged as Total Records Archived. -/
theorem refused_batches_added_to_total :
    copyReplies (runScript sampleSettings copyRefused ⟨[recJan, recFeb], [], []⟩).trace
      = [FetchReply.responded false] ∧
    succeededSize (runScript sampleSettings copyRefused ⟨[recJan, recFeb], [], []⟩).trace = 0 ∧
    (runScript sampleSettings copyRefused ⟨[recJan, recFeb], [], []⟩).totalRecordsArchived = 2 ∧
    (logWrites (runScript sampleSettings copyRefused ⟨[recJan, recFeb], [], []⟩).trace).map
      (fun row => row.totalRecordsArchived) = [2] := by
  decide

/-! ## Changes to the master table -/

theorem flaggedIds_append (a b : List Event) :
    flaggedIds (a ++ b) = flaggedIds a ++ flaggedIds b := by
  induction a with
  | nil => rfl
  | cons e rest ih => cases e <;> simp [flaggedIds, ih]

theorem setArchived_nil (master : List Record) : setArchived [] master = master := by
  simp [setArchived]

theorem setArchived_setArchived (a b : List String) (master : List Record) :
    setArchived b (setArchived a master) = setArchived (a ++ b) master := by
  simp only [setArchived, List.map_map]
  apply List.map_congr_left
  intro record _
  by_cases ha : record.id ∈ a <;> by_cases hb : record.id ∈ b <;> simp [ha, hb]

theorem setArchived_flagOnly (ids : List String) (master : List Record) :
    List.Forall₂ FlagOnly master (setArchived ids master) := by
  induction master with
  | nil => exact List.Forall₂.nil
  | cons r rest ih =>
    refine List.Forall₂.cons ?_ ih
    by_cases h : r.id ∈ ids
    · right; simp [h]
    · left; simp [h]

/-- The update loop only sets the `Archived` cell, of records whose id is in
one of its calls. -/
theorem updateLoop_master (upd : Nat → Option String) (updates : List String) (fuel i : Nat)
    (s : Run) :
    ∃ evs ids, (updateLoop upd updates fuel i s).1.trace = s.trace ++ evs ∧
      (updateLoop upd updates fuel i s).1.master = setArchived ids s.master ∧
      (∀ id ∈ ids, id ∈ updates ∧ id ∈ flaggedIds evs) ∧
      copiedRecords evs = [] := by
  induction fuel generalizing i s with
  | zero => exact ⟨[], [], by simp [updateLoop], by simp [updateLoop, setArchived_nil], by simp, rfl⟩
  | succ fuel ih =>
    simp only [updateLoop]
    split
    · cases upd i with
      | some error =>
        exact ⟨[Event.bulkUpdate ((updates.drop i).take 50)], [], rfl,
          by simp [setArchived_nil], by simp, rfl⟩
      | none =>
        obtain ⟨evs, ids, h1, h2, h3, h4⟩ := ih (i + 50)
          { s with trace := s.trace ++ [Event.bulkUpdate ((updates.drop i).take 50)],
                   master := setArchived ((updates.drop i).take 50) s.master }
        refine ⟨Event.bulkUpdate ((updates.drop i).take 50) :: evs,
          (updates.drop i).take 50 ++ ids, by simpa using h1, ?_, ?_, by simpa [copiedRecords] using h4⟩
        · rw [h2]; exact setArchived_setArchived _ _ _
        · intro id hid
          rcases List.mem_append.1 hid with h | h
          · exact ⟨(List.drop_subset _ _) ((List.take_subset _ _) h), by simp [flaggedIds, h]⟩
          · exact ⟨(h3 id h).1, by simp [flaggedIds, (h3 id h).2]⟩
    · exact ⟨[], [], by simp, by simp [setArchived_nil], by simp, rfl⟩

/-- One call of `addRecordsToBaseInBatches` only sets the `Archived` cell, of
records of its batch that one of its update calls lists. -/
theorem addRecords_master (reply : FetchReply) (upd : Nat → Option String)
    (baseId : Option String) (batch : List Record) (fieldNames : List String) (s : Run) :
    ∃ evs ids, (addRecordsToBaseInBatches reply upd baseId batch fieldNames s).trace
        = s.trace ++ evs ∧
      (addRecordsToBaseInBatches reply upd baseId batch fieldNames s).master
        = setArchived ids s.master ∧
      (∀ id ∈ ids, id ∈ flaggedIds evs ∧
        id ∈ (copiedRecords evs).map (fun record => record.id)) := by
  cases reply with
  | threw error =>
    exact ⟨[Event.bulkCreate baseId batch (recordsToCreate batch fieldNames)
      (FetchReply.threw error)], [], rfl, by simp [addRecordsToBaseInBatches, setArchived_nil],
      by simp⟩
  | responded ok =>
    obtain ⟨evs, ids, h1, h2, h3, h4⟩ := updateLoop_master upd
      (batch.map (fun record => record.id)) (batch.map (fun record => record.id)).length 0
      { s with trace := s.trace ++ [Event.bulkCreate baseId batch
                  (recordsToCreate batch fieldNames) (FetchReply.responded ok)],
               totalRecordsArchived := s.totalRecordsArchived + batch.length }
    refine ⟨Event.bulkCreate baseId batch (recordsToCreate batch fieldNames)
      (FetchReply.responded ok) :: evs, ids, ?_, ?_, ?_⟩
    · simp only [addRecordsToBaseInBatches]
      split <;> simpa using h1
    · simp only [addRecordsToBaseInBatches]
      split <;> simpa using h2
    · intro id hid
      refine ⟨by simpa [flaggedIds] using (h3 id hid).2, ?_⟩
      have := (h3 id hid).1
      simp only [copiedRecords, h4, List.append_nil]
      exact this

/-- The migration loop only sets the `Archived` cell, of records that one of
its bulk-create requests carries and one of its update calls lists. -/
theorem migrationLoop_master (cfg : Settings) (o : Outcomes) (unarchived : List Record)
    (fuel i : Nat) (s : Run) :
    ∃ evs ids, (migrationLoop cfg o unarchived fuel i s).trace = s.trace ++ evs ∧
      (migrationLoop cfg o unarchived fuel i s).master = setArchived ids s.master ∧
      (∀ id ∈ ids, id ∈ flaggedIds evs ∧
        id ∈ (copiedRecords evs).map (fun record => record.id)) := by
  induction fuel generalizing i s with
  | zero => exact ⟨[], [], by simp [migrationLoop], by simp [migrationLoop, setArchived_nil], by simp⟩
  | succ fuel ih =>
    simp only [migrationLoop]
    split
    · split
      · exact ⟨[], [], by simp, by simp [setArchived_nil], by simp⟩
      · next first rest hcons =>
        rw [hcons]
        obtain ⟨evs1, ids1, a1, a2, a3⟩ := addRecords_master (o.bulkCreate i) (o.bulkUpdate i)
          (baseIdFor s.baseIds (inlineKey cfg.frequency
            (getFullYear cfg.utcOffset (newDate first.date))
            (getMonth cfg.utcOffset (newDate first.date) + 1)))
          (first :: rest) cfg.masterTableFields s
        obtain ⟨evs2, ids2, b1, b2, b3⟩ := ih (i + 10)
          (addRecordsToBaseInBatches (o.bulkCreate i) (o.bulkUpdate i)
            (baseIdFor s.baseIds (inlineKey cfg.frequency
              (getFullYear cfg.utcOffset (newDate first.date))
              (getMonth cfg.utcOffset (newDate first.date) + 1)))
            (first :: rest) cfg.masterTableFields s)
        refine ⟨evs1 ++ evs2, ids1 ++ ids2, ?_, ?_, ?_⟩
        · rw [b1, a1]; simp
        · rw [b2, a2]; exact setArchived_setArchived _ _ _
        · intro id hid
          simp only [flaggedIds_append, copiedRecords_append, List.map_append, List.mem_append]
          rcases List.mem_append.1 hid with h | h
          · exact ⟨Or.inl (a3 id h).1, Or.inl (a3 id h).2⟩
          · exact ⟨Or.inr (b3 id h).1, Or.inr (b3 id h).2⟩
    · exact ⟨[], [], by simp, by simp [setArchived_nil], by simp⟩

/-- C19: after a run the master table holds the same records in the same
order (none is deleted), each one unchanged or with only its `Archived` cell
set to true; the records whose flag the run set are listed by one of its
update calls and carried by one of its bulk-create requests; and the resolve
pass leaves the master table as it was. -/
theorem only_archived_flag_is_written (cfg : Settings) (o : Outcomes) (w : World) :
    List.Forall₂ FlagOnly w.master (runScript cfg o w).master ∧
    (∃ ids, (runScript cfg o w).master = setArchived ids w.master ∧
      ∀ id ∈ ids, id ∈ flaggedIds (runScript cfg o w).trace ∧
        id ∈ (copiedRecords (runScript cfg o w).trace).map (fun record => record.id)) ∧
    (resolvePass cfg o (forInOrder (generateBaseDirectory cfg (unarchivedRecords w.master)))
      (Run.start w)).master = w.master := by
  obtain ⟨p1, _, pevs, p3, _, _⟩ := resolvePass_frame cfg o
    (forInOrder (generateBaseDirectory cfg (unarchivedRecords w.master))) (Run.start w) rfl
  have hp : (resolvePass cfg o (forInOrder (generateBaseDirectory cfg (unarchivedRecords w.master)))
      (Run.start w)).master = w.master := p1
  have hex : ∃ ids, (runScript cfg o w).master = setArchived ids w.master ∧
      ∀ id ∈ ids, id ∈ flaggedIds (runScript cfg o w).trace ∧
        id ∈ (copiedRecords (runScript cfg o w).trace).map (fun record => record.id) := by
    rcases runScript_eq cfg o w with ⟨_, hr⟩ | ⟨_, hr⟩
    · exact ⟨[], by rw [hr, hp, setArchived_nil], by simp⟩
    · obtain ⟨evs, ids, m1, m2, m3⟩ := migrationLoop_master cfg o (unarchivedRecords w.master)
        (unarchivedRecords w.master).length 0
        (resolvePass cfg o (forInOrder (generateBaseDirectory cfg (unarchivedRecords w.master)))
          (Run.start w))
      refine ⟨ids, ?_, fun id hid => ?_⟩
      · rw [hr]
        simp only [writeLog]
        rw [m2, hp]
      · rw [hr]
        simp only [writeLog]
        rw [m1]
        simp only [flaggedIds_append, copiedRecords_append, List.map_append, List.mem_append]
        exact ⟨Or.inl (Or.inr (m3 id hid).1), Or.inl (Or.inr (m3 id hid).2)⟩
  obtain ⟨ids, h1, h2⟩ := hex
  exact ⟨by rw [h1]; exact setArchived_flagOnly ids w.master, ⟨ids, h1, h2⟩, hp⟩

/-! ## Field values -/

/-- C18 (as stated, refuted): the cell of a multiple-select field is an array
of choice objects; `processFieldValue` returns it unchanged, so the value sent
in the bulk-create request for `recTagged` is not a primitive. -/
theorem multiple_select_sent_as_objects :
    processFieldValue twoChoices = twoChoices ∧
    ¬ (processFieldValue twoChoices).isPrimitive = true ∧
    recordsToCreate [recTagged] ["Tags", "Archived"] = [[("Tags", twoChoices)]] := by
  decide

/-- C18 (amended): `processFieldValue(v)` is the display name when `v` is a
single object with a non-empty `name`, and `v` itself otherwise.  So a
primitive stays the same primitive and a structured single choice is replaced
by its name, while an array (multiple selects, attachments, links) and an
object without a name are passed through unchanged; the result is a primitive
exactly for a primitive and for an object with a non-empty name.  Every field
value of a bulk-create request is `processFieldValue` of the cell. -/
theorem processFieldValue_name_or_unchanged (v : CellValue) :
    (v.isPrimitive = true → processFieldValue v = v) ∧
    (∀ props name, v = CellValue.obj props → props.lookup "name" = some name → name ≠ "" →
      processFieldValue v = CellValue.str name) ∧
    (∀ props, v = CellValue.obj props →
      props.lookup "name" = none ∨ props.lookup "name" = some "" → processFieldValue v = v) ∧
    (∀ items, v = CellValue.arr items → processFieldValue v = v) ∧
    ((processFieldValue v).isPrimitive = true ↔
      v.isPrimitive = true ∨
        ∃ props name, v = CellValue.obj props ∧ props.lookup "name" = some name ∧ name ≠ "") ∧
    (∀ (batch : List Record) (fieldNames : List String),
      recordsToCreate batch fieldNames
        = batch.map (fun record =>
            (fieldNames.filter (fun fieldName => fieldName != archivedFieldName)).map
              (fun fieldName => (fieldName, processFieldValue (record.getCellValue fieldName))))) := by
  refine ⟨?_, ?_, ?_, ?_, ?_, fun _ _ => rfl⟩
  · intro h
    cases v <;> simp [CellValue.isPrimitive] at h <;> rfl
  · rintro props name rfl hl hn
    simp [processFieldValue, hl, hn]
  · rintro props rfl (hl | hl) <;> simp [processFieldValue, hl]
  · rintro items rfl
    rfl
  · cases v with
    | obj props =>
      cases hl : props.lookup "name" with
      | none => simp [processFieldValue, hl, CellValue.isPrimitive]
      | some name =>
        by_cases hn : name = ""
        · simp [processFieldValue, hl, hn, CellValue.isPrimitive]
        · simp [processFieldValue, hl, hn, CellValue.isPrimitive]
    | _ => simp [processFieldValue, CellValue.isPrimitive]

/-! ## Period keys -/

/-- C20: under quarterly frequency, for the year `y` and the month `m` in
1..12 that the runtime reads from a date (`getFullYear()` and `getMonth() +
1`), both key expressions give `y`, then `_Q`, then the quarter `ceil(m / 3)`,
which lies in 1..4: months 1-3 give Q1, 4-6 give Q2, 7-9 give Q3 and 10-12
give Q4.  So does `generateBaseDirectory` for every date value whose local
year and month are `y` and `m`. -/
theorem quarterly_key (y : Int) (m : Nat) (h1 : 1 ≤ m) (h12 : m ≤ 12) :
    directoryKey Frequency.m3 y m = toString y ++ "_Q" ++ toString ⌈(m : ℚ) / 3⌉₊ ∧
    inlineKey Frequency.m3 y m = toString y ++ "_Q" ++ toString ⌈(m : ℚ) / 3⌉₊ ∧
    1 ≤ ⌈(m : ℚ) / 3⌉₊ ∧ ⌈(m : ℚ) / 3⌉₊ ≤ 4 ∧
    (m ≤ 3 → directoryKey Frequency.m3 y m = toString y ++ "_Q1") ∧
    (4 ≤ m → m ≤ 6 → directoryKey Frequency.m3 y m = toString y ++ "_Q2") ∧
    (7 ≤ m → m ≤ 9 → directoryKey Frequency.m3 y m = toString y ++ "_Q3") ∧
    (10 ≤ m → directoryKey Frequency.m3 y m = toString y ++ "_Q4") ∧
    (∀ (cfg : Settings) (d : DateCell), cfg.frequency = Frequency.m3 →
      localYearMonth cfg.utcOffset d = (y, m) →
      keyOfDate cfg d = toString y ++ "_Q" ++ toString ⌈(m : ℚ) / 3⌉₊) := by
  rw [ceil_third]
  have hq : ∀ q, ceilThird m = q → directoryKey Frequency.m3 y m = toString y ++ "_Q" ++ toString q := by
    intro q hq
    simp [directoryKey, hq]
  refine ⟨rfl, by simp [inlineKey], by unfold ceilThird; omega, by unfold ceilThird; omega,
    ?_, ?_, ?_, ?_, ?_⟩
  · intro h
    rw [hq 1 (by unfold ceilThird; omega), String.append_assoc]
    rfl
  · intro h4 h6
    rw [hq 2 (by unfold ceilThird; omega), String.append_assoc]
    rfl
  · intro h7 h9
    rw [hq 3 (by unfold ceilThird; omega), String.append_assoc]
    rfl
  · intro h10
    rw [hq 4 (by unfold ceilThird; omega), String.append_assoc]
    rfl
  · intro cfg d hf hd
    have hm : getMonth cfg.utcOffset d + 1 = m := by
      simp only [getMonth, hd]
      omega
    simp only [keyOfDate, newDate, hm, hf, getFullYear, hd]
    rfl

/-- Witness for C20: December 2023 is in the fourth quarter. -/
theorem quarterly_key_witness :
    (1 ≤ 12 ∧ 12 ≤ 12) ∧ directoryKey Frequency.m3 2023 12 = toString (2023 : Int) ++ "_Q4" :=
  ⟨by decide, (quarterly_key 2023 12 (by decide) (by decide)).2.2.2.2.2.2.2.1 (by decide)⟩

/-! ## Period keys, continued -/

/-- The month the script computes from a date is the local month when that is
at least 1. -/
theorem month_of_local (utcOffset : Int) (d : DateCell) (y : Int) (m : Nat) (h1 : 1 ≤ m)
    (hd : localYearMonth utcOffset d = (y, m)) :
    getFullYear utcOffset d = y ∧ getMonth utcOffset d + 1 = m := by
  simp only [getFullYear, getMonth, hd]
  constructor
  · trivial
  · show m - 1 + 1 = m
    omega

/-- In a runtime on UTC the local year and month of a date value are its own
year and month. -/
theorem localYearMonth_utc (d : DateCell) (h : d.minute < 1440) :
    localYearMonth 0 d = (d.year, d.month) := by
  have h0 : ¬ ((d.minute : Int) < 0) := by omega
  have h1 : (d.minute : Int) < 1440 := by omega
  simp [localYearMonth, h0, h1]

/-- C21: under semiannual frequency, for the year `y` and the month `m` in
1..12 that the runtime reads from a date (`getFullYear()` and `getMonth() +
1`), both key expressions give `y` followed by `_H1` when `m ≤ 6` and `y`
followed by `_H2` otherwise; month 6 gives H1 and month 7 gives H2.  So does
`generateBaseDirectory` for every date value whose local year and month are
`y` and `m`. -/
theorem semiannual_key (y : Int) (m : Nat) (h1 : 1 ≤ m) (h12 : m ≤ 12) :
    (m ≤ 6 → directoryKey Frequency.m6 y m = toString y ++ "_H1" ∧
      inlineKey Frequency.m6 y m = toString y ++ "_H1") ∧
    (6 < m → directoryKey Frequency.m6 y m = toString y ++ "_H2" ∧
      inlineKey Frequency.m6 y m = toString y ++ "_H2") ∧
    directoryKey Frequency.m6 y 6 = toString y ++ "_H1" ∧
    directoryKey Frequency.m6 y 7 = toString y ++ "_H2" ∧
    (∀ (cfg : Settings) (d : DateCell), cfg.frequency = Frequency.m6 →
      localYearMonth cfg.utcOffset d = (y, m) →
      keyOfDate cfg d = toString y ++ (if m ≤ 6 then "_H1" else "_H2")) := by
  have hlow : ∀ k : Nat, k ≤ 6 → directoryKey Frequency.m6 y k = toString y ++ "_H1" := by
    intro k hk
    simp only [directoryKey, hk, if_true, String.append_assoc]
    rfl
  have hhigh : ∀ k : Nat, 6 < k → directoryKey Frequency.m6 y k = toString y ++ "_H2" := by
    intro k hk
    have hk' : ¬ k ≤ 6 := by omega
    simp only [directoryKey, hk', if_false, String.append_assoc]
    rfl
  refine ⟨fun h => ⟨hlow m h, by simp [inlineKey, h]⟩, fun h => ⟨hhigh m h, ?_⟩,
    hlow 6 (by decide), hhigh 7 (by decide), ?_⟩
  · have h' : ¬ m ≤ 6 := by omega
    simp [inlineKey, h']
  · intro cfg d hf hd
    obtain ⟨e1, e2⟩ := month_of_local cfg.utcOffset d y m h1 hd
    simp only [keyOfDate, newDate, e1, e2, hf]
    by_cases h : m ≤ 6
    · simp only [h, if_true]; exact hlow m h
    · simp only [h, if_false]; exact hhigh m (by omega)

/-- Witness for C21: June is in the first half, July in the second. -/
theorem semiannual_key_witness :
    (1 ≤ 6 ∧ 6 ≤ 12) ∧ directoryKey Frequency.m6 2023 6 = toString (2023 : Int) ++ "_H1" :=
  ⟨by decide, ((semiannual_key 2023 6 (by decide) (by decide)).1 (by decide)).1⟩

theorem padStart2_month (m : Nat) (h1 : 1 ≤ m) (h12 : m ≤ 12) :
    padStart2 (toString m) = twoDigits m := by
  interval_cases m <;> decide

/-- C22: under monthly frequency, for the year `y` and the month `m` in 1..12
that the runtime reads from a date, both key expressions give `y`, an
underscore, and `m` written with exactly two decimal digits, with a leading
`0` for `m < 10`; January 2023 gives `2023_01` and December 2023 gives
`2023_12`.  So does `generateBaseDirectory` for every date value whose local
year and month are `y` and `m`. -/
theorem monthly_key (y : Int) (m : Nat) (h1 : 1 ≤ m) (h12 : m ≤ 12) :
    directoryKey Frequency.m1 y m = toString y ++ "_" ++ twoDigits m ∧
    inlineKey Frequency.m1 y m = toString y ++ "_" ++ twoDigits m ∧
    (twoDigits m).length = 2 ∧
    (m < 10 → twoDigits m = "0" ++ toString m) ∧
    (10 ≤ m → twoDigits m = toString m) ∧
    directoryKey Frequency.m1 2023 1 = "2023_01" ∧
    directoryKey Frequency.m1 2023 12 = "2023_12" ∧
    (∀ (cfg : Settings) (d : DateCell), cfg.frequency = Frequency.m1 →
      localYearMonth cfg.utcOffset d = (y, m) →
      keyOfDate cfg d = toString y ++ "_" ++ twoDigits m) := by
  have hp := padStart2_month m h1 h12
  refine ⟨by simp [directoryKey, hp], by simp [inlineKey, hp], rfl, ?_, ?_, by decide,
    by decide, ?_⟩
  · intro h
    interval_cases m <;> decide
  · intro h
    interval_cases m <;> decide
  · intro cfg d hf hd
    obtain ⟨e1, e2⟩ := month_of_local cfg.utcOffset d y m h1 hd
    simp only [keyOfDate, newDate, e1, e2, hf, directoryKey, hp]

/-- Witness for C22: March 2023. -/
theorem monthly_key_witness :
    (1 ≤ 3 ∧ 3 ≤ 12) ∧
    directoryKey Frequency.m1 2023 3 = toString (2023 : Int) ++ "_" ++ twoDigits 3 :=
  ⟨by decide, (monthly_key 2023 3 (by decide) (by decide)).1⟩

/-- The local year and month of a stored 29 February: the year is the stored
year in every runtime, and the month is February unless the local clock has
passed midnight into 1 March. -/
theorem localYearMonth_leap_day (utcOffset : Int) (y : Int) (minute : Nat) :
    localYearMonth utcOffset { year := y, month := 2, day := 29, minute := minute }
      = (y, if (minute : Int) + utcOffset < 1440 then 2 else 3) := by
  have hdays : ¬ 29 < daysInMonth y 2 := by
    simp only [daysInMonth, if_true]
    split <;> decide
  simp only [localYearMonth]
  by_cases h0 : (minute : Int) + utcOffset < 0
  · have h1 : (minute : Int) + utcOffset < 1440 := by omega
    simp [h0, h1]
  · by_cases h1 : (minute : Int) + utcOffset < 1440
    · simp [h0, h1]
    · simp [h0, h1, hdays]

theorem february_key (y : Int) : directoryKey Frequency.m1 y 2 = toString y ++ "_02" := by
  simp only [directoryKey, String.append_assoc]
  rfl

theorem march_key (y : Int) : directoryKey Frequency.m1 y 3 = toString y ++ "_03" := by
  simp only [directoryKey, String.append_assoc]
  rfl

/-- C23: under annual frequency the key of every date value, in every
runtime, is the decimal text of the year the runtime reads from it
(`getFullYear()`), whatever the month and day; both key expressions give the
year alone; so two date values read as the same year get the same annual key.
A stored 29 February is read as its own year in every runtime, so its annual
key is that year, the key of every date value read as that year.  Under
monthly frequency it is read as February and keyed `y_02`, the key of every
date value read as February of `y`, unless the local clock has passed midnight
into 1 March, when it is keyed `y_03`.  The date-only values 29 February 2024
and 1 February 2024 are evaluated on UTC. -/
theorem annual_key_ignores_month_and_day (y : Int) :
    (∀ m : Nat, directoryKey Frequency.m12 y m = toString y ∧
      inlineKey Frequency.m12 y m = toString y) ∧
    (∀ (cfg : Settings) (d : DateCell), cfg.frequency = Frequency.m12 →
      keyOfDate cfg d = toString (getFullYear cfg.utcOffset d)) ∧
    (∀ (cfg : Settings) (d : DateCell) (m : Nat), cfg.frequency = Frequency.m12 →
      localYearMonth cfg.utcOffset d = (y, m) → keyOfDate cfg d = toString y) ∧
    (∀ (cfg : Settings) (d d' : DateCell), cfg.frequency = Frequency.m12 →
      getFullYear cfg.utcOffset d = getFullYear cfg.utcOffset d' →
      keyOfDate cfg d = keyOfDate cfg d') ∧
    (∀ (cfg : Settings) (d d' : DateCell),
      localYearMonth cfg.utcOffset d = localYearMonth cfg.utcOffset d' →
      keyOfDate cfg d = keyOfDate cfg d') ∧
    (∀ (cfg : Settings) (minute : Nat), cfg.frequency = Frequency.m12 →
      keyOfDate cfg { year := y, month := 2, day := 29, minute := minute } = toString y ∧
      ∀ d' : DateCell, getFullYear cfg.utcOffset d' = y →
        keyOfDate cfg { year := y, month := 2, day := 29, minute := minute }
          = keyOfDate cfg d') ∧
    (∀ (cfg : Settings) (minute : Nat), cfg.frequency = Frequency.m1 →
      keyOfDate cfg { year := y, month := 2, day := 29, minute := minute }
        = toString y ++ (if (minute : Int) + cfg.utcOffset < 1440 then "_02" else "_03")) ∧
    (∀ (cfg : Settings) (d' : DateCell), cfg.frequency = Frequency.m1 →
      localYearMonth cfg.utcOffset d' = (y, 2) →
      keyOfDate cfg d' = toString y ++ "_02" ∧
      ∀ minute : Nat, (minute : Int) + cfg.utcOffset < 1440 →
        keyOfDate cfg { year := y, month := 2, day := 29, minute := minute }
          = keyOfDate cfg d') ∧
    (∀ (cfg : Settings) (month day minute minute' : Nat), cfg.utcOffset = 0 →
      cfg.frequency = Frequency.m12 → minute < 1440 → minute' < 1440 →
      keyOfDate cfg { year := y, month := 2, day := 29, minute := minute }
        = keyOfDate cfg { year := y, month := month, day := day, minute := minute' }) ∧
    (∀ (cfg : Settings) (day minute minute' : Nat), cfg.utcOffset = 0 →
      cfg.frequency = Frequency.m1 → minute < 1440 → minute' < 1440 →
      keyOfDate cfg { year := y, month := 2, day := 29, minute := minute }
        = keyOfDate cfg { year := y, month := 2, day := day, minute := minute' }) ∧
    keyOfDate { sampleSettings with frequency := Frequency.m12 }
        { year := 2024, month := 2, day := 29, minute := 0 } = "2024" ∧
    keyOfDate { sampleSettings with frequency := Frequency.m12 }
        { year := 2024, month := 11, day := 5, minute := 0 } = "2024" ∧
    keyOfDate sampleSettings { year := 2024, month := 2, day := 29, minute := 0 } = "2024_02" ∧
    keyOfDate sampleSettings { year := 2024, month := 2, day := 1, minute := 0 } = "2024_02" := by
  have hannual : ∀ (cfg : Settings) (d : DateCell), cfg.frequency = Frequency.m12 →
      keyOfDate cfg d = toString (getFullYear cfg.utcOffset d) := by
    intro cfg d hf
    simp only [keyOfDate, newDate, hf, directoryKey]
  have hfeb : ∀ (cfg : Settings) (d : DateCell), cfg.frequency = Frequency.m1 →
      localYearMonth cfg.utcOffset d = (y, 2) → keyOfDate cfg d = toString y ++ "_02" := by
    intro cfg d hf hd
    simp only [keyOfDate, newDate, getFullYear, getMonth, hd, hf]
    exact february_key y
  have hleap : ∀ (cfg : Settings) (minute : Nat), cfg.frequency = Frequency.m1 →
      keyOfDate cfg { year := y, month := 2, day := 29, minute := minute }
        = toString y ++ (if (minute : Int) + cfg.utcOffset < 1440 then "_02" else "_03") := by
    intro cfg minute hf
    simp only [keyOfDate, newDate, getFullYear, getMonth, localYearMonth_leap_day, hf]
    by_cases h : (minute : Int) + cfg.utcOffset < 1440
    · simp only [h, if_true]
      exact february_key y
    · simp only [h, if_false]
      exact march_key y
  refine ⟨fun m => ⟨rfl, by simp [inlineKey]⟩, hannual, ?_, ?_, ?_, ?_, hleap, ?_, ?_, ?_,
    by decide, by decide, by decide, by decide⟩
  · intro cfg d m hf hd
    rw [hannual cfg d hf]
    simp only [getFullYear, hd]
  · intro cfg d d' hf hy
    simp only [keyOfDate, newDate, hf, directoryKey, hy]
  · intro cfg d d' h
    simp only [keyOfDate, newDate, getFullYear, getMonth, h]
  · intro cfg minute hf
    have hkey : keyOfDate cfg { year := y, month := 2, day := 29, minute := minute }
        = toString y := by
      rw [hannual cfg _ hf]
      simp only [getFullYear, localYearMonth_leap_day]
    refine ⟨hkey, fun d' hy => ?_⟩
    rw [hkey, hannual cfg d' hf, hy]
  · intro cfg d' hf hd
    refine ⟨hfeb cfg d' hf hd, fun minute hm => ?_⟩
    rw [hfeb cfg d' hf hd, hleap cfg minute hf]
    simp only [hm, if_true]
  · intro cfg month day minute minute' h0 hf hm hm'
    simp only [keyOfDate, newDate, hf, directoryKey, getFullYear, h0]
    rw [localYearMonth_utc _ hm, localYearMonth_utc _ hm']
  · intro cfg day minute minute' h0 hf hm hm'
    simp only [keyOfDate, newDate, getFullYear, getMonth, h0]
    rw [localYearMonth_utc _ hm, localYearMonth_utc _ hm']

theorem inlineKey_eq (frequency : Frequency) (year : Int) (month : Nat) :
    inlineKey frequency year month = directoryKey frequency year month := by
  cases frequency
  · simp [inlineKey, directoryKey]
  · simp [inlineKey, directoryKey]
  · by_cases h : month ≤ 6
    · simp only [inlineKey, directoryKey, h, if_true, String.append_assoc]
      simp
    · simp only [inlineKey, directoryKey, h, if_false, String.append_assoc]
      simp
  · simp [inlineKey, directoryKey]

theorem archiveLoopKey_eq (frequency : Frequency) (year : Int) (month : Nat) :
    archiveLoopKey frequency year month = directoryKey frequency year month := by
  cases frequency
  · rfl
  · rfl
  · by_cases h : month ≤ 6
    · simp only [archiveLoopKey, directoryKey, h, if_true, String.append_assoc]
      rfl
    · simp only [archiveLoopKey, directoryKey, h, if_false, String.append_assoc]
      rfl
  · rfl

/-- One round of the resolve loop puts an entry for its key in front of
`baseIds`. -/
theorem resolveKey_baseIds (cfg : Settings) (o : Outcomes) (e : String × String) (s : Run)
    (hs : s.aborted = false) :
    ∃ v, (resolveKey cfg o e s).baseIds = (e.1, v) :: s.baseIds := by
  rcases resolveKey_cases cfg o e s hs with
    ⟨_, hr⟩ | ⟨_, bid, _, hr⟩ | ⟨_, b, t, _, _, _, ⟨_, hr⟩ | ⟨_, hr⟩⟩
  · exact ⟨_, by rw [hr]⟩
  · exact ⟨bid, by rw [hr]⟩
  · exact ⟨some b, by rw [hr]⟩
  · exact ⟨some b, by rw [hr]⟩

/-- The resolve pass keeps the entries of `baseIds` and, when the script has
not ended, adds one for every key it visits. -/
theorem resolvePass_baseIds (cfg : Settings) (o : Outcomes) (entries : List (String × String))
    (s : Run) (hs : s.aborted = false) :
    (∀ b ∈ s.baseIds, b ∈ (resolvePass cfg o entries s).baseIds) ∧
    ((resolvePass cfg o entries s).aborted = false →
      ∀ e ∈ entries, ∃ v, (e.1, v) ∈ (resolvePass cfg o entries s).baseIds) := by
  induction entries generalizing s with
  | nil => exact ⟨fun b hb => hb, fun _ e he => by cases he⟩
  | cons e rest ih =>
    obtain ⟨v, hv⟩ := resolveKey_baseIds cfg o e s hs
    simp only [resolvePass]
    cases hab : (resolveKey cfg o e s).aborted
    · simp only [Bool.false_eq_true, if_false]
      obtain ⟨i1, i2⟩ := ih (resolveKey cfg o e s) hab
      refine ⟨fun b hb => i1 b (by rw [hv]; simp [hb]), fun hfin e' he' => ?_⟩
      rcases List.mem_cons.1 he' with rfl | he'
      · exact ⟨v, i1 _ (by rw [hv]; simp)⟩
      · exact i2 hfin e' he'
    · simp only [if_true]
      refine ⟨fun b hb => by rw [hv]; simp [hb], fun hfin => ?_⟩
      rw [hab] at hfin
      cases hfin

/-- When a run has not ended in the resolve pass, `baseIds` has an entry for
the key of every dated unarchived record. -/
theorem runScript_baseIds (cfg : Settings) (o : Outcomes) (w : World)
    (hab : (runScript cfg o w).aborted = false) (record : Record) (d : DateCell)
    (hrec : record ∈ unarchivedRecords w.master) (hd : record.date = some d) :
    ∃ baseId, (keyOfDate cfg d, baseId) ∈ (runScript cfg o w).baseIds := by
  obtain ⟨_, a2, _, _⟩ := runScript_after_pass cfg o w
  obtain ⟨_, _, _, _, _, _, h5, _⟩ := runScript_shape cfg o w
  obtain ⟨e, he, hk⟩ := directory_foldl_has cfg (unarchivedRecords w.master) [] record d hrec hd
  have he' : e ∈ forInOrder (generateBaseDirectory cfg (unarchivedRecords w.master)) :=
    (mem_forInOrder _ e).2 he
  obtain ⟨v, hv⟩ := (resolvePass_baseIds cfg o _ (Run.start w) rfl).2 (h5 ▸ hab) e he'
  exact ⟨v, by rw [a2, ← hk]; exact hv⟩

/-- C30: for every year and month read from a date and each of the four
frequencies, the nested conditional of the migration loop of archive_batch.js
and the `if` chain of the migration loop of archive.js give the key that
`generateBaseDirectory` computes; and when a run has not ended in the resolve
pass, `baseIds` has an entry, under the key the loop computes, for every dated
unarchived record. -/
theorem inline_key_is_directory_key (frequency : Frequency) (year : Int) (month : Nat) :
    inlineKey frequency year month = directoryKey frequency year month ∧
    archiveLoopKey frequency year month = directoryKey frequency year month ∧
    (∀ (cfg : Settings) (o : Outcomes) (w : World), (runScript cfg o w).aborted = false →
      ∀ record ∈ unarchivedRecords w.master, ∀ d, record.date = some d →
        inlineKey cfg.frequency (getFullYear cfg.utcOffset (newDate (some d)))
            (getMonth cfg.utcOffset (newDate (some d)) + 1) = keyOfDate cfg d ∧
        ∃ baseId, (keyOfDate cfg d, baseId) ∈ (runScript cfg o w).baseIds) := by
  refine ⟨inlineKey_eq frequency year month, archiveLoopKey_eq frequency year month, ?_⟩
  intro cfg o w hab record hrec d hd
  exact ⟨inlineKey_eq _ _ _, runScript_baseIds cfg o w hab record d hrec hd⟩

/-! ## The base schema and the base directory -/

theorem descriptionOrEmpty_eq (description : Option String) :
    descriptionOrEmpty description = description.getD "" := by
  cases description with
  | none => rfl
  | some text =>
    by_cases h : text = ""
    · simp [descriptionOrEmpty, h]
    · simp [descriptionOrEmpty, h]

theorem fieldSchemaOf_base (field : Field) :
    (fieldSchemaOf field).type = field.type ∧ (fieldSchemaOf field).name = field.name ∧
    (fieldSchemaOf field).description = field.description.getD "" := by
  rw [← descriptionOrEmpty_eq]
  unfold fieldSchemaOf
  simp only
  split
  · exact ⟨rfl, rfl, rfl⟩
  · split
    · exact ⟨rfl, rfl, rfl⟩
    · split
      · exact ⟨rfl, rfl, rfl⟩
      · split
        · exact ⟨rfl, rfl, rfl⟩
        · split <;> exact ⟨rfl, rfl, rfl⟩

/-- C26: `baseSchema.fields` has one entry per field of the master table
whose name is not `Archived`, in the order of the table; the entry of a field
carries its type, its name and its description, which is the empty string
when the field has none; no entry is named `Archived`.  The sample table with
the fields Name, Status, Archived and Date gives the entries of Name, Status
and Date. -/
theorem baseSchema_fields_projection (fields : List Field) :
    List.Forall₂
      (fun (field : Field) (entry : FieldSchema) =>
        entry.type = field.type ∧ entry.name = field.name ∧
        entry.description = field.description.getD "" ∧
        (field.description = none → entry.description = ""))
      (fields.filter (fun field => field.name != "Archived"))
      (baseSchemaFields fields) ∧
    (baseSchemaFields fields).map (fun entry => entry.name)
      = (fields.map (fun field => field.name)).filter (fun name => name != "Archived") ∧
    (∀ entry ∈ baseSchemaFields fields, entry.name ≠ "Archived") ∧
    (baseSchemaFields sampleFields).map (fun entry => (entry.type, entry.name, entry.description))
      = [("singleLineText", "Name", "Customer"), ("singleSelect", "Status", ""),
         ("date", "Date", "")] := by
  have hfilter : fields.filter (fun field => field.name != archivedFieldName)
      = fields.filter (fun field => field.name != "Archived") := rfl
  have hforall : ∀ l : List Field,
      List.Forall₂
        (fun (field : Field) (entry : FieldSchema) =>
          entry.type = field.type ∧ entry.name = field.name ∧
          entry.description = field.description.getD "" ∧
          (field.description = none → entry.description = ""))
        l (l.map fieldSchemaOf) := by
    intro l
    induction l with
    | nil => exact List.Forall₂.nil
    | cons f rest ih =>
      obtain ⟨h1, h2, h3⟩ := fieldSchemaOf_base f
      exact List.Forall₂.cons ⟨h1, h2, h3, fun hn => by rw [h3, hn]; rfl⟩ ih
  refine ⟨?_, ?_, ?_, by decide⟩
  · unfold baseSchemaFields
    rw [hfilter]
    exact hforall _
  · unfold baseSchemaFields
    rw [hfilter, List.map_map, List.filter_map]
    apply List.map_congr_left
    intro field _
    exact (fieldSchemaOf_base field).2.1
  · intro entry hentry
    unfold baseSchemaFields at hentry
    rw [hfilter] at hentry
    obtain ⟨field, hfield, rfl⟩ := List.mem_map.1 hentry
    rw [(fieldSchemaOf_base field).2.1]
    exact bne_iff_ne.1 (List.mem_filter.1 hfield).2

/-- C27: the projected options of a single-select or multiple-selects field
are a choices list with one entry per source choice, in the same order, and
the entry at each position has the name and the color of the source choice at
that position (a projected choice has no other attribute); the choices Open
(blue) and Closed (red) project to the same two pairs. -/
theorem select_choices_projection (field : Field)
    (h : field.type = "singleSelect" ∨ field.type = "multipleSelects") :
    (fieldSchemaOf field).options
      = some (SchemaOptions.choices (field.options.choices.map projectChoice)) ∧
    (field.options.choices.map projectChoice).length = field.options.choices.length ∧
    (∀ k : Nat, (field.options.choices.map projectChoice)[k]?
      = Option.map
          (fun (choice : Choice) =>
            ({ name := choice.name, color := choice.color } : SchemaChoice))
          field.options.choices[k]?) ∧
    (fieldSchemaOf statusField).options
      = some (SchemaOptions.choices
          [{ name := "Open", color := some "blue" }, { name := "Closed", color := some "red" }]) := by
  refine ⟨?_, by simp, fun k => ?_, by decide⟩
  · have hc : ¬ field.type = "checkbox" := by
      rcases h with h | h <;> rw [h] <;> decide
    simp [fieldSchemaOf, hc, h]
  · rw [List.getElem?_map]
    rfl

/-- Witness for C27: the single-select field `Status`. -/
theorem select_choices_projection_witness :
    (statusField.type = "singleSelect" ∨ statusField.type = "multipleSelects") ∧
    (statusField.options.choices.map projectChoice).length = statusField.options.choices.length :=
  ⟨by decide, (select_choices_projection statusField (by decide)).2.1⟩

theorem lookup_isNone_not_mem {α : Type} (l : List (String × α)) (key : String)
    (h : (l.lookup key).isNone = true) : key ∉ l.map (fun entry => entry.1) := by
  induction l with
  | nil => simp
  | cons p rest ih =>
    obtain ⟨k, v⟩ := p
    by_cases hk : key = k
    · subst hk
      simp [List.lookup] at h
    · have hk' : (key == k) = false := by simpa using hk
      simp only [List.lookup, hk'] at h
      simp only [List.map_cons, List.mem_cons, not_or]
      exact ⟨hk, ih h⟩

theorem directoryStep_keys (cfg : Settings) (acc : List (String × String)) (record : Record)
    (hnodup : (directoryKeys acc).Nodup) :
    (directoryKeys (directoryStep cfg acc record)).Nodup ∧
    ∀ e ∈ directoryStep cfg acc record,
      e ∈ acc ∨ ∃ d, record.date = some d ∧ e.1 = keyOfDate cfg d := by
  cases hdate : record.date with
  | none =>
    simp only [directoryStep, hdate]
    exact ⟨hnodup, fun e he => Or.inl he⟩
  | some d =>
    simp only [directoryStep, hdate]
    split
    · next hnone =>
      refine ⟨?_, fun e he => ?_⟩
      · simp only [directoryKeys, List.map_append, List.map_cons, List.map_nil]
        refine List.Nodup.append hnodup (by simp) ?_
        intro k hk1 hk2
        simp only [List.mem_singleton] at hk2
        rw [hk2] at hk1
        exact lookup_isNone_not_mem acc _ hnone hk1
      · rcases List.mem_append.1 he with h | h
        · exact Or.inl h
        · simp only [List.mem_singleton] at h
          exact Or.inr ⟨d, rfl, by rw [h]⟩
    · exact ⟨hnodup, fun e he => Or.inl he⟩

theorem directory_foldl_keys (cfg : Settings) (records : List Record)
    (acc : List (String × String)) (hnodup : (directoryKeys acc).Nodup) :
    (directoryKeys (records.foldl (directoryStep cfg) acc)).Nodup ∧
    ∀ e ∈ records.foldl (directoryStep cfg) acc,
      e ∈ acc ∨ ∃ record ∈ records, ∃ d, record.date = some d ∧ e.1 = keyOfDate cfg d := by
  induction records generalizing acc with
  | nil => exact ⟨hnodup, fun e he => Or.inl he⟩
  | cons r rest ih =>
    obtain ⟨s1, s2⟩ := directoryStep_keys cfg acc r hnodup
    obtain ⟨i1, i2⟩ := ih (directoryStep cfg acc r) s1
    refine ⟨i1, fun e he => ?_⟩
    rcases i2 e he with h | ⟨record, hrec, d, hd, hk⟩
    · rcases s2 e h with h' | ⟨d, hd, hk⟩
      · exact Or.inl h'
      · exact Or.inr ⟨r, by simp, d, hd, hk⟩
    · exact Or.inr ⟨record, by simp [hrec], d, hd, hk⟩

/-- C29: the keys of the map `generateBaseDirectory` returns are exactly the
partition keys of the records that have a date (a record without a date adds
none), every key occurs once, and every key `k` is mapped to `Archive `
followed by `k`. -/
theorem base_directory_keys_and_names (cfg : Settings) (records : List Record) :
    (∀ key, key ∈ directoryKeys (generateBaseDirectory cfg records) ↔
      ∃ record ∈ records, ∃ d, record.date = some d ∧ keyOfDate cfg d = key) ∧
    (directoryKeys (generateBaseDirectory cfg records)).Nodup ∧
    (∀ e ∈ generateBaseDirectory cfg records, e.2 = "Archive " ++ e.1) ∧
    (∀ key ∈ directoryKeys (generateBaseDirectory cfg records),
      (generateBaseDirectory cfg records).lookup key = some ("Archive " ++ key)) := by
  obtain ⟨k1, k2⟩ := directory_foldl_keys cfg records [] (by simp [directoryKeys])
  have hnamed := directory_foldl_named cfg records [] (by simp)
  refine ⟨fun key => ⟨fun hkey => ?_, fun hex => ?_⟩, k1, hnamed, fun key hkey => ?_⟩
  · obtain ⟨e, he, rfl⟩ := List.mem_map.1 hkey
    rcases k2 e he with h | ⟨record, hrec, d, hd, hk⟩
    · cases h
    · exact ⟨record, hrec, d, hd, hk.symm⟩
  · obtain ⟨record, hrec, d, hd, rfl⟩ := hex
    obtain ⟨e, he, hk⟩ := directory_foldl_has cfg records [] record d hrec hd
    exact List.mem_map.2 ⟨e, he, hk⟩
  · obtain ⟨e, he, rfl⟩ := List.mem_map.1 hkey
    cases hl : (generateBaseDirectory cfg records).lookup e.1 with
    | none =>
      exact absurd (List.mem_map.2 ⟨e, he, rfl⟩)
        (lookup_isNone_not_mem _ _ (by rw [hl]; rfl))
    | some v =>
      have hmem : (e.1, v) ∈ generateBaseDirectory cfg records := by
        have : ∀ (l : List (String × String)) (k v : String), l.lookup k = some v → (k, v) ∈ l := by
          intro l k v
          induction l with
          | nil => simp
          | cons p rest ih =>
            obtain ⟨k', v'⟩ := p
            by_cases hk : k = k'
            · subst hk
              simp only [List.lookup, beq_self_eq_true]
              intro h
              injection h with h
              simp [h]
            · have hk' : (k == k') = false := by simpa using hk
              simp only [List.lookup, hk']
              intro h
              simp [ih h]
        exact this _ _ _ hl
      have hv := hnamed _ hmem
      simp only at hv
      rw [hv]

/-! ## The update calls of a batch -/

theorem slicesFrom_length_le {α : Type} (size : Nat) (l : List α) (fuel i : Nat) :
    ∀ b ∈ slicesFrom size l fuel i, b.length ≤ size := by
  induction fuel generalizing i with
  | zero => simp [slicesFrom]
  | succ fuel ih =>
    simp only [slicesFrom]
    split
    · intro b hb
      rcases List.mem_cons.1 hb with rfl | hb
      · simp [List.length_take]
      · exact ih _ b hb
    · simp

/-- When no update rejects, the update loop sets the `Archived` cell of the
records listed in its calls. -/
theorem updateLoop_master_all (upd : Nat → Option String) (hupd : ∀ k, upd k = none)
    (updates : List String) (fuel i : Nat) (s : Run) :
    (updateLoop upd updates fuel i s).1.master
      = setArchived (slicesFrom 50 updates fuel i).flatten s.master := by
  induction fuel generalizing i s with
  | zero => simp [updateLoop, slicesFrom, setArchived_nil]
  | succ fuel ih =>
    simp only [updateLoop, slicesFrom]
    by_cases hi : i < updates.length
    · simp only [hi, if_true, hupd i, List.flatten_cons]
      rw [ih]
      exact setArchived_setArchived _ _ _
    · simp [hi, setArchived_nil]

/-- C28: when the bulk-create `fetch` of a batch resolves and no update
rejects, every `updateRecordsAsync` call of `addRecordsToBaseInBatches`
carries at most 50 updates; the calls are the slices of 50 of the batch, so
their ids concatenated in call order are the ids of the records of the batch,
in batch order, each once; and the master table afterwards has the `Archived`
cell of exactly the records of the batch set. -/
theorem update_calls_cover_batch (reply : FetchReply) (upd : Nat → Option String)
    (baseId : Option String) (batch : List Record) (fieldNames : List String) (s : Run)
    (hreply : ∃ ok, reply = FetchReply.responded ok) (hupd : ∀ k, upd k = none) :
    ∃ evs, (addRecordsToBaseInBatches reply upd baseId batch fieldNames s).trace = s.trace ++ evs ∧
      (∀ call ∈ updateCalls evs, call.length ≤ 50) ∧
      (∀ k : Nat, k < (updateCalls evs).length →
        (updateCalls evs)[k]?
          = some (((batch.map (fun record => record.id)).drop (50 * k)).take 50)) ∧
      (updateCalls evs).flatten = batch.map (fun record => record.id) ∧
      (addRecordsToBaseInBatches reply upd baseId batch fieldNames s).master
        = setArchived (batch.map (fun record => record.id)) s.master := by
  obtain ⟨evs, h1, _, h3⟩ := addRecords_calls reply upd baseId batch fieldNames s
  have hcalls := h3 hreply hupd
  have hflat : (slicesFrom 50 (batch.map (fun record => record.id))
      (batch.map (fun record => record.id)).length 0).flatten
      = batch.map (fun record => record.id) := by
    rw [slicesFrom_join 50 _ _ 0 (by omega)]
    rfl
  refine ⟨evs, h1, ?_, ?_, ?_, ?_⟩
  · rw [hcalls]
    exact slicesFrom_length_le 50 _ _ 0
  · intro k hk
    rw [hcalls] at hk ⊢
    rw [slicesFrom_getElem?]
    have hsome : (slicesFrom 50 (batch.map (fun record => record.id))
        (batch.map (fun record => record.id)).length 0)[k]?.isSome = true := by
      rw [List.getElem?_eq_getElem hk]; rfl
    rw [slicesFrom_getElem?] at hsome
    split at hsome
    · next hcond =>
      rw [if_pos hcond]
      simp
    · cases hsome
  · rw [hcalls, hflat]
  · obtain ⟨ok, rfl⟩ := hreply
    have hnone := (updateLoop_calls upd hupd (batch.map (fun record => record.id))
      (batch.map (fun record => record.id)).length 0
      { s with trace := s.trace ++ [Event.bulkCreate baseId batch
                  (recordsToCreate batch fieldNames) (FetchReply.responded ok)],
               totalRecordsArchived := s.totalRecordsArchived + batch.length }).1
    have hm := updateLoop_master_all upd hupd (batch.map (fun record => record.id))
      (batch.map (fun record => record.id)).length 0
      { s with trace := s.trace ++ [Event.bulkCreate baseId batch
                  (recordsToCreate batch fieldNames) (FetchReply.responded ok)],
               totalRecordsArchived := s.totalRecordsArchived + batch.length }
    rw [hflat] at hm
    simp only [addRecordsToBaseInBatches, hnone]
    exact hm

/-- Witness for C28: a batch of 120 records is flagged by calls of 50, 50 and
20 updates. -/
theorem update_calls_cover_batch_witness :
    (∃ ok, FetchReply.responded true = FetchReply.responded ok) ∧
    (addRecordsToBaseInBatches (FetchReply.responded true) (fun _ => none) (some "app1") bigBatch
        [] (Run.start ⟨bigBatch, [], []⟩)).master
      = setArchived (bigBatch.map (fun record => record.id)) bigBatch ∧
    (updateCalls (addRecordsToBaseInBatches (FetchReply.responded true) (fun _ => none)
        (some "app1") bigBatch [] (Run.start ⟨bigBatch, [], []⟩)).trace).map List.length
      = [50, 50, 20] :=
  ⟨⟨true, rfl⟩,
    (update_calls_cover_batch (FetchReply.responded true) (fun _ => none) (some "app1") bigBatch
      [] (Run.start ⟨bigBatch, [], []⟩) ⟨true, rfl⟩ (fun _ => rfl)).choose_spec.2.2.2.2,
    by decide⟩

/-! ## Keys as digit strings -/

theorem digitValue_digitChar (k : Nat) (h : k < 10) : digitValue (Nat.digitChar k) = some k := by
  interval_cases k <;> rfl

theorem readDigits_toDigitsCore (fuel n : Nat) (ds : List Char) (h : n < fuel) :
    readDigits (Nat.toDigitsCore 10 fuel n ds) 0 = readDigits ds n := by
  induction fuel generalizing n ds with
  | zero => omega
  | succ fuel ih =>
    simp only [Nat.toDigitsCore]
    split
    · next h0 =>
      simp only [readDigits, digitValue_digitChar _ (Nat.mod_lt n (by decide))]
      congr 1
      omega
    · next h0 =>
      rw [ih _ _ (by omega)]
      simp only [readDigits, digitValue_digitChar _ (Nat.mod_lt n (by decide))]
      congr 1
      omega

/-- Reading the decimal text of a natural number gives the number back. -/
theorem readDigits_toString (n : Nat) : readDigits (toString n).data 0 = some n := by
  show readDigits (Nat.toDigitsCore 10 (n + 1) n []) 0 = some n
  rw [readDigits_toDigitsCore _ _ _ (by omega)]
  rfl

theorem readDigits_digits (l : List Char) (acc v : Nat) (h : readDigits l acc = some v) :
    ∀ c ∈ l, (digitValue c).isSome = true := by
  induction l generalizing acc with
  | nil => simp
  | cons a rest ih =>
    intro c hc
    simp only [readDigits] at h
    cases hd : digitValue a with
    | none => rw [hd] at h; cases h
    | some k =>
      rw [hd] at h
      rcases List.mem_cons.1 hc with rfl | hrest
      · rw [hd]; rfl
      · exact ih _ h c hrest

theorem natText_inj (n n' : Nat) (h : toString n = toString n') : n = n' := by
  have h1 := readDigits_toString n
  rw [h, readDigits_toString] at h1
  exact (Option.some.inj h1).symm

theorem underscore_not_mem_nat (n : Nat) : '_' ∉ (toString n).data := by
  intro hmem
  have := readDigits_digits _ _ _ (readDigits_toString n) _ hmem
  exact absurd this (by decide)

theorem underscore_not_mem_int (y : Int) : '_' ∉ (toString y).data := by
  cases y with
  | ofNat n => exact underscore_not_mem_nat n
  | negSucc n =>
    show '_' ∉ '-' :: (toString (n + 1)).data
    intro hmem
    rcases List.mem_cons.1 hmem with h | h
    · exact absurd h (by decide)
    · exact underscore_not_mem_nat _ h

/-- The decimal text of an integer determines the integer. -/
theorem intText_inj (y y' : Int) (h : toString y = toString y') : y = y' := by
  have hd : (toString y).data = (toString y').data := congrArg String.data h
  cases y with
  | ofNat n =>
    cases y' with
    | ofNat n' => exact congrArg Int.ofNat (natText_inj n n' h)
    | negSucc n' =>
      have h1 := readDigits_toString n
      have h2 : (toString (Int.ofNat n)).data = '-' :: (toString (n' + 1)).data := hd
      have h3 : (toString (Int.ofNat n)).data = (toString n).data := rfl
      rw [← h3, h2] at h1
      simp [readDigits, digitValue] at h1
  | negSucc n =>
    cases y' with
    | ofNat n' =>
      have h1 := readDigits_toString n'
      have h2 : '-' :: (toString (n + 1)).data = (toString (Int.ofNat n')).data := hd
      have h3 : (toString (Int.ofNat n')).data = (toString n').data := rfl
      rw [← h3, ← h2] at h1
      simp [readDigits, digitValue] at h1
    | negSucc n' =>
      have h2 : '-' :: (toString (n + 1)).data = '-' :: (toString (n' + 1)).data := hd
      have h3 := natText_inj _ _ (String.ext (List.cons.inj h2).2)
      have : n = n' := by omega
      rw [this]

theorem append_sep_inj (a : Char) (A A' B B' : List Char) (hA : a ∉ A) (hA' : a ∉ A')
    (h : A ++ a :: B = A' ++ a :: B') : A = A' ∧ B = B' := by
  induction A generalizing A' with
  | nil =>
    cases A' with
    | nil => exact ⟨rfl, (List.cons.inj h).2⟩
    | cons c rest =>
      have : a = c := (List.cons.inj h).1
      exact absurd (by simp [this]) hA'
  | cons c rest ih =>
    cases A' with
    | nil =>
      have : c = a := (List.cons.inj h).1
      exact absurd (by simp [this]) hA
    | cons c' rest' =>
      have h1 := List.cons.inj h
      obtain ⟨e1, e2⟩ := ih rest' (fun hm => hA (List.mem_cons_of_mem _ hm))
        (fun hm => hA' (List.mem_cons_of_mem _ hm)) h1.2
      exact ⟨by rw [h1.1, e1], e2⟩

/-- A key `year_rest` splits at its underscore in one way only. -/
theorem key_data_split (y y' : Int) (B B' : List Char)
    (h : (toString y).data ++ '_' :: B = (toString y').data ++ '_' :: B') : y = y' ∧ B = B' := by
  obtain ⟨e1, e2⟩ := append_sep_inj '_' _ _ _ _ (underscore_not_mem_int y)
    (underscore_not_mem_int y') h
  exact ⟨intText_inj _ _ (String.ext e1), e2⟩

theorem readDigits_zeros (k : Nat) (l : List Char) :
    readDigits (List.replicate k '0' ++ l) 0 = readDigits l 0 := by
  induction k with
  | zero => rfl
  | succ k ih =>
    rw [List.replicate_succ, List.cons_append]
    simp only [readDigits]
    exact ih

/-- Reading the two-digit month of a monthly key gives the month back. -/
theorem readDigits_padStart2 (m : Nat) : readDigits (padStart2 (toString m)).data 0 = some m := by
  show readDigits (List.replicate (2 - (toString m).length) '0' ++ (toString m).data) 0 = some m
  rw [readDigits_zeros, readDigits_toString]

theorem monthly_data (y : Int) (m : Nat) :
    (directoryKey Frequency.m1 y m).data
      = (toString y).data ++ '_' :: (padStart2 (toString m)).data := by
  simp only [directoryKey, String.data_append]
  rw [List.append_assoc]
  rfl

theorem quarterly_data (y : Int) (m : Nat) :
    (directoryKey Frequency.m3 y m).data
      = (toString y).data ++ '_' :: 'Q' :: (toString (ceilThird m)).data := by
  simp only [directoryKey, String.data_append]
  rw [List.append_assoc]
  rfl

theorem semiannual_data (y : Int) (m : Nat) :
    (directoryKey Frequency.m6 y m).data
      = (toString y).data ++ '_' :: (if m ≤ 6 then ['H', '1'] else ['H', '2']) := by
  simp only [directoryKey, String.data_append]
  rw [List.append_assoc]
  split <;> rfl

theorem annual_data (y : Int) (m : Nat) :
    (directoryKey Frequency.m12 y m).data = (toString y).data := rfl

/-- Equal periods give equal keys. -/
theorem directoryKey_of_period (f : Frequency) (y y' : Int) (m m' : Nat)
    (h : periodOf f y m = periodOf f y' m') : directoryKey f y m = directoryKey f y' m' := by
  cases f <;> simp only [periodOf, Prod.mk.injEq] at h
  · rw [h.1, h.2]
  · simp only [directoryKey]
    rw [h.1, h.2]
  · simp only [directoryKey]
    rw [h.1]
    by_cases hm : m ≤ 6 <;> by_cases hm' : m' ≤ 6 <;> simp [hm, hm'] at h ⊢
  · simp only [directoryKey]
    rw [h.1]

/-- Equal keys under one frequency give equal periods. -/
theorem period_of_directoryKey (f : Frequency) (y y' : Int) (m m' : Nat)
    (h : directoryKey f y m = directoryKey f y' m') : periodOf f y m = periodOf f y' m' := by
  have hd := congrArg String.data h
  cases f
  · rw [monthly_data, monthly_data] at hd
    obtain ⟨e1, e2⟩ := key_data_split _ _ _ _ hd
    have h1 := readDigits_padStart2 m
    rw [e2, readDigits_padStart2] at h1
    simp only [periodOf, e1, Option.some.inj h1]
  · rw [quarterly_data, quarterly_data] at hd
    obtain ⟨e1, e2⟩ := key_data_split _ _ _ _ hd
    have e3 := natText_inj _ _ (String.ext (List.cons.inj e2).2)
    simp only [periodOf, e1, e3]
  · rw [semiannual_data, semiannual_data] at hd
    obtain ⟨e1, e2⟩ := key_data_split _ _ _ _ hd
    simp only [periodOf, e1]
    by_cases hm : m ≤ 6 <;> by_cases hm' : m' ≤ 6 <;> simp [hm, hm'] at e2 ⊢
  · rw [annual_data, annual_data] at hd
    simp only [periodOf, intText_inj _ _ (String.ext hd)]

theorem annual_ne_split (y y' : Int) (B : List Char) :
    (toString y).data ≠ (toString y').data ++ '_' :: B := by
  intro h
  exact underscore_not_mem_int y (by rw [h]; simp)

theorem month_digits_ne (m : Nat) (c : Char) (rest : List Char) (hc : digitValue c = none) :
    (padStart2 (toString m)).data ≠ c :: rest := by
  intro h
  have h1 := readDigits_padStart2 m
  rw [h] at h1
  simp [readDigits, hc] at h1

theorem half_ne_digits (m m' : Nat) :
    (padStart2 (toString m)).data ≠ (if m' ≤ 6 then ['H', '1'] else ['H', '2']) := by
  split
  · exact month_digits_ne m 'H' ['1'] (by decide)
  · exact month_digits_ne m 'H' ['2'] (by decide)

theorem half_ne_quarter (m : Nat) (rest : List Char) :
    (if m ≤ 6 then ['H', '1'] else ['H', '2']) ≠ 'Q' :: rest := by
  split <;> intro h <;> exact absurd (List.cons.inj h).1 (by decide)

/-- Keys of different frequencies differ. -/
theorem directoryKey_frequency (f f' : Frequency) (y y' : Int) (m m' : Nat) (hf : f ≠ f') :
    directoryKey f y m ≠ directoryKey f' y' m' := by
  intro h
  have hd := congrArg String.data h
  cases f <;> cases f'
  · exact hf rfl
  · rw [monthly_data, quarterly_data] at hd
    exact month_digits_ne m 'Q' _ (by decide) (key_data_split _ _ _ _ hd).2
  · rw [monthly_data, semiannual_data] at hd
    exact half_ne_digits m m' (key_data_split _ _ _ _ hd).2
  · rw [monthly_data, annual_data] at hd
    exact annual_ne_split y' y _ hd.symm
  · rw [quarterly_data, monthly_data] at hd
    exact month_digits_ne m' 'Q' _ (by decide) (key_data_split _ _ _ _ hd).2.symm
  · exact hf rfl
  · rw [quarterly_data, semiannual_data] at hd
    exact half_ne_quarter m' _ (key_data_split _ _ _ _ hd).2.symm
  · rw [quarterly_data, annual_data] at hd
    exact annual_ne_split y' y _ hd.symm
  · rw [semiannual_data, monthly_data] at hd
    exact half_ne_digits m' m (key_data_split _ _ _ _ hd).2.symm
  · rw [semiannual_data, quarterly_data] at hd
    exact half_ne_quarter m _ (key_data_split _ _ _ _ hd).2
  · exact hf rfl
  · rw [semiannual_data, annual_data] at hd
    exact annual_ne_split y' y _ hd.symm
  · rw [annual_data, monthly_data] at hd
    exact annual_ne_split y y' _ hd
  · rw [annual_data, quarterly_data] at hd
    exact annual_ne_split y y' _ hd
  · rw [annual_data, semiannual_data] at hd
    exact annual_ne_split y y' _ hd
  · exact hf rfl

/-- C25: under one frequency two dates get the same key exactly when they lie
in the same period (same year and month, quarter or half, or same year), so
dates in different periods always get different keys; and a key produced
under one frequency is never a key produced under another frequency.  This
holds for the key of `generateBaseDirectory`, for the key computed inline in
the migration loop, and for the keys the runtime derives from two date
values. -/
theorem key_identifies_period (f f' : Frequency) (y y' : Int) (m m' : Nat) :
    (directoryKey f y m = directoryKey f y' m' ↔ periodOf f y m = periodOf f y' m') ∧
    (periodOf f y m ≠ periodOf f y' m' → inlineKey f y m ≠ inlineKey f y' m') ∧
    (f ≠ f' → directoryKey f y m ≠ directoryKey f' y' m' ∧
      inlineKey f y m ≠ inlineKey f' y' m') ∧
    (∀ (cfg : Settings) (d d' : DateCell),
      periodOf cfg.frequency (getFullYear cfg.utcOffset d) (getMonth cfg.utcOffset d + 1)
          ≠ periodOf cfg.frequency (getFullYear cfg.utcOffset d')
              (getMonth cfg.utcOffset d' + 1) →
        keyOfDate cfg d ≠ keyOfDate cfg d') ∧
    (∀ (cfg cfg' : Settings) (d d' : DateCell), cfg.frequency ≠ cfg'.frequency →
      keyOfDate cfg d ≠ keyOfDate cfg' d') := by
  refine ⟨⟨period_of_directoryKey f y y' m m', directoryKey_of_period f y y' m m'⟩, ?_, ?_, ?_, ?_⟩
  · intro hp hk
    rw [inlineKey_eq, inlineKey_eq] at hk
    exact hp (period_of_directoryKey f y y' m m' hk)
  · intro hf
    refine ⟨directoryKey_frequency f f' y y' m m' hf, ?_⟩
    rw [inlineKey_eq, inlineKey_eq]
    exact directoryKey_frequency f f' y y' m m' hf
  · intro cfg d d' hp hk
    exact hp (period_of_directoryKey _ _ _ _ _ hk)
  · intro cfg cfg' d d' hf
    exact directoryKey_frequency _ _ _ _ _ _ hf

/-! ## What the key depends on -/

theorem localYearMonth_same_day (utcOffset : Int) (d : DateCell)
    (h0 : 0 ≤ (d.minute : Int) + utcOffset) (h1 : (d.minute : Int) + utcOffset < 1440) :
    localYearMonth utcOffset d = (d.year, d.month) := by
  have h0' : ¬ ((d.minute : Int) + utcOffset < 0) := by omega
  simp [localYearMonth, h0', h1]

/-- C24 (as stated, refuted): the date value 1 January 2023, 00:00 UTC, under
monthly frequency gets the key `2023_01` in a runtime on UTC and the key
`2022_12` in a runtime five hours behind UTC. -/
theorem key_differs_between_time_zones :
    keyOfDate { sampleSettings with utcOffset := 0 } newYearsDay = "2023_01" ∧
    keyOfDate { sampleSettings with utcOffset := -300 } newYearsDay = "2022_12" := by
  decide

/-- C24 (amended): the partition key is a function of the date value, the
frequency and the runtime's offset from UTC: settings that agree on frequency
and offset give a date value the same key; two date values whose local year
and month lie in the same period get the same key, from both key expressions;
the key of a record does not depend on the other records, the directory of
any list holding the record has the entry of its key; and where the local day
is the stored day (for instance date-only values in a runtime on UTC) the key
depends on the stored year and month only, not on the day. -/
theorem key_depends_on_date_frequency_and_offset (cfg cfg' : Settings) (d d' : DateCell) :
    (cfg.frequency = cfg'.frequency → cfg.utcOffset = cfg'.utcOffset →
      keyOfDate cfg d = keyOfDate cfg' d) ∧
    (periodOf cfg.frequency (getFullYear cfg.utcOffset d) (getMonth cfg.utcOffset d + 1)
        = periodOf cfg.frequency (getFullYear cfg.utcOffset d') (getMonth cfg.utcOffset d' + 1) →
      keyOfDate cfg d = keyOfDate cfg d' ∧
      inlineKey cfg.frequency (getFullYear cfg.utcOffset d) (getMonth cfg.utcOffset d + 1)
        = inlineKey cfg.frequency (getFullYear cfg.utcOffset d')
            (getMonth cfg.utcOffset d' + 1)) ∧
    (∀ (records : List Record) (record : Record), record ∈ records → record.date = some d →
      (keyOfDate cfg d, "Archive " ++ keyOfDate cfg d) ∈ generateBaseDirectory cfg records) ∧
    (0 ≤ (d.minute : Int) + cfg.utcOffset → (d.minute : Int) + cfg.utcOffset < 1440 →
      0 ≤ (d'.minute : Int) + cfg.utcOffset → (d'.minute : Int) + cfg.utcOffset < 1440 →
      d.year = d'.year → d.month = d'.month → keyOfDate cfg d = keyOfDate cfg d') := by
  refine ⟨?_, ?_, ?_, ?_⟩
  · intro hf ho
    simp only [keyOfDate, hf, ho]
  · intro hp
    refine ⟨directoryKey_of_period _ _ _ _ _ hp, ?_⟩
    rw [inlineKey_eq, inlineKey_eq]
    exact directoryKey_of_period _ _ _ _ _ hp
  · intro records record hmem hdate
    obtain ⟨e, he, hkey⟩ := directory_foldl_has cfg records [] record d hmem hdate
    have hname := directory_foldl_named cfg records [] (by simp) e he
    have : e = (keyOfDate cfg d, "Archive " ++ keyOfDate cfg d) := by
      rw [← hkey, ← hname]
    rw [← this]
    exact he
  · intro h0 h1 h0' h1' hy hm
    simp only [keyOfDate, newDate, getFullYear, getMonth,
      localYearMonth_same_day _ _ h0 h1, localYearMonth_same_day _ _ h0' h1', hy, hm]

end MultiBaseMerge
